import Mathlib

/-!
# nailgo: a client for the Nailgun chunk protocol

A shallow embedding of `nailgo.go`.

* A byte is a natural number below 256; a Go `string` or `[]byte` is a `List Nat`.
* Go `int` is the 64-bit `int`; every quantity the code keeps in an `int` is shown in
  comments to stay inside that range, so it is carried as a `Nat` or an `Int`.
* The connection, the two sinks and the process-wide values the code reads
  (`os.Environ`, `filepath.Abs`, the separators, the standard streams) are explicit state.
* A function of the program returns an `Outcome` (a normal return or a panic) together
  with the receiver after the call.
-/

namespace Nailgo

/-! ## Errors and outcomes -/

/-- The `Err` field of a `*strconv.NumError`. -/
inductive NumErrKind where
  | ErrSyntax
  | ErrRange
  deriving DecidableEq, Repr

/-- Go `error` values that can reach the program. -/
inductive GoError where
  /-- `io.EOF` -/
  | EOF
  /-- `io.ErrUnexpectedEOF` -/
  | ErrUnexpectedEOF
  /-- an error reported by the transport (reset, timeout, ...) -/
  | connErr (code : Nat)
  /-- an operation on a connection that was closed before -/
  | useOfClosed
  /-- an error reported by an `io.Writer` sink -/
  | writerErr (code : Nat)
  /-- an error reported by the operating system (`os.Getwd`) -/
  | osErr (code : Nat)
  /-- the value of `fmt.Errorf(format, args...)` -/
  | errorf (format : String) (args : List Nat)
  /-- a `*strconv.NumError` with its `Func`, `Num` and `Err` -/
  | numError (fn : String) (num : List Nat) (kind : NumErrKind)
  deriving DecidableEq, Repr

/-- How a call ends: it returns, it panics, or the loop budget of the model ran out. -/
inductive Outcome (α : Type) where
  | ret (a : α)
  | panic (msg : String)
  | outOfFuel
  deriving DecidableEq, Repr

/-- The bytes of an ASCII literal. -/
def ascii (s : String) : List Nat := s.data.map Char.toNat

/-- Conversion to `byte`. -/
def byte (n : Nat) : Nat := n % 256

/-! ## The connection (`net.Conn`) -/

/-- What the transport has for one `Read` call: the bytes that are ready, and the error it
reports once those bytes are handed over. -/
structure ReadStep where
  data : List Nat
  err : Option GoError
  deriving DecidableEq, Repr

/-- What the transport does with one `Write` call: how many bytes it takes at most
(`none`: all of them) and the error it reports. -/
structure WriteStep where
  limit : Option Nat
  err : Option GoError
  deriving DecidableEq, Repr

/-- One operation performed on the connection. -/
inductive ConnOp where
  | write (accepted : List Nat)
  | read (got : List Nat)
  | close
  deriving DecidableEq, Repr

/-- A connection: the scripted behaviour of the peer and the operations performed so far.
When the read script is used up the peer has closed its side (`io.EOF`); when the write
script is used up every write is accepted in full. -/
structure Conn where
  reads : List ReadStep
  writes : List WriteStep
  ops : List ConnOp
  closed : Bool
  deriving DecidableEq, Repr

/-- The bytes of one connection operation that went onto the wire. -/
def ConnOp.wire : ConnOp → List Nat
  | .write bs => bs
  | .read _ => []
  | .close => []

/-- Everything written to the connection so far. -/
def Conn.sent (c : Conn) : List Nat := (c.ops.map ConnOp.wire).flatten

/-- `Conn.Write(b)`: the number of bytes taken and the error. -/
def Conn.Write (c : Conn) (b : List Nat) : (Nat × Option GoError) × Conn :=
  if c.closed then
    ((0, some .useOfClosed), { c with ops := c.ops ++ [.write []] })
  else
    match c.writes with
    | [] => ((b.length, none), { c with ops := c.ops ++ [.write b] })
    | w :: ws =>
      let n := match w.limit with
        | none => b.length
        | some m => min m b.length
      ((n, w.err), { c with writes := ws, ops := c.ops ++ [.write (b.take n)] })

/-- `Conn.Read(buf)` with `len(buf) = k`: the bytes stored at the start of `buf` and the
error. A read never returns more than one step of the script, and what does not fit in
`buf` stays for the next call. -/
def Conn.Read (c : Conn) (k : Nat) : (List Nat × Option GoError) × Conn :=
  if c.closed then
    (([], some .useOfClosed), { c with ops := c.ops ++ [.read []] })
  else
    match c.reads with
    | [] => (([], some .EOF), { c with ops := c.ops ++ [.read []] })
    | s :: rest =>
      if s.data.length ≤ k then
        ((s.data, s.err), { c with reads := rest, ops := c.ops ++ [.read s.data] })
      else
        ((s.data.take k, none),
          { c with reads := { s with data := s.data.drop k } :: rest,
                   ops := c.ops ++ [.read (s.data.take k)] })

/-- `Conn.Close()`. -/
def Conn.Close (c : Conn) : Option GoError × Conn :=
  if c.closed then (some .useOfClosed, { c with ops := c.ops ++ [.close] })
  else (none, { c with closed := true, ops := c.ops ++ [.close] })

/-- A bound on the number of `Read` calls that return without an error. -/
def cost (rs : List ReadStep) : Nat := (rs.map (fun s => s.data.length + 1)).sum

/-- The loop of `io.ReadAtLeast(r, buf, min)` with `len(buf) = min`; `buf` holds the bytes
read so far. -/
def readAtLeastLoop : Nat → Conn → Nat → List Nat →
    Outcome (List Nat × Option GoError) × Conn
  | 0, c, _, _ => (.outOfFuel, c)
  | fuel + 1, c, min, buf =>
    if buf.length < min then
      let r := c.Read (min - buf.length)
      match r.1.2 with
      | none => readAtLeastLoop fuel r.2 min (buf ++ r.1.1)
      | some e => (.ret (buf ++ r.1.1, some e), r.2)
    else (.ret (buf, none), c)

/-- `io.ReadFull(r, buf)` with `len(buf) = len`: the bytes read and the error. -/
def ReadFull (c : Conn) (len : Nat) : Outcome (List Nat × Option GoError) × Conn :=
  match readAtLeastLoop (cost c.reads + 1) c len [] with
  | (.ret (buf, err), c') =>
    if len ≤ buf.length then (.ret (buf, none), c')
    else if 0 < buf.length ∧ err = some .EOF then (.ret (buf, some .ErrUnexpectedEOF), c')
    else (.ret (buf, err), c')
  | (.panic m, c') => (.panic m, c')
  | (.outOfFuel, c') => (.outOfFuel, c')

/-! ## Sinks (`io.Writer`) -/

/-- A sink: the contents of the `Write` calls it has seen, and the scripted outcome of the
calls to come (`none`: the write succeeds; `some (n, e)`: `n` bytes are taken and `e` is
returned). When the script is used up every write succeeds. -/
structure Sink where
  writes : List (List Nat)
  script : List (Option (Nat × GoError))
  deriving DecidableEq, Repr

/-- The bytes a sink has received. -/
def Sink.received (s : Sink) : List Nat := s.writes.flatten

/-- `Write(p)` on a sink. -/
def Sink.Write (s : Sink) (p : List Nat) : Option GoError × Sink :=
  match s.script with
  | [] => (none, { s with writes := s.writes ++ [p] })
  | none :: rest => (none, { writes := s.writes ++ [p], script := rest })
  | some (n, e) :: rest => (some e, { writes := s.writes ++ [p.take n], script := rest })

/-! ## The process and the receiver -/

/-- The process-wide values the code reads. -/
structure Host where
  /-- `os.Environ()` -/
  environ : List (List Nat)
  /-- `filepath.Abs(".")` -/
  absDot : Except GoError (List Nat)
  /-- `os.PathListSeparator` -/
  PathListSeparator : Nat
  /-- `os.PathSeparator` -/
  PathSeparator : Nat
  /-- `os.Stdout` -/
  Stdout : Sink
  /-- `os.Stderr` -/
  Stderr : Sink

/-- The struct `NailgunConnection`; a `nil` writer is `none`. -/
structure NailgunConnection where
  Conn : Conn
  Output : Option Sink
  Outerr : Option Sink
  deriving DecidableEq, Repr

/-! ## Sending -/

/-- The 5-byte header that `sendChunk` builds. -/
def chunkHeader (chunkType : Nat) (payload : List Nat) : List Nat :=
  let n := payload.length
  [byte ((n >>> 24) &&& 0xff), byte ((n >>> 16) &&& 0xff), byte ((n >>> 8) &&& 0xff),
    byte ((n >>> 0) &&& 0xff), chunkType]

/-- The method `sendChunk`. -/
def sendChunk (self : NailgunConnection) (chunkType : Nat) (payload : List Nat) :
    Outcome (Option GoError) × NailgunConnection :=
  let header := chunkHeader chunkType payload
  let w1 := self.Conn.Write header
  let self1 : NailgunConnection := { self with Conn := w1.2 }
  if w1.1.2 ≠ none then (.ret w1.1.2, self1)
  else if w1.1.1 ≠ header.length then (.panic "Unexpected short-write", self1)
  else
    let w2 := self1.Conn.Write payload
    let self2 : NailgunConnection := { self1 with Conn := w2.2 }
    if w2.1.2 ≠ none then (.ret w2.1.2, self2)
    else if w2.1.1 ≠ payload.length then (.panic "Unexpected short-write", self2)
    else (.ret none, self2)

/-- The method `sendArguments`. -/
def sendArguments (self : NailgunConnection) :
    List (List Nat) → Outcome (Option GoError) × NailgunConnection
  | [] => (.ret none, self)
  | arg :: rest =>
    match sendChunk self 65 /- 'A' -/ arg with
    | (.ret none, self1) => sendArguments self1 rest
    | r => r

/-- The `for ... range os.Environ()` loop of `sendEnvironment`. -/
def sendEnvironmentLoop (self : NailgunConnection) :
    List (List Nat) → Outcome (Option GoError) × NailgunConnection
  | [] => (.ret none, self)
  | env :: rest =>
    match sendChunk self 69 /- 'E' -/ env with
    | (.ret none, self1) => sendEnvironmentLoop self1 rest
    | r => r

/-- Two hexadecimal digits, lower case. -/
def hex2 (r : Nat) : List Nat :=
  let h (d : Nat) : Nat := if d < 10 then 48 + d else 87 + d
  [h (r / 16 % 16), h (r % 16)]

/-- `strconv.QuoteRune(r)` for an ASCII rune `r`; the separators of every platform are
ASCII. A rune from 0x80 on is not modelled and is rendered like a printable one. -/
def QuoteRune (r : Nat) : List Nat :=
  if r = 39 then [39, 92, 39, 39]
  else if r = 92 then [39, 92, 92, 39]
  else if r = 7 then [39, 92, 97, 39]
  else if r = 8 then [39, 92, 98, 39]
  else if r = 12 then [39, 92, 102, 39]
  else if r = 10 then [39, 92, 110, 39]
  else if r = 13 then [39, 92, 114, 39]
  else if r = 9 then [39, 92, 116, 39]
  else if r = 11 then [39, 92, 118, 39]
  else if r < 32 ∨ r = 127 then [39, 92, 120] ++ hex2 r ++ [39]
  else [39, r, 39]

/-- The local `fileSep` of `sendEnvironment`. -/
def fileSep (host : Host) : List Nat :=
  ascii "NAILGUN_FILESEPARATOR=" ++ QuoteRune host.PathListSeparator

/-- The local `pathSep` of `sendEnvironment`. -/
def pathSep (host : Host) : List Nat :=
  ascii "NAILGUN_PATHSEPARATOR=" ++ QuoteRune host.PathSeparator

/-- The method `sendEnvironment`. The results of the last two `sendChunk` calls are
assigned to `err` and not looked at; the method then returns `nil`. -/
def sendEnvironment (host : Host) (self : NailgunConnection) :
    Outcome (Option GoError) × NailgunConnection :=
  match sendEnvironmentLoop self host.environ with
  | (.ret none, self1) =>
    match sendChunk self1 69 (fileSep host) with
    | (.ret _, self2) =>
      match sendChunk self2 69 (pathSep host) with
      | (.ret _, self3) => (.ret none, self3)
      | r => r
    | r => r
  | r => r

/-- The method `sendWorkingDirectory`. -/
def sendWorkingDirectory (host : Host) (self : NailgunConnection) :
    Outcome (Option GoError) × NailgunConnection :=
  match host.absDot with
  | .error e => (.ret (some e), self)
  | .ok cwd => sendChunk self 68 /- 'D' -/ cwd

/-! ## `strconv.Atoi` (Go standard library, 64-bit `int`) -/

/-- `strconv.syntaxError(fn, str)`. -/
def syntaxError (fn : String) (str : List Nat) : GoError := .numError fn str .ErrSyntax

/-- `strconv.rangeError(fn, str)`. -/
def rangeError (fn : String) (str : List Nat) : GoError := .numError fn str .ErrRange

/-- The digit loop of the fast path of `Atoi`; `none` is the syntax error. With at most 18
digits `n` stays below `10^18`, inside `int`. -/
def atoiFastLoop : List Nat → Nat → Option Nat
  | [], n => some n
  | ch :: rest, n =>
    let ch := (ch + 256 - 48) % 256 /- ch -= '0' on a byte -/
    if ch > 9 then none else atoiFastLoop rest (n * 10 + ch)

/-- `maxUint64`. -/
def maxUint64 : Nat := 2 ^ 64 - 1

/-- The digit loop of `strconv.ParseUint(s, 10, 64)`; `n` is a `uint64`. -/
def parseUintLoop (s0 : List Nat) : List Nat → Nat → Nat × Option GoError
  | [], n => (n, none)
  | c :: rest, n =>
    let lower := c ||| 32
    if 48 ≤ c ∧ c ≤ 57 then
      let d := c - 48
      if d ≥ 10 then (0, some (syntaxError "ParseUint" s0))
      else if n ≥ maxUint64 / 10 + 1 then (maxUint64, some (rangeError "ParseUint" s0))
      else
        let n10 := n * 10
        let n1 := (n10 + d) % 2 ^ 64
        if n1 < n10 ∨ n1 > maxUint64 then (maxUint64, some (rangeError "ParseUint" s0))
        else parseUintLoop s0 rest n1
    else if 97 ≤ lower ∧ lower ≤ 122 then
      let d := lower - 97 + 10
      if d ≥ 10 then (0, some (syntaxError "ParseUint" s0))
      else (0, some (syntaxError "ParseUint" s0))
    else (0, some (syntaxError "ParseUint" s0))

/-- `strconv.ParseUint(s, 10, 64)`. -/
def ParseUint (s : List Nat) : Nat × Option GoError :=
  if s = [] then (0, some (syntaxError "ParseUint" s)) else parseUintLoop s s 0

/-- Conversion of a `uint64` to `int64`. -/
def toInt64 (u : Nat) : Int := ((u + 2 ^ 63) % 2 ^ 64 : Nat) - 2 ^ 63

/-- Negation of an `int64`. -/
def negInt64 (i : Int) : Int := (((-i) + 2 ^ 63) % 2 ^ 64) - 2 ^ 63

/-- `strconv.ParseInt(s, 10, 0)`, with the rewriting of `Func` that `Atoi` does on the
error it gets back. -/
def ParseInt (s : List Nat) : Int × Option GoError :=
  match s with
  | [] => (0, some (syntaxError "Atoi" s))
  | c :: rest =>
    let neg := decide (c = 45)
    let body := if c = 43 ∨ c = 45 then rest else s
    let r := ParseUint body
    match r.2 with
    | some (.numError _ _ .ErrSyntax) => (0, some (syntaxError "Atoi" s))
    | _ =>
      let un := r.1
      let cutoff : Nat := 2 ^ 63
      if neg = false ∧ un ≥ cutoff then ((cutoff : Int) - 1, some (rangeError "Atoi" s))
      else if neg = true ∧ un > cutoff then (-(cutoff : Int), some (rangeError "Atoi" s))
      else
        let n := toInt64 un
        (if neg then negInt64 n else n, none)

/-- `strconv.Atoi(s)`. -/
def Atoi (s : List Nat) : Int × Option GoError :=
  if 0 < s.length ∧ s.length < 19 then
    let body := if s.head? = some 45 ∨ s.head? = some 43 then s.tail else s
    if (s.head? = some 45 ∨ s.head? = some 43) ∧ body.length < 1 then
      (0, some (syntaxError "Atoi" s))
    else
      match atoiFastLoop body 0 with
      | none => (0, some (syntaxError "Atoi" s))
      | some n => (if s.head? = some 45 then -(n : Int) else (n : Int), none)
  else ParseInt s

/-! ## Receiving -/

/-- The method `readFully` on a buffer of `len` bytes: the bytes now in the buffer and the
error. -/
def readFully (self : NailgunConnection) (len : Nat) :
    Outcome (List Nat × Option GoError) × NailgunConnection :=
  match ReadFull self.Conn len with
  | (.ret (buf, some e), c) => (.ret (buf, some e), { self with Conn := c })
  | (.ret (buf, none), c) =>
    if buf.length ≠ len then
      (.ret (buf, some (.errorf "Unexpected short read of response buffer" [])),
        { self with Conn := c })
    else (.ret (buf, none), { self with Conn := c })
  | (.panic m, c) => (.panic m, { self with Conn := c })
  | (.outOfFuel, c) => (.outOfFuel, { self with Conn := c })

/-- The local `dest` of `readFromServer`: which field of the receiver it was copied from. -/
inductive Dest where
  | Output
  | Outerr
  deriving DecidableEq, Repr

/-- `dest.Write(p)`; a call through a `nil` interface panics. -/
def destWrite (self : NailgunConnection) (dest : Dest) (p : List Nat) :
    Outcome (Option GoError) × NailgunConnection :=
  match dest with
  | .Output =>
    match self.Output with
    | none => (.panic "nil pointer dereference", self)
    | some s => (.ret (s.Write p).1, { self with Output := some (s.Write p).2 })
  | .Outerr =>
    match self.Outerr with
    | none => (.panic "nil pointer dereference", self)
    | some s => (.ret (s.Write p).1, { self with Outerr := some (s.Write p).2 })

/-- The loop `for payloadLength > 0` of `readFromServer` with a buffer of `N` bytes.
`none` means that the loop ended and the outer loop goes on; `some r` is a `return` of
the method. `n ≤ read ≤ payloadLength`, so the subtraction stays in the naturals. -/
def payloadLoop (N : Nat) (dest : Dest) : Nat → NailgunConnection → Nat →
    Outcome (Option (Int × Option GoError)) × NailgunConnection
  | 0, self, _ => (.outOfFuel, self)
  | fuel + 1, self, payloadLength =>
    if payloadLength > 0 then
      let read := if payloadLength > N then N else payloadLength
      let r := self.Conn.Read read
      let self1 : NailgunConnection := { self with Conn := r.2 }
      let n := r.1.1.length
      if n > 0 then
        match destWrite self1 dest r.1.1 with
        | (.ret (some writeErr), self2) => (.ret (some (0, some writeErr)), self2)
        | (.ret none, self2) =>
          match r.1.2 with
          | some e => (.ret (some (0, some e)), self2)
          | none => payloadLoop N dest fuel self2 (payloadLength - n)
        | (.panic m, self2) => (.panic m, self2)
        | (.outOfFuel, self2) => (.outOfFuel, self2)
      else
        match r.1.2 with
        | some e => (.ret (some (0, some e)), self1)
        | none => payloadLoop N dest fuel self1 payloadLength
    else (.ret none, self)

/-- The header-decoding arithmetic of `readFromServer`. With bytes below 256 the value is
below `2^32`. -/
def payloadLengthOf (header : List Nat) : Nat :=
  (header.getD 0 0 <<< 24) ||| (header.getD 1 0 <<< 16) ||| (header.getD 2 0 <<< 8) |||
    (header.getD 3 0 <<< 0)

/-- The two `if ... == nil` statements of `readFromServer` that set a missing sink to the
standard stream of the process. -/
def defaultSinks (host : Host) (self : NailgunConnection) : NailgunConnection :=
  let self2 : NailgunConnection :=
    if self.Output.isNone then { self with Output := some host.Stdout } else self
  if self2.Outerr.isNone then { self2 with Outerr := some host.Stderr } else self2

/-- Where the `switch payloadType` of `readFromServer` leaves the iteration: at the
payload loop with `dest` set, at `continue`, or at a `return` (or a panic). -/
inductive Switch where
  | forward (dest : Dest)
  | next
  | done (r : Outcome (Int × Option GoError))
  deriving DecidableEq, Repr

/-- The `switch payloadType` statement of `readFromServer`; the buffer has `N` bytes, so
the slice `buffer[0:payloadLength]` of the `X` case panics when `payloadLength > N`. -/
def switchChunk (N : Nat) (self : NailgunConnection) (payloadType payloadLength : Nat) :
    Switch × NailgunConnection :=
  if payloadType = 49 /- '1' -/ then (.forward .Output, self)
  else if payloadType = 50 /- '2' -/ then (.forward .Outerr, self)
  else if payloadType = 83 /- 'S' -/ then
    if payloadLength ≠ 0 then
      (.done (.ret (0, some (.errorf "Expected 0 length for S chunk" []))), self)
    else (.next, self)
  else if payloadType = 88 /- 'X' -/ then
    if payloadLength > N then (.done (.panic "slice bounds out of range"), self)
    else
      match readFully self payloadLength with
      | (.ret (_, some e), self1) => (.done (.ret (0, some e)), self1)
      | (.panic m, self1) => (.done (.panic m), self1)
      | (.outOfFuel, self1) => (.done .outOfFuel, self1)
      | (.ret (buffer, none), self1) =>
        match (Atoi buffer).2 with
        | some e => (.done (.ret ((Atoi buffer).1, some e)), self1)
        | none => (.done (.ret ((Atoi buffer).1, none)), self1)
  else (.done (.ret (0, some (.errorf "Unexpected chunk type %v" [payloadType]))), self)

/-- The outer `for` loop of `readFromServer` with a buffer of `N` bytes. -/
def readFromServerLoop (host : Host) (N : Nat) : Nat → NailgunConnection →
    Outcome (Int × Option GoError) × NailgunConnection
  | 0, self => (.outOfFuel, self)
  | fuel + 1, self =>
    match readFully self 5 with
    | (.ret (_, some e), self1) => (.ret (0, some e), self1)
    | (.panic m, self1) => (.panic m, self1)
    | (.outOfFuel, self1) => (.outOfFuel, self1)
    | (.ret (header, none), self1) =>
      let payloadLength := payloadLengthOf header
      let payloadType := header.getD 4 0
      match switchChunk N (defaultSinks host self1) payloadType payloadLength with
      | (.done r, self2) => (r, self2)
      | (.next, self2) => readFromServerLoop host N fuel self2
      | (.forward dest, self2) =>
        match payloadLoop N dest (cost self2.Conn.reads + 1) self2 payloadLength with
        | (.ret (some r), self3) => (.ret r, self3)
        | (.ret none, self3) => readFromServerLoop host N fuel self3
        | (.panic m, self3) => (.panic m, self3)
        | (.outOfFuel, self3) => (.outOfFuel, self3)

/-- The method `readFromServer`: `N := 16284`. -/
def readFromServer (host : Host) (self : NailgunConnection) :
    Outcome (Int × Option GoError) × NailgunConnection :=
  readFromServerLoop host 16284 (cost self.Conn.reads + 1) self

/-- The method `close`. -/
def close (self : NailgunConnection) : Option GoError × NailgunConnection :=
  (self.Conn.Close.1, { self with Conn := self.Conn.Close.2 })

/-- The body of `SendCommand`, before the deferred `close` runs. -/
def SendCommandBody (host : Host) (self : NailgunConnection) (command : List Nat)
    (cmdargs : List (List Nat)) : Outcome (Int × Option GoError) × NailgunConnection :=
  match sendArguments self cmdargs with
  | (.panic m, self1) => (.panic m, self1)
  | (.outOfFuel, self1) => (.outOfFuel, self1)
  | (.ret (some e), self1) => (.ret (1, some e), self1)
  | (.ret none, self1) =>
    match sendEnvironment host self1 with
    | (.panic m, self2) => (.panic m, self2)
    | (.outOfFuel, self2) => (.outOfFuel, self2)
    | (.ret _, self2) =>
      match sendWorkingDirectory host self2 with
      | (.panic m, self3) => (.panic m, self3)
      | (.outOfFuel, self3) => (.outOfFuel, self3)
      | (.ret (some e), self3) => (.ret (1, some e), self3)
      | (.ret none, self3) =>
        match sendChunk self3 67 /- 'C' -/ command with
        | (.panic m, self4) => (.panic m, self4)
        | (.outOfFuel, self4) => (.outOfFuel, self4)
        | (.ret (some e), self4) => (.ret (1, some e), self4)
        | (.ret none, self4) => readFromServer host self4

/-- The method `SendCommand`: the body, then the deferred `self.close()`, which also runs
when the body panics. -/
def SendCommand (host : Host) (self : NailgunConnection) (command : List Nat)
    (cmdargs : List (List Nat)) : Outcome (Int × Option GoError) × NailgunConnection :=
  ((SendCommandBody host self command cmdargs).1,
    (close (SendCommandBody host self command cmdargs).2).2)

/-! ## Standard input and `main` -/

/-- What one `read` system call on standard input gives: bytes, or an error. -/
inductive StdinEvent where
  | data (bs : List Nat)
  | fail (e : GoError)
  deriving DecidableEq, Repr

/-- `os.Stdin.Read(buf)` with `len(buf) = k > 0`, on the system calls to come. `os.Stdin` is
an `*os.File`: a system call that gives no byte and no error is the end of the file and
is returned as `0, io.EOF`; a system call that fails is returned as `0, err`; bytes are
returned with a `nil` error. At the end of the script the file is at its end. -/
def osFileRead (stdin : List StdinEvent) (k : Nat) :
    (List Nat × Option GoError) × List StdinEvent :=
  match stdin with
  | [] => (([], some .EOF), [])
  | .fail e :: rest => (([], some e), rest)
  | .data bs :: rest =>
    if bs.length = 0 then (([], some .EOF), rest)
    else if bs.length ≤ k then ((bs, none), rest)
    else ((bs.take k, none), .data (bs.drop k) :: rest)

/-- A bound on the number of reads of standard input that return bytes. -/
def stdinCost (stdin : List StdinEvent) : Nat :=
  (stdin.map (fun ev => match ev with
    | .data bs => bs.length + 1
    | .fail _ => 1)).sum

/-- The `for` loop of `forwardStdin` with a buffer of `N` bytes: `.ret none` is the
`break`, `.ret (some e)` is a `return` with `err = e`. -/
def forwardStdinLoop (N : Nat) : Nat → List StdinEvent → NailgunConnection →
    Outcome (Option GoError) × (List StdinEvent × NailgunConnection)
  | 0, stdin, self => (.outOfFuel, (stdin, self))
  | fuel + 1, stdin, self =>
    let r := osFileRead stdin N
    match r.1.2 with
    | some e =>
      if r.1.1.length = 0 ∧ e = .EOF then (.ret none, (r.2, self))
      else (.ret (some e), (r.2, self))
    | none =>
      match sendChunk self 48 /- '0' -/ r.1.1 with
      | (.ret none, self1) => forwardStdinLoop N fuel r.2 self1
      | (o, self1) => (o, (r.2, self1))

/-- The method `forwardStdin`: `N := 8192`, `r := os.Stdin`. -/
def forwardStdin (stdin : List StdinEvent) (self : NailgunConnection) :
    Outcome (Option GoError) × (List StdinEvent × NailgunConnection) :=
  match forwardStdinLoop 8192 (stdinCost stdin + 1) stdin self with
  | (.ret none, (stdin1, self1)) =>
    ((sendChunk self1 46 /- '.' -/ []).1, (stdin1, (sendChunk self1 46 []).2))
  | r => r

/-- The exit code `main` passes to `os.Exit` after `SendCommand` returned
`(exitCode, err)`: 2 for an error other than `io.EOF`, `exitCode` otherwise. -/
def mainExitCode (exitCode : Int) (err : Option GoError) : Int :=
  match err with
  | some e => if e ≠ .EOF then 2 else exitCode
  | none => exitCode

/-- The part of `main` after the connection is made: `SendCommand`, then the exit code of
the process. -/
def mainAfterDial (host : Host) (ng : NailgunConnection) (command : List Nat)
    (cmdargs : List (List Nat)) : Outcome Int :=
  match (SendCommand host ng command cmdargs).1 with
  | .ret (exitCode, err) => .ret (mainExitCode exitCode err)
  | .panic m => .panic m
  | .outOfFuel => .outOfFuel

/-! ## The wire format in the words of the specification -/

/-- The 4-byte big-endian unsigned encoding of `n`. -/
def be32 (n : Nat) : List Nat := [n / 2 ^ 24 % 256, n / 2 ^ 16 % 256, n / 2 ^ 8 % 256, n % 256]

/-- The number a big-endian byte sequence stands for. -/
def beValue (bs : List Nat) : Nat := bs.foldl (fun a b => a * 256 + b) 0

/-- A frame: `length(4 bytes, big-endian) || type(1 byte) || payload`. -/
def frame (t : Nat) (p : List Nat) : List Nat := be32 p.length ++ [t] ++ p

/-- Splitting a byte stream into frames by the wire format: `length`, `type`, then
`length` bytes of payload. `none` when the stream does not end at a frame boundary. -/
def parseFrames : Nat → List Nat → Option (List (Nat × List Nat))
  | _, [] => some []
  | 0, _ :: _ => none
  | fuel + 1, b :: bs =>
    let s := b :: bs
    if s.length < 5 then none
    else
      let len := beValue (s.take 4)
      let rest := s.drop 5
      if rest.length < len then none
      else (parseFrames fuel (rest.drop len)).map (fun fs => (s.getD 4 0, rest.take len) :: fs)

/-- The frames of a byte stream. -/
def decodeFrames (s : List Nat) : Option (List (Nat × List Nat)) := parseFrames s.length s

/-- The bytes of a sequence of frames given as (type, payload) pairs. -/
def encodeFrames (fs : List (Nat × List Nat)) : List Nat :=
  (fs.map (fun f => frame f.1 f.2)).flatten

/-! ## Connections, transports and sinks that behave -/

/-- A connection that accepts every write in full: it is open and no step of its write
script limits a write or reports an error. -/
def Conn.AcceptsAll (c : Conn) : Prop :=
  c.closed = false ∧ ∀ w ∈ c.writes, w.limit = none ∧ w.err = none

instance (c : Conn) : Decidable c.AcceptsAll := by
  unfold Conn.AcceptsAll; infer_instance

/-- The connection after the writes `bs` were all accepted in full. -/
def Conn.afterWrites (c : Conn) (bs : List (List Nat)) : Conn :=
  { c with writes := c.writes.drop bs.length, ops := c.ops ++ bs.map ConnOp.write }

/-- The two `Write` calls of each chunk of a sequence of frames. -/
def chunkWrites (fs : List (Nat × List Nat)) : List (List Nat) :=
  (fs.map (fun f => [chunkHeader f.1 f.2, f.2])).flatten

/-- The frames of the environment part of a request. -/
def environmentFrames (host : Host) : List (Nat × List Nat) :=
  host.environ.map (fun e => (69, e)) ++ [(69, fileSep host), (69, pathSep host)]

/-- The connection `c'` differs from `c` by `Read` calls only. -/
def Conn.ReadsOnly (c c' : Conn) : Prop :=
  c'.writes = c.writes ∧ c'.closed = c.closed ∧
    ∃ rs : List (List Nat), c'.ops = c.ops ++ rs.map ConnOp.read

/-- No step of the script reports an error. -/
def ErrFree (rs : List ReadStep) : Prop := ∀ s ∈ rs, s.err = none

/-- The bytes of a script, in order. -/
def flat (rs : List ReadStep) : List Nat := (rs.map ReadStep.data).flatten

/-- The connection is open and the transport hands over the bytes `bs`, cut into reads in
any way (empty reads included) and without an error, before it goes on with the script
`post`. -/
def Conn.Delivers (c : Conn) (bs : List Nat) (post : List ReadStep) : Prop :=
  c.closed = false ∧ ∃ pre, c.reads = pre ++ post ∧ ErrFree pre ∧ flat pre = bs

/-- A sink every write to which succeeds. -/
def Sink.Reliable (s : Sink) : Prop := ∀ o ∈ s.script, o = none

/-- The sink after the writes `ws` all succeeded. -/
def Sink.afterWrites (s : Sink) (ws : List (List Nat)) : Sink :=
  { writes := s.writes ++ ws, script := s.script.drop ws.length }

/-- The sink a `dest` stands for. -/
def NailgunConnection.sink (self : NailgunConnection) : Dest → Option Sink
  | .Output => self.Output
  | .Outerr => self.Outerr

/-- The receiver with the sink of `dest` replaced. -/
def NailgunConnection.setSink (self : NailgunConnection) (dest : Dest) (s : Sink) :
    NailgunConnection :=
  match dest with
  | .Output => { self with Output := some s }
  | .Outerr => { self with Outerr := some s }

/-! ## Decimal text and frame sequences -/

/-- The decimal digits of a natural number as ASCII text, most significant first. -/
def decimal (n : Nat) : List Nat :=
  if n = 0 then [48] else (Nat.digits 10 n).reverse.map (fun d => d + 48)

/-- The decimal text of an integer: a minus sign for a negative number, then the digits of
its absolute value without leading zeros (what `strconv.Itoa` prints). -/
def itoa (c : Int) : List Nat :=
  if c < 0 then 45 :: decimal c.natAbs else decimal c.natAbs

/-- The number a list of digits stands for, most significant digit first, on top of `n`. -/
def horner (ds : List Nat) (n : Nat) : Nat := ds.foldl (fun a d => a * 10 + d) n

/-- The digits behind `decimal n`, most significant first. -/
def decimalDigits (n : Nat) : List Nat := if n = 0 then [0] else (Nat.digits 10 n).reverse

/-- The payloads of the frames tagged `t`, one after the other. -/
def payloadsOf (t : Nat) (frames : List (Nat × List Nat)) : List Nat :=
  ((frames.filter (fun f => f.1 = t)).map (fun f => f.2)).flatten

/-- The frames of a request, in the order of the specification: arguments, environment,
working directory, command. -/
def requestFrames (host : Host) (command : List Nat) (cmdargs : List (List Nat))
    (cwd : List Nat) : List (Nat × List Nat) :=
  cmdargs.map (fun a => (65, a)) ++ environmentFrames host ++ [(68, cwd), (67, command)]

/-! ## Concrete inputs -/

/-- A Unix process with one environment entry, `A=B`, in the directory `/tmp`. -/
def exampleHost : Host :=
  { environ := [ascii "A=B"], absDot := .ok (ascii "/tmp"), PathListSeparator := 58,
    PathSeparator := 47, Stdout := ⟨[], []⟩, Stderr := ⟨[], []⟩ }

/-- An open connection with the given read script that accepts every write; nothing has
happened on it yet. -/
def freshConn (reads : List ReadStep) : Conn :=
  { reads := reads, writes := [], ops := [], closed := false }

/-- A receiver on a fresh connection, with no sink set. -/
def freshNg (reads : List ReadStep) : NailgunConnection :=
  { Conn := freshConn reads, Output := none, Outerr := none }

/-- A transport that hands the bytes over one at a time. -/
def byteWise (bs : List Nat) : List ReadStep := bs.map (fun b => ⟨[b], none⟩)

/-- The response `1`/"hello", `2`/"oops", `X`/"3" as bytes. -/
def helloOopsThree : List Nat :=
  [0, 0, 0, 5, 49, 104, 101, 108, 108, 111, 0, 0, 0, 4, 50, 111, 111, 112, 115,
    0, 0, 0, 1, 88, 51]

/-- A connection whose first write fails with an error and takes no byte, and which then
accepts every write; the server answers with the exit chunk `X`/"0". -/
def firstWriteFails : NailgunConnection :=
  { Conn := { reads := [⟨[0, 0, 0, 1, 88, 48], none⟩], writes := [⟨some 0, some (.connErr 1)⟩],
              ops := [], closed := false },
    Output := none, Outerr := none }

/-- A connection on which the header of the `NAILGUN_FILESEPARATOR` chunk, the third write
of `sendEnvironment`, fails with an error; the server answers with `X`/"0". -/
def separatorWriteFails : NailgunConnection :=
  { Conn := { reads := [⟨[0, 0, 0, 1, 88, 48], none⟩],
              writes := [⟨none, none⟩, ⟨none, none⟩, ⟨some 0, some (.connErr 1)⟩],
              ops := [], closed := false },
    Output := none, Outerr := none }

/-- The connection `c'` differs from `c` by operations other than `Close`, and is open or
closed as `c` is. -/
def Conn.NoClose (c c' : Conn) : Prop :=
  c'.closed = c.closed ∧ ∃ mid, c'.ops = c.ops ++ mid ∧ ∀ o ∈ mid, o ≠ ConnOp.close

/-- A frame that `readFromServer` passes on its way to the exit chunk: a stdout-data or
stderr-data frame, or a start-input frame with an empty payload. -/
def Passable (f : Nat × List Nat) : Prop :=
  ((f.1 = 49 ∨ f.1 = 50) ∧ f.2.length < 2 ^ 32) ∨ f = (83, [])

instance (f : Nat × List Nat) : Decidable (Passable f) := by
  unfold Passable; infer_instance

/-- How the transport fails once it has reached the script `post`: with `io.EOF` when the
script is at its end, or with the error `e` of its next step, reported when the last of
the bytes `d` of that step is handed over. -/
def FailsWith (post : List ReadStep) (d : List Nat) (e : GoError) : Prop :=
  (post = [] ∧ d = [] ∧ e = .EOF) ∨ ∃ rest, post = ⟨d, some e⟩ :: rest

/-- A connection that takes only three bytes of its first write and reports no error. -/
def shortWriteConn : NailgunConnection :=
  { Conn := { reads := [], writes := [⟨some 3, none⟩], ops := [], closed := false },
    Output := none, Outerr := none }

/-- White space: space, tab, line feed, vertical tab, form feed, carriage return. -/
def Whitespace (b : Nat) : Prop := b = 32 ∨ b = 9 ∨ b = 10 ∨ b = 11 ∨ b = 12 ∨ b = 13

/-- Every read of the script returns at least one byte or an error. -/
def Productive (rs : List ReadStep) : Prop := ∀ s ∈ rs, s.data ≠ [] ∨ s.err ≠ none

instance (rs : List ReadStep) : Decidable (Productive rs) := by
  unfold Productive
  infer_instance

/-- The connection `c'` differs from `c` by `Read` calls, and the bytes these calls
returned are the bytes that have left the read script, in order. -/
def Conn.Consumed (c c' : Conn) : Prop :=
  ∃ rs : List (List Nat), c'.ops = c.ops ++ rs.map ConnOp.read ∧
    flat c.reads = rs.flatten ++ flat c'.reads

/-- The sinks of `self'` hold the writes of the sinks of `self`, in order, followed by
later writes; an unset sink stands for the standard stream of the process. -/
def NailgunConnection.Grows (host : Host) (self self' : NailgunConnection) : Prop :=
  (∃ lo, (self'.Output.getD host.Stdout).writes = (self.Output.getD host.Stdout).writes ++ lo) ∧
  (∃ le, (self'.Outerr.getD host.Stderr).writes = (self.Outerr.getD host.Stderr).writes ++ le)

/-! # Properties -/

/-! ## The header arithmetic -/

theorem chunkHeader_eq (t : Nat) (p : List Nat) : chunkHeader t p = be32 p.length ++ [t] := by
  have h : ∀ x : Nat, x &&& 0xff = x % 256 := fun x => Nat.and_pow_two_sub_one_eq_mod x 8
  simp [chunkHeader, be32, byte, h, Nat.shiftRight_eq_div_pow]

theorem lor_eq_add (a b i : Nat) (hb : b < 2 ^ i) (ha : 2 ^ i ∣ a) : a ||| b = a + b := by
  obtain ⟨k, rfl⟩ := ha
  exact (Nat.mul_add_lt_is_or hb k).symm

theorem payloadLengthOf_bytes (a b c d t : Nat) (hb : b < 256) (hc : c < 256) (hd : d < 256) :
    payloadLengthOf [a, b, c, d, t] = a * 2 ^ 24 + b * 2 ^ 16 + c * 2 ^ 8 + d := by
  simp only [payloadLengthOf, List.getD_cons_zero, List.getD_cons_succ, Nat.shiftLeft_zero,
    Nat.shiftLeft_eq]
  have h1 : a * 2 ^ 24 ||| b * 2 ^ 16 = a * 2 ^ 24 + b * 2 ^ 16 :=
    lor_eq_add _ _ 24 (by omega) (Dvd.intro_left _ rfl)
  have h2 : a * 2 ^ 24 + b * 2 ^ 16 ||| c * 2 ^ 8 = a * 2 ^ 24 + b * 2 ^ 16 + c * 2 ^ 8 :=
    lor_eq_add _ _ 16 (by omega) (by omega)
  have h3 : a * 2 ^ 24 + b * 2 ^ 16 + c * 2 ^ 8 ||| d
      = a * 2 ^ 24 + b * 2 ^ 16 + c * 2 ^ 8 + d :=
    lor_eq_add _ _ 8 (by omega) (by omega)
  rw [h1, h2, Nat.pow_zero, Nat.mul_one, h3]

theorem payloadLengthOf_be32 (n t : Nat) (h : n < 2 ^ 32) :
    payloadLengthOf (be32 n ++ [t]) = n := by
  simp only [be32, List.cons_append, List.nil_append]
  rw [payloadLengthOf_bytes _ _ _ _ _ (by omega) (by omega) (by omega)]
  omega

theorem beValue_be32 (n : Nat) (h : n < 2 ^ 32) : beValue (be32 n) = n := by
  simp only [beValue, be32, List.foldl_cons, List.foldl_nil]
  omega

/-! ## Sending on a connection that accepts every write -/

theorem Conn.Write_acceptsAll (c : Conn) (b : List Nat) (h : c.AcceptsAll) :
    c.Write b = ((b.length, none), c.afterWrites [b]) := by
  obtain ⟨hc, hw⟩ := h
  unfold Conn.Write Conn.afterWrites
  cases hws : c.writes with
  | nil => simp [hc]
  | cons w ws =>
    have := hw w (by simp [hws])
    simp [hc, this.1, this.2]

theorem Conn.afterWrites_acceptsAll (c : Conn) (bs : List (List Nat)) (h : c.AcceptsAll) :
    (c.afterWrites bs).AcceptsAll := by
  refine ⟨h.1, fun w hw => h.2 w ?_⟩
  exact List.mem_of_mem_drop hw

theorem Conn.afterWrites_afterWrites (c : Conn) (as bs : List (List Nat)) :
    (c.afterWrites as).afterWrites bs = c.afterWrites (as ++ bs) := by
  simp [Conn.afterWrites, List.drop_drop, Nat.add_comm]

theorem Conn.afterWrites_nil (c : Conn) : c.afterWrites [] = c := by
  simp [Conn.afterWrites]

theorem Conn.sent_afterWrites (c : Conn) (bs : List (List Nat)) :
    (c.afterWrites bs).sent = c.sent ++ bs.flatten := by
  simp [Conn.afterWrites, Conn.sent, List.map_map, Function.comp_def, ConnOp.wire]

theorem sendChunk_acceptsAll (self : NailgunConnection) (t : Nat) (p : List Nat)
    (h : self.Conn.AcceptsAll) :
    sendChunk self t p
      = (.ret none, { self with Conn := self.Conn.afterWrites [chunkHeader t p, p] }) := by
  unfold sendChunk
  simp only [Conn.Write_acceptsAll _ _ h,
    Conn.Write_acceptsAll _ _ (Conn.afterWrites_acceptsAll _ [chunkHeader t p] h),
    Conn.afterWrites_afterWrites]
  simp

theorem frame_length (t : Nat) (p : List Nat) : (frame t p).length = p.length + 5 := by
  simp [frame, be32]

theorem parseFrames_frame (fuel t : Nat) (p rest : List Nat) (hp : p.length < 2 ^ 32) :
    parseFrames (fuel + 1) (frame t p ++ rest)
      = (parseFrames fuel rest).map (fun fs => (t, p) :: fs) := by
  have hv := beValue_be32 p.length hp
  simp only [be32] at hv
  norm_num at hv
  simp [frame, be32, parseFrames, hv]

theorem parseFrames_encodeFrames (fs : List (Nat × List Nat))
    (h : ∀ f ∈ fs, f.2.length < 2 ^ 32) (fuel : Nat) (hf : fs.length ≤ fuel) :
    parseFrames fuel (encodeFrames fs) = some fs := by
  induction fs generalizing fuel with
  | nil => cases fuel <;> simp [encodeFrames, parseFrames]
  | cons f fs ih =>
    cases fuel with
    | zero => simp at hf
    | succ fuel =>
      have h1 : encodeFrames (f :: fs) = frame f.1 f.2 ++ encodeFrames fs := by
        simp [encodeFrames]
      rw [h1, parseFrames_frame _ _ _ _ (h f (by simp)),
        ih (fun g hg => h g (by simp [hg])) fuel (by simpa using hf)]
      simp

theorem length_le_encodeFrames (fs : List (Nat × List Nat)) :
    fs.length ≤ (encodeFrames fs).length := by
  induction fs with
  | nil => simp
  | cons f fs ih =>
    have h1 : encodeFrames (f :: fs) = frame f.1 f.2 ++ encodeFrames fs := by
      simp [encodeFrames]
    rw [h1, List.length_append, frame_length, List.length_cons]
    omega

theorem decodeFrames_encodeFrames (fs : List (Nat × List Nat))
    (h : ∀ f ∈ fs, f.2.length < 2 ^ 32) : decodeFrames (encodeFrames fs) = some fs :=
  parseFrames_encodeFrames fs h _ (length_le_encodeFrames fs)

theorem encodeFrames_append (fs gs : List (Nat × List Nat)) :
    encodeFrames (fs ++ gs) = encodeFrames fs ++ encodeFrames gs := by
  simp [encodeFrames]

theorem chunkWrites_flatten (fs : List (Nat × List Nat)) :
    (chunkWrites fs).flatten = encodeFrames fs := by
  induction fs with
  | nil => simp [chunkWrites, encodeFrames]
  | cons f fs ih =>
    have h1 : chunkWrites (f :: fs) = [chunkHeader f.1 f.2, f.2] ++ chunkWrites fs := by
      simp [chunkWrites]
    have h2 : encodeFrames (f :: fs) = frame f.1 f.2 ++ encodeFrames fs := by
      simp [encodeFrames]
    rw [h1, h2, List.flatten_append, ih]
    simp [frame, chunkHeader_eq]

theorem chunkWrites_append (fs gs : List (Nat × List Nat)) :
    chunkWrites (fs ++ gs) = chunkWrites fs ++ chunkWrites gs := by
  simp [chunkWrites]

theorem sendArguments_acceptsAll (cmdargs : List (List Nat)) (self : NailgunConnection)
    (h : self.Conn.AcceptsAll) :
    sendArguments self cmdargs
      = (.ret none, { self with
          Conn := self.Conn.afterWrites (chunkWrites (cmdargs.map (fun a => (65, a)))) }) := by
  induction cmdargs generalizing self with
  | nil => simp [sendArguments, chunkWrites, Conn.afterWrites_nil]
  | cons a rest ih =>
    rw [sendArguments, sendChunk_acceptsAll _ _ _ h]
    simp only
    rw [ih _ (Conn.afterWrites_acceptsAll _ _ h)]
    simp [Conn.afterWrites_afterWrites, chunkWrites]

theorem sendEnvironmentLoop_acceptsAll (envs : List (List Nat)) (self : NailgunConnection)
    (h : self.Conn.AcceptsAll) :
    sendEnvironmentLoop self envs
      = (.ret none, { self with
          Conn := self.Conn.afterWrites (chunkWrites (envs.map (fun a => (69, a)))) }) := by
  induction envs generalizing self with
  | nil => simp [sendEnvironmentLoop, chunkWrites, Conn.afterWrites_nil]
  | cons a rest ih =>
    rw [sendEnvironmentLoop, sendChunk_acceptsAll _ _ _ h]
    simp only
    rw [ih _ (Conn.afterWrites_acceptsAll _ _ h)]
    simp [Conn.afterWrites_afterWrites, chunkWrites]

theorem sendEnvironment_acceptsAll (host : Host) (self : NailgunConnection)
    (h : self.Conn.AcceptsAll) :
    sendEnvironment host self
      = (.ret none, { self with
          Conn := self.Conn.afterWrites (chunkWrites (environmentFrames host)) }) := by
  unfold sendEnvironment
  rw [sendEnvironmentLoop_acceptsAll _ _ h]
  simp only
  rw [sendChunk_acceptsAll _ _ _ (Conn.afterWrites_acceptsAll _ _ h)]
  simp only
  rw [sendChunk_acceptsAll _ _ _
    (Conn.afterWrites_acceptsAll _ _ (Conn.afterWrites_acceptsAll _ _ h))]
  simp [Conn.afterWrites_afterWrites, chunkWrites, environmentFrames]

theorem QuoteRune_length (r : Nat) : (QuoteRune r).length ≤ 6 := by
  simp only [QuoteRune]
  repeat' split
  all_goals simp [hex2]

theorem ascii_length (s : String) : (ascii s).length = s.length := by
  cases s
  simp only [ascii, List.length_map, String.length]

theorem environmentFrames_bound (host : Host) (h : ∀ e ∈ host.environ, e.length < 2 ^ 32) :
    ∀ f ∈ environmentFrames host, f.2.length < 2 ^ 32 := by
  intro f hf
  have hq1 := QuoteRune_length host.PathListSeparator
  have hq2 := QuoteRune_length host.PathSeparator
  simp only [environmentFrames, List.mem_append, List.mem_map, List.mem_cons,
    List.mem_singleton, List.not_mem_nil, or_false] at hf
  rcases hf with ⟨e, he, rfl⟩ | rfl | rfl
  · exact h e he
  · simp only [fileSep, List.length_append, ascii_length]
    have : "NAILGUN_FILESEPARATOR=".length = 22 := by decide
    omega
  · simp only [pathSep, List.length_append, ascii_length]
    have : "NAILGUN_PATHSEPARATOR=".length = 22 := by decide
    omega

/-- C3: on a connection that accepts every write in full, `sendChunk` with a payload
shorter than `2^32` returns no error and appends to the connection exactly the 4-byte
big-endian unsigned encoding of the payload length, the tag byte and the payload. -/
theorem sendChunk_wire_format (self : NailgunConnection) (t : Nat) (p : List Nat)
    (hp : p.length < 2 ^ 32) (hc : self.Conn.AcceptsAll) :
    (sendChunk self t p).1 = .ret none ∧
    (sendChunk self t p).2.Conn.sent = self.Conn.sent ++ (be32 p.length ++ [t] ++ p) ∧
    (be32 p.length).length = 4 ∧ (∀ b ∈ be32 p.length, b < 256) ∧
    beValue (be32 p.length) = p.length := by
  rw [sendChunk_acceptsAll _ _ _ hc]
  refine ⟨rfl, ?_, rfl, ?_, beValue_be32 _ hp⟩
  · simp [Conn.sent_afterWrites, chunkHeader_eq]
  · intro b hb
    simp only [be32, List.mem_cons, List.mem_singleton, List.not_mem_nil, or_false] at hb
    omega

/-- C2: the bytes `sendChunk` puts on the wire for a payload shorter than `2^32` start with
a 5-byte header from which the header-decoding arithmetic of `readFromServer` gets back
the payload length and the tag, and the bytes after the header are the payload. -/
theorem header_round_trip (self : NailgunConnection) (t : Nat) (p : List Nat)
    (hp : p.length < 2 ^ 32) (hc : self.Conn.AcceptsAll) :
    (sendChunk self t p).2.Conn.sent.drop self.Conn.sent.length = chunkHeader t p ++ p ∧
    (chunkHeader t p).length = 5 ∧
    payloadLengthOf (chunkHeader t p) = p.length ∧
    (chunkHeader t p).getD 4 0 = t ∧
    (((sendChunk self t p).2.Conn.sent.drop self.Conn.sent.length).drop 5).take
      (payloadLengthOf (chunkHeader t p)) = p := by
  have hl : (chunkHeader t p).length = 5 := by simp [chunkHeader]
  have hd : payloadLengthOf (chunkHeader t p) = p.length := by
    rw [chunkHeader_eq]; exact payloadLengthOf_be32 _ _ hp
  have hs : (sendChunk self t p).2.Conn.sent.drop self.Conn.sent.length
      = chunkHeader t p ++ p := by
    rw [sendChunk_acceptsAll _ _ _ hc]
    simp [Conn.sent_afterWrites]
  refine ⟨hs, hl, hd, by simp [chunkHeader], ?_⟩
  rw [hs, hd, List.drop_append_of_le_length (by omega), ← hl]
  simp

/-- C5: on a connection that accepts every write in full, `sendArguments` returns no error
and what it writes is, frame by frame, one `A` frame for each argument, in the original
order, with the argument as payload. -/
theorem sendArguments_frames (self : NailgunConnection) (cmdargs : List (List Nat))
    (hp : ∀ a ∈ cmdargs, a.length < 2 ^ 32) (hc : self.Conn.AcceptsAll) :
    (sendArguments self cmdargs).1 = .ret none ∧
    (sendArguments self cmdargs).2.Conn.sent
      = self.Conn.sent ++ (cmdargs.map (fun a => frame 65 a)).flatten ∧
    decodeFrames ((sendArguments self cmdargs).2.Conn.sent.drop self.Conn.sent.length)
      = some (cmdargs.map (fun a => (65, a))) ∧
    (cmdargs.map (fun a => ((65 : Nat), a))).length = cmdargs.length := by
  rw [sendArguments_acceptsAll _ _ hc]
  have he : (cmdargs.map (fun a => frame 65 a)).flatten
      = encodeFrames (cmdargs.map (fun a => (65, a))) := by
    simp [encodeFrames, List.map_map, Function.comp_def]
  refine ⟨rfl, ?_, ?_, by simp⟩
  · simp [Conn.sent_afterWrites, chunkWrites_flatten, he]
  · simp only [Conn.sent_afterWrites, chunkWrites_flatten, List.drop_left]
    apply decodeFrames_encodeFrames
    intro f hf
    simp only [List.mem_map] at hf
    obtain ⟨a, ha, rfl⟩ := hf
    exact hp a ha

/-- C6: on a connection that accepts every write in full, `sendEnvironment` writes one `E`
frame for each of the `K` entries of the environment, in enumeration order, and then
exactly two more `E` frames: the `NAILGUN_FILESEPARATOR` entry and the
`NAILGUN_PATHSEPARATOR` entry; `K + 2` frames in all, also for `K = 0`. -/
theorem sendEnvironment_frames (host : Host) (self : NailgunConnection)
    (hp : ∀ e ∈ host.environ, e.length < 2 ^ 32) (hc : self.Conn.AcceptsAll) :
    (sendEnvironment host self).1 = .ret none ∧
    decodeFrames ((sendEnvironment host self).2.Conn.sent.drop self.Conn.sent.length)
      = some (host.environ.map (fun e => (69, e))
          ++ [(69, fileSep host), (69, pathSep host)]) ∧
    (host.environ.map (fun e => ((69 : Nat), e))
          ++ [(69, fileSep host), (69, pathSep host)]).length = host.environ.length + 2 ∧
    ascii "NAILGUN_FILESEPARATOR=" <+: fileSep host ∧
    ascii "NAILGUN_PATHSEPARATOR=" <+: pathSep host := by
  rw [sendEnvironment_acceptsAll _ _ hc]
  refine ⟨rfl, ?_, by simp, ⟨_, rfl⟩, ⟨_, rfl⟩⟩
  simp only [Conn.sent_afterWrites, chunkWrites_flatten, List.drop_left]
  exact decodeFrames_encodeFrames _ (environmentFrames_bound host hp)

/-! ## What reading does to a connection, whatever the transport does -/

theorem Conn.ReadsOnly.refl (c : Conn) : c.ReadsOnly c :=
  ⟨rfl, rfl, [], by simp⟩

theorem Conn.ReadsOnly.trans {a b c : Conn} (h1 : a.ReadsOnly b) (h2 : b.ReadsOnly c) :
    a.ReadsOnly c := by
  obtain ⟨w1, c1, r1, o1⟩ := h1
  obtain ⟨w2, c2, r2, o2⟩ := h2
  exact ⟨w2.trans w1, c2.trans c1, r1 ++ r2, by simp [o2, o1]⟩

theorem Conn.Read_readsOnly (c : Conn) (k : Nat) : c.ReadsOnly (c.Read k).2 := by
  unfold Conn.Read
  split
  · exact ⟨rfl, rfl, [[]], by simp⟩
  · split
    · exact ⟨rfl, rfl, [[]], by simp⟩
    · split
      · exact ⟨rfl, rfl, [_], rfl⟩
      · exact ⟨rfl, rfl, [_], rfl⟩

theorem cost_cons (s : ReadStep) (rs : List ReadStep) :
    cost (s :: rs) = s.data.length + 1 + cost rs := by
  simp [cost]

theorem cost_append (as bs : List ReadStep) : cost (as ++ bs) = cost as + cost bs := by
  simp [cost]

theorem Conn.Read_cost (c : Conn) (k : Nat) :
    cost (c.Read k).2.reads + (c.Read k).1.1.length ≤ cost c.reads := by
  unfold Conn.Read
  split
  · simp
  · split
    · rename_i h; simp [h]
    · rename_i s rest h
      split
      · simp only [h, cost_cons]; omega
      · simp only [h, cost_cons, List.length_take, List.length_drop]; omega

theorem Conn.Read_length_le (c : Conn) (k : Nat) : (c.Read k).1.1.length ≤ k := by
  unfold Conn.Read
  split
  · simp
  · split
    · simp
    · split
      · assumption
      · simp

/-- A `Read` that reports no error makes the script cheaper. -/
theorem Conn.Read_cost_lt (c : Conn) (k : Nat) (hk : 0 < k) (h : (c.Read k).1.2 = none) :
    cost (c.Read k).2.reads < cost c.reads := by
  unfold Conn.Read at h ⊢
  split
  · rename_i hc; simp [hc] at h
  · rename_i hc
    split
    · rename_i hr; simp [hc, hr] at h
    · rename_i s rest hr
      split
      · simp only [hr, cost_cons]; omega
      · simp only [hr, cost_cons, List.length_drop]; omega

theorem readAtLeastLoop_inv (fuel : Nat) (c : Conn) (min : Nat) (buf : List Nat) :
    c.ReadsOnly (readAtLeastLoop fuel c min buf).2 ∧
    (∀ b e, (readAtLeastLoop fuel c min buf).1 = .ret (b, e) →
      cost (readAtLeastLoop fuel c min buf).2.reads + b.length ≤ cost c.reads + buf.length ∧
      (e = none → min ≤ b.length)) := by
  induction fuel generalizing c buf with
  | zero => simp [readAtLeastLoop, Conn.ReadsOnly.refl]
  | succ fuel ih =>
    rw [readAtLeastLoop]
    split
    · simp only
      have hr := Conn.Read_readsOnly c (min - buf.length)
      have hc := Conn.Read_cost c (min - buf.length)
      split
      · obtain ⟨i1, i2⟩ := ih (c.Read (min - buf.length)).2 (buf ++ (c.Read (min - buf.length)).1.1)
        refine ⟨hr.trans i1, fun b e hb => ?_⟩
        have := i2 b e hb
        simp only [List.length_append] at this
        exact ⟨by omega, this.2⟩
      · refine ⟨hr, fun b e hb => ?_⟩
        simp only [Outcome.ret.injEq, Prod.mk.injEq] at hb
        rw [← hb.1, ← hb.2]
        simp only [List.length_append, reduceCtorEq, false_implies, and_true]
        omega
    · refine ⟨Conn.ReadsOnly.refl c, fun b e hb => ?_⟩
      simp only [Outcome.ret.injEq, Prod.mk.injEq] at hb
      rw [← hb.1]
      exact ⟨le_refl _, fun _ => by omega⟩

theorem readAtLeastLoop_total (fuel : Nat) (c : Conn) (min : Nat) (buf : List Nat)
    (hf : cost c.reads < fuel) :
    ∃ b e, (readAtLeastLoop fuel c min buf).1 = .ret (b, e) := by
  induction fuel generalizing c buf with
  | zero => omega
  | succ fuel ih =>
    rw [readAtLeastLoop]
    split
    · rename_i hlt
      simp only
      split
      · rename_i hnone
        have := Conn.Read_cost_lt c (min - buf.length) (by omega) hnone
        exact ih _ _ (by omega)
      · exact ⟨_, _, rfl⟩
    · exact ⟨_, _, rfl⟩

theorem ReadFull_inv (c : Conn) (len : Nat) :
    c.ReadsOnly (ReadFull c len).2 ∧
    (∀ b e, (ReadFull c len).1 = .ret (b, e) →
      cost (ReadFull c len).2.reads + b.length ≤ cost c.reads ∧ (e = none → len ≤ b.length)) := by
  obtain ⟨h1, h2⟩ := readAtLeastLoop_inv (cost c.reads + 1) c len []
  unfold ReadFull
  split
  · rename_i buf err c' heq
    rw [heq] at h1 h2
    have h3 := h2 buf err rfl
    simp only [List.length_nil, Nat.add_zero] at h3
    split
    · refine ⟨h1, fun b e hb => ?_⟩
      simp only [Outcome.ret.injEq, Prod.mk.injEq] at hb
      rw [← hb.1]
      exact ⟨h3.1, fun _ => by assumption⟩
    · split
      · refine ⟨h1, fun b e hb => ?_⟩
        simp only [Outcome.ret.injEq, Prod.mk.injEq] at hb
        rw [← hb.1, ← hb.2]
        exact ⟨h3.1, fun h => by simp at h⟩
      · refine ⟨h1, fun b e hb => ?_⟩
        simp only [Outcome.ret.injEq, Prod.mk.injEq] at hb
        rw [← hb.1, ← hb.2]
        exact ⟨h3.1, h3.2⟩
  · rename_i m c' heq
    rw [heq] at h1
    exact ⟨h1, fun b e hb => by simp at hb⟩
  · rename_i c' heq
    rw [heq] at h1
    exact ⟨h1, fun b e hb => by simp at hb⟩

theorem readFully_inv (self : NailgunConnection) (len : Nat) :
    (readFully self len).2.Output = self.Output ∧
    (readFully self len).2.Outerr = self.Outerr ∧
    self.Conn.ReadsOnly (readFully self len).2.Conn ∧
    (∀ b e, (readFully self len).1 = .ret (b, e) →
      cost (readFully self len).2.Conn.reads + b.length ≤ cost self.Conn.reads ∧
      (e = none → len ≤ b.length)) := by
  obtain ⟨h1, h2⟩ := ReadFull_inv self.Conn len
  unfold readFully
  split
  · rename_i buf e c heq
    rw [heq] at h1 h2
    refine ⟨rfl, rfl, h1, fun b e' hb => ?_⟩
    simp only [Outcome.ret.injEq, Prod.mk.injEq] at hb
    rw [← hb.1, ← hb.2]
    exact ⟨(h2 buf (some e) rfl).1, fun h => by simp at h⟩
  · rename_i buf c heq
    rw [heq] at h1 h2
    split
    · refine ⟨rfl, rfl, h1, fun b e' hb => ?_⟩
      simp only [Outcome.ret.injEq, Prod.mk.injEq] at hb
      rw [← hb.1, ← hb.2]
      exact ⟨(h2 buf none rfl).1, fun h => by simp at h⟩
    · refine ⟨rfl, rfl, h1, fun b e' hb => ?_⟩
      simp only [Outcome.ret.injEq, Prod.mk.injEq] at hb
      rw [← hb.1]
      exact ⟨(h2 buf none rfl).1, fun _ => (h2 buf none rfl).2 rfl⟩
  · rename_i m c heq
    rw [heq] at h1
    exact ⟨rfl, rfl, h1, fun b e hb => by simp at hb⟩
  · rename_i c heq
    rw [heq] at h1
    exact ⟨rfl, rfl, h1, fun b e hb => by simp at hb⟩

theorem destWrite_conn (self : NailgunConnection) (dest : Dest) (p : List Nat) :
    (destWrite self dest p).2.Conn = self.Conn := by
  unfold destWrite
  cases dest <;> simp only <;> split <;> rfl

theorem payloadLoop_inv (N : Nat) (dest : Dest) (fuel : Nat) (self : NailgunConnection)
    (L : Nat) :
    self.Conn.ReadsOnly (payloadLoop N dest fuel self L).2.Conn ∧
    cost (payloadLoop N dest fuel self L).2.Conn.reads ≤ cost self.Conn.reads := by
  induction fuel generalizing self L with
  | zero => simp [payloadLoop, Conn.ReadsOnly.refl]
  | succ fuel ih =>
    rw [payloadLoop]
    split
    · simp only
      generalize hk : (if L > N then N else L) = k
      have hr := Conn.Read_readsOnly self.Conn k
      have hc := Conn.Read_cost self.Conn k
      have hd := destWrite_conn { self with Conn := (self.Conn.Read k).2 } dest
        (self.Conn.Read k).1.1
      split
      · split
        · rename_i heq
          rw [heq] at hd; simp only at hd
          rw [hd]; exact ⟨hr, by omega⟩
        · rename_i self2 heq
          rw [heq] at hd; simp only at hd
          split
          · rw [hd]; exact ⟨hr, by omega⟩
          · obtain ⟨i1, i2⟩ := ih self2 (L - (self.Conn.Read k).1.1.length)
            rw [hd] at i1 i2
            exact ⟨hr.trans i1, by omega⟩
        · rename_i heq
          rw [heq] at hd; simp only at hd
          rw [hd]; exact ⟨hr, by omega⟩
        · rename_i heq
          rw [heq] at hd; simp only at hd
          rw [hd]; exact ⟨hr, by omega⟩
      · split
        · exact ⟨hr, by simp only; omega⟩
        · obtain ⟨i1, i2⟩ := ih { self with Conn := (self.Conn.Read k).2 } L
          exact ⟨hr.trans i1, by simp only at i2; omega⟩
    · exact ⟨Conn.ReadsOnly.refl _, le_refl _⟩

theorem defaultSinks_conn (host : Host) (self : NailgunConnection) :
    (defaultSinks host self).Conn = self.Conn := by
  unfold defaultSinks
  simp only
  split <;> split <;> rfl

theorem switchChunk_inv (N : Nat) (self : NailgunConnection) (t L : Nat) :
    self.Conn.ReadsOnly (switchChunk N self t L).2.Conn ∧
    (∀ d, (switchChunk N self t L).1 = .forward d → (switchChunk N self t L).2 = self) ∧
    ((switchChunk N self t L).1 = .next → (switchChunk N self t L).2 = self) := by
  unfold switchChunk
  split_ifs
  all_goals try exact ⟨Conn.ReadsOnly.refl _, fun _ _ => rfl, fun _ => rfl⟩
  obtain ⟨_, _, h4, _⟩ := readFully_inv self L
  split <;> rename_i heq <;> rw [heq] at h4
  · exact ⟨h4, by simp, by simp⟩
  · exact ⟨h4, by simp, by simp⟩
  · exact ⟨h4, by simp, by simp⟩
  · split <;> exact ⟨h4, by simp, by simp⟩

theorem readFromServerLoop_inv (host : Host) (N : Nat) (fuel : Nat) (self : NailgunConnection) :
    self.Conn.ReadsOnly (readFromServerLoop host N fuel self).2.Conn := by
  induction fuel generalizing self with
  | zero => simp [readFromServerLoop, Conn.ReadsOnly.refl]
  | succ fuel ih =>
    obtain ⟨_, _, h1, _⟩ := readFully_inv self 5
    rcases h : readFully self 5 with ⟨o, self1⟩
    rw [h] at h1
    simp only at h1
    simp only [readFromServerLoop, h]
    rcases o with ⟨hd, _ | e⟩ | m | _
    · simp only
      obtain ⟨h2, _⟩ := switchChunk_inv N (defaultSinks host self1) (hd.getD 4 0)
        (payloadLengthOf hd)
      rw [defaultSinks_conn] at h2
      rcases hs : switchChunk N (defaultSinks host self1) (hd.getD 4 0) (payloadLengthOf hd)
        with ⟨sw, self2⟩
      rw [hs] at h2
      simp only at h2
      rcases sw with dest | _ | r
      · simp only
        obtain ⟨h3, _⟩ := payloadLoop_inv N dest (cost self2.Conn.reads + 1) self2
          (payloadLengthOf hd)
        rcases hp : payloadLoop N dest (cost self2.Conn.reads + 1) self2 (payloadLengthOf hd)
          with ⟨po, self3⟩
        rw [hp] at h3
        simp only at h3
        rcases po with ⟨_ | r⟩ | m | _
        · exact (h1.trans (h2.trans h3)).trans (ih _)
        · exact h1.trans (h2.trans h3)
        · exact h1.trans (h2.trans h3)
        · exact h1.trans (h2.trans h3)
      · exact (h1.trans h2).trans (ih _)
      · exact h1.trans h2
    · exact h1
    · exact h1
    · exact h1

theorem readFromServerLoop_fuel (host : Host) (N : Nat) (fuel1 fuel2 : Nat)
    (self : NailgunConnection) (h1 : cost self.Conn.reads < fuel1)
    (h2 : cost self.Conn.reads < fuel2) :
    readFromServerLoop host N fuel1 self = readFromServerLoop host N fuel2 self := by
  induction fuel1 generalizing fuel2 self with
  | zero => omega
  | succ fuel1 ih =>
    cases fuel2 with
    | zero => omega
    | succ fuel2 =>
      obtain ⟨_, _, _, hc⟩ := readFully_inv self 5
      rcases h : readFully self 5 with ⟨o, self1⟩
      rw [h] at hc
      simp only at hc
      simp only [readFromServerLoop, h]
      rcases o with ⟨hd, _ | e⟩ | m | _
      · simp only
        have hc1 := hc hd none rfl
        have hc2 := hc1.2 rfl
        obtain ⟨_, hs2, hs3⟩ := switchChunk_inv N (defaultSinks host self1) (hd.getD 4 0)
          (payloadLengthOf hd)
        have hd3 := defaultSinks_conn host self1
        rcases hs : switchChunk N (defaultSinks host self1) (hd.getD 4 0) (payloadLengthOf hd)
          with ⟨sw, self2⟩
        rw [hs] at hs2 hs3
        simp only at hs2 hs3
        rcases sw with dest | _ | r
        · simp only
          have he : cost self2.Conn.reads = cost self1.Conn.reads := by
            rw [hs2 dest rfl, hd3]
          obtain ⟨_, h3⟩ := payloadLoop_inv N dest (cost self2.Conn.reads + 1) self2
            (payloadLengthOf hd)
          rcases hp : payloadLoop N dest (cost self2.Conn.reads + 1) self2 (payloadLengthOf hd)
            with ⟨po, self3⟩
          rw [hp] at h3
          simp only at h3
          rcases po with ⟨_ | r⟩ | m | _
          · exact ih _ _ (by omega) (by omega)
          · rfl
          · rfl
          · rfl
        · have he : cost self2.Conn.reads = cost self1.Conn.reads := by
            rw [hs3 rfl, hd3]
          exact ih _ _ (by omega) (by omega)
        · rfl
      · rfl
      · rfl
      · rfl

/-! ## The loops do not depend on their budget -/

theorem payloadLoop_fuel (N : Nat) (hN : 0 < N) (dest : Dest) (fuel1 fuel2 : Nat)
    (self : NailgunConnection) (L : Nat) (h1 : cost self.Conn.reads < fuel1)
    (h2 : cost self.Conn.reads < fuel2) :
    payloadLoop N dest fuel1 self L = payloadLoop N dest fuel2 self L := by
  induction fuel1 generalizing fuel2 self L with
  | zero => omega
  | succ fuel1 ih =>
    cases fuel2 with
    | zero => omega
    | succ fuel2 =>
      simp only [payloadLoop]
      split
      · rename_i hL
        generalize hk : (if L > N then N else L) = k
        have hk0 : 0 < k := by rw [← hk]; split <;> omega
        have hd := destWrite_conn { self with Conn := (self.Conn.Read k).2 } dest
          (self.Conn.Read k).1.1
        have hlt := Conn.Read_cost_lt self.Conn k hk0
        split
        · rcases hw : destWrite { self with Conn := (self.Conn.Read k).2 } dest
            (self.Conn.Read k).1.1 with ⟨o, self2⟩
          rw [hw] at hd
          simp only at hd
          rcases o with ⟨_ | e⟩ | m | _
          · simp only
            cases he : (self.Conn.Read k).1.2 with
            | none =>
              simp only
              have := hlt he
              exact ih _ _ _ (by rw [hd]; omega) (by rw [hd]; omega)
            | some e => rfl
          · rfl
          · rfl
          · rfl
        · cases he : (self.Conn.Read k).1.2 with
          | none =>
            simp only
            have := hlt he
            exact ih _ _ _ (by simp only; omega) (by simp only; omega)
          | some e => rfl
      · rfl

/-- One iteration of the outer loop of `readFromServer`, free of the loop budget. -/
theorem readFromServer_step (host : Host) (self : NailgunConnection) :
    readFromServer host self =
      match readFully self 5 with
      | (.ret (_, some e), self1) => (.ret (0, some e), self1)
      | (.panic m, self1) => (.panic m, self1)
      | (.outOfFuel, self1) => (.outOfFuel, self1)
      | (.ret (header, none), self1) =>
        match switchChunk 16284 (defaultSinks host self1) (header.getD 4 0)
            (payloadLengthOf header) with
        | (.done r, self2) => (r, self2)
        | (.next, self2) => readFromServer host self2
        | (.forward dest, self2) =>
          match payloadLoop 16284 dest (cost self2.Conn.reads + 1) self2
              (payloadLengthOf header) with
          | (.ret (some r), self3) => (.ret r, self3)
          | (.ret none, self3) => readFromServer host self3
          | (.panic m, self3) => (.panic m, self3)
          | (.outOfFuel, self3) => (.outOfFuel, self3) := by
  show readFromServerLoop host 16284 (cost self.Conn.reads + 1) self = _
  rw [readFromServerLoop]
  obtain ⟨_, _, _, hc⟩ := readFully_inv self 5
  rcases h : readFully self 5 with ⟨o, self1⟩
  rw [h] at hc
  simp only at hc
  rcases o with ⟨hd, _ | e⟩ | m | _
  · simp only
    have hc1 := hc hd none rfl
    have hc2 := hc1.2 rfl
    obtain ⟨_, hs2, hs3⟩ := switchChunk_inv 16284 (defaultSinks host self1) (hd.getD 4 0)
      (payloadLengthOf hd)
    have hd3 := defaultSinks_conn host self1
    rcases hs : switchChunk 16284 (defaultSinks host self1) (hd.getD 4 0) (payloadLengthOf hd)
      with ⟨sw, self2⟩
    rw [hs] at hs2 hs3
    simp only at hs2 hs3
    rcases sw with dest | _ | r
    · simp only
      have he : cost self2.Conn.reads = cost self1.Conn.reads := by
        rw [hs2 dest rfl, hd3]
      obtain ⟨_, h3⟩ := payloadLoop_inv 16284 dest (cost self2.Conn.reads + 1) self2
        (payloadLengthOf hd)
      rcases hp : payloadLoop 16284 dest (cost self2.Conn.reads + 1) self2 (payloadLengthOf hd)
        with ⟨po, self3⟩
      rw [hp] at h3
      simp only at h3
      rcases po with ⟨_ | r⟩ | m | _
      · dsimp only
        unfold readFromServer
        apply readFromServerLoop_fuel <;> omega
      · rfl
      · rfl
      · rfl
    · have he : cost self2.Conn.reads = cost self1.Conn.reads := by
        rw [hs3 rfl, hd3]
      dsimp only
      unfold readFromServer
      apply readFromServerLoop_fuel <;> omega
    · rfl
  · rfl
  · rfl
  · rfl

/-! ## Reading from a transport that hands the bytes over without error -/

theorem split_of_append_eq {α : Type} (got x bs more : List α) (h : got ++ x = bs ++ more)
    (hl : got.length ≤ bs.length) :
    bs = got ++ bs.drop got.length ∧ x = bs.drop got.length ++ more := by
  have h1 := congrArg (List.take got.length) h
  have h2 := congrArg (List.drop got.length) h
  rw [List.take_left, List.take_append_of_le_length hl] at h1
  rw [List.drop_left, List.drop_append_of_le_length hl] at h2
  refine ⟨?_, h2⟩
  conv_lhs => rw [← List.take_append_drop got.length bs, ← h1]

theorem Conn.Read_delivers (c : Conn) (k : Nat) (bs more : List Nat) (post : List ReadStep)
    (h : c.Delivers (bs ++ more) post) (hk : 0 < k) (hkb : k ≤ bs.length) :
    ∃ got rest, bs = got ++ rest ∧ (c.Read k).1 = (got, none) ∧
      (c.Read k).2.Delivers (rest ++ more) post ∧ got.length ≤ k := by
  obtain ⟨hc, pre, hr, he, hf⟩ := h
  cases pre with
  | nil =>
    simp only [flat, List.map_nil, List.flatten_nil] at hf
    have := congrArg List.length hf
    simp only [List.length_nil, List.length_append] at this
    omega
  | cons s pre1 =>
    have hs : s.err = none := he s (by simp)
    have he1 : ErrFree pre1 := fun x hx => he x (by simp [hx])
    have hf1 : s.data ++ flat pre1 = bs ++ more := by
      simpa [flat] using hf
    unfold Conn.Read
    simp only [hc, Bool.false_eq_true, ↓reduceIte, hr, List.cons_append]
    split
    · rename_i hle
      obtain ⟨e1, e2⟩ := split_of_append_eq _ _ _ _ hf1 (by omega)
      exact ⟨s.data, bs.drop s.data.length, e1, by simp [hs],
        ⟨rfl, pre1, rfl, he1, e2⟩, hle⟩
    · rename_i hgt
      have hf2 : s.data.take k ++ (s.data.drop k ++ flat pre1) = bs ++ more := by
        rw [← List.append_assoc, List.take_append_drop]; exact hf1
      have hlen : (s.data.take k).length = k := by
        rw [List.length_take]; omega
      obtain ⟨e1, e2⟩ := split_of_append_eq _ _ _ _ hf2 (by omega)
      refine ⟨s.data.take k, bs.drop (s.data.take k).length, e1, rfl,
        ⟨rfl, { s with data := s.data.drop k } :: pre1, rfl, ?_, ?_⟩, by omega⟩
      · intro x hx
        simp only [List.mem_cons] at hx
        rcases hx with rfl | hx
        · exact hs
        · exact he1 x hx
      · simpa [flat] using e2

theorem readAtLeastLoop_delivers (post : List ReadStep) (fuel : Nat) (c : Conn) (min : Nat)
    (buf bs more : List Nat) (h : c.Delivers (bs ++ more) post)
    (hm : buf.length + bs.length = min) (hf : cost c.reads < fuel) :
    ∃ c', readAtLeastLoop fuel c min buf = (.ret (buf ++ bs, none), c') ∧
      c'.Delivers more post := by
  induction fuel generalizing c buf bs with
  | zero => omega
  | succ fuel ih =>
    rw [readAtLeastLoop]
    split
    · rename_i hlt
      obtain ⟨got, rest, e1, e2, e3, e4⟩ :=
        Conn.Read_delivers c (min - buf.length) bs more post h (by omega) (by omega)
      have hlt2 := Conn.Read_cost_lt c (min - buf.length) (by omega) (by rw [e2])
      simp only [e2]
      subst e1
      obtain ⟨c', i1, i2⟩ := ih (c.Read (min - buf.length)).2 (buf ++ got) rest e3
        (by simp only [List.length_append] at hm ⊢; omega) (by omega)
      exact ⟨c', by rw [i1, List.append_assoc], i2⟩
    · rename_i hge
      have : bs = [] := List.eq_nil_of_length_eq_zero (by omega)
      subst this
      exact ⟨c, by simp, by simpa using h⟩

theorem ReadFull_delivers (post : List ReadStep) (c : Conn) (bs more : List Nat)
    (h : c.Delivers (bs ++ more) post) :
    ∃ c', ReadFull c bs.length = (.ret (bs, none), c') ∧ c'.Delivers more post := by
  obtain ⟨c', h1, h2⟩ := readAtLeastLoop_delivers post (cost c.reads + 1) c bs.length [] bs
    more h (by simp) (by omega)
  refine ⟨c', ?_, h2⟩
  unfold ReadFull
  rw [h1]
  simp

theorem readFully_delivers (post : List ReadStep) (self : NailgunConnection)
    (bs more : List Nat) (h : self.Conn.Delivers (bs ++ more) post) :
    ∃ c', readFully self bs.length = (.ret (bs, none), { self with Conn := c' }) ∧
      c'.Delivers more post := by
  obtain ⟨c', h1, h2⟩ := ReadFull_delivers post self.Conn bs more h
  refine ⟨c', ?_, h2⟩
  unfold readFully
  rw [h1]
  simp

theorem Sink.Write_reliable (s : Sink) (p : List Nat) (h : s.Reliable) :
    s.Write p = (none, s.afterWrites [p]) := by
  unfold Sink.Write Sink.afterWrites
  cases hs : s.script with
  | nil => simp
  | cons o rest =>
    have := h o (by simp [hs])
    subst this
    simp

theorem Sink.afterWrites_reliable (s : Sink) (ws : List (List Nat)) (h : s.Reliable) :
    (s.afterWrites ws).Reliable :=
  fun o ho => h o (List.mem_of_mem_drop ho)

theorem Sink.afterWrites_append (s : Sink) (as bs : List (List Nat)) :
    (s.afterWrites as).afterWrites bs = s.afterWrites (as ++ bs) := by
  simp [Sink.afterWrites, List.drop_drop, Nat.add_comm]

theorem Sink.afterWrites_empty (s : Sink) : s.afterWrites [] = s := by
  simp [Sink.afterWrites]

theorem Sink.received_afterWrites (s : Sink) (ws : List (List Nat)) :
    (s.afterWrites ws).received = s.received ++ ws.flatten := by
  simp [Sink.afterWrites, Sink.received]

theorem destWrite_reliable (self : NailgunConnection) (dest : Dest) (p : List Nat) (s : Sink)
    (hs : self.sink dest = some s) (h : s.Reliable) :
    destWrite self dest p = (.ret none, self.setSink dest (s.afterWrites [p])) := by
  cases dest <;>
    simp only [NailgunConnection.sink] at hs <;>
    simp [destWrite, hs, Sink.Write_reliable _ _ h, NailgunConnection.setSink]

theorem payloadLoop_delivers (N : Nat) (hN : 0 < N) (dest : Dest) (post : List ReadStep)
    (fuel : Nat) (self : NailgunConnection) (bs more : List Nat) (s : Sink)
    (h : self.Conn.Delivers (bs ++ more) post) (hs : self.sink dest = some s)
    (hr : s.Reliable) (hf : cost self.Conn.reads < fuel) :
    ∃ ws c', payloadLoop N dest fuel self bs.length
        = (.ret none, ({ self with Conn := c' } : NailgunConnection).setSink dest
            (s.afterWrites ws)) ∧
      ws.flatten = bs ∧ (∀ w ∈ ws, 0 < w.length ∧ w.length ≤ N) ∧ c'.Delivers more post := by
  induction fuel generalizing self bs s with
  | zero => omega
  | succ fuel ih =>
    rw [payloadLoop]
    split
    · rename_i hL
      simp only
      generalize hk : (if bs.length > N then N else bs.length) = k
      have hk0 : 0 < k := by rw [← hk]; split <;> omega
      have hkb : k ≤ bs.length := by rw [← hk]; split <;> omega
      have hkN : k ≤ N := by rw [← hk]; split <;> omega
      obtain ⟨got, rest, e1, e2, e3, e4⟩ :=
        Conn.Read_delivers self.Conn k bs more post h hk0 hkb
      have hlt := Conn.Read_cost_lt self.Conn k hk0 (by rw [e2])
      simp only [e2]
      subst e1
      split
      · rename_i hpos
        rw [destWrite_reliable _ dest got s (by cases dest <;> exact hs) hr]
        simp only
        obtain ⟨ws, c', i1, i2, i3, i4⟩ := ih
          (({ self with Conn := (self.Conn.Read k).2 } : NailgunConnection).setSink dest
            (s.afterWrites [got])) rest (s.afterWrites [got])
          (by cases dest <;> exact e3) (by cases dest <;> rfl)
          (Sink.afterWrites_reliable _ _ hr) (by cases dest <;> simp only [NailgunConnection.setSink] <;> omega)
        refine ⟨got :: ws, c', ?_, by simp [i2], ?_, i4⟩
        · have : (got ++ rest).length - got.length = rest.length := by simp
          rw [this, i1, Sink.afterWrites_append]
          cases dest <;> rfl
        · intro w hw
          simp only [List.mem_cons] at hw
          rcases hw with rfl | hw
          · exact ⟨hpos, by omega⟩
          · exact i3 w hw
      · rename_i hz
        have hg : got = [] := List.eq_nil_of_length_eq_zero (by omega)
        subst hg
        obtain ⟨ws, c', i1, i2, i3, i4⟩ := ih
          ({ self with Conn := (self.Conn.Read k).2 } : NailgunConnection) rest s
          e3 (by cases dest <;> exact hs) hr (by simp only; omega)
        refine ⟨ws, c', ?_, by simp [i2], i3, i4⟩
        simp only [List.nil_append]
        rw [i1]
    · rename_i hL
      have : bs = [] := List.eq_nil_of_length_eq_zero (by omega)
      subst this
      refine ⟨[], self.Conn, ?_, rfl, by simp, by simpa using h⟩
      rw [Sink.afterWrites_empty]
      cases dest <;> simp only [NailgunConnection.sink] at hs <;>
        simp [NailgunConnection.setSink, ← hs]

/-! ## `Atoi` on decimal text -/

theorem horner_le (ds : List Nat) (n : Nat) : n ≤ horner ds n := by
  induction ds generalizing n with
  | nil => simp [horner]
  | cons d ds ih =>
    have := ih (n * 10 + d)
    simp only [horner, List.foldl_cons] at this ⊢
    omega

theorem horner_reverse_digits (ds : List Nat) : horner ds.reverse 0 = Nat.ofDigits 10 ds := by
  induction ds with
  | nil => simp [horner]
  | cons d ds ih =>
    simp only [horner] at ih
    simp only [horner, List.reverse_cons, List.foldl_append, List.foldl_cons, List.foldl_nil,
      ih, Nat.ofDigits_cons]
    omega

theorem atoiFastLoop_digits (ds : List Nat) (n : Nat) (h : ∀ d ∈ ds, d < 10) :
    atoiFastLoop (ds.map (fun d => d + 48)) n = some (horner ds n) := by
  induction ds generalizing n with
  | nil => simp [atoiFastLoop, horner]
  | cons d ds ih =>
    have hd : d < 10 := h d (by simp)
    have e : (d + 48 + 256 - 48) % 256 = d := by omega
    simp only [List.map_cons, atoiFastLoop, e]
    rw [if_neg (by omega), ih _ (fun x hx => h x (by simp [hx]))]
    simp [horner]

theorem parseUintLoop_digits (s0 ds : List Nat) (n : Nat) (h : ∀ d ∈ ds, d < 10)
    (hv : horner ds n < 2 ^ 64) :
    parseUintLoop s0 (ds.map (fun d => d + 48)) n = (horner ds n, none) := by
  induction ds generalizing n with
  | nil => simp [parseUintLoop, horner]
  | cons d ds ih =>
    have hd : d < 10 := h d (by simp)
    have hv' : horner ds (n * 10 + d) < 2 ^ 64 := by simpa [horner] using hv
    have hle := horner_le ds (n * 10 + d)
    have e : (n * 10 + d) % 2 ^ 64 = n * 10 + d := Nat.mod_eq_of_lt (by omega)
    simp only [List.map_cons, parseUintLoop, maxUint64]
    rw [if_pos (by omega), if_neg (by omega), if_neg (by omega)]
    simp only [Nat.add_sub_cancel, e]
    rw [if_neg (by omega), ih _ (fun x hx => h x (by simp [hx])) hv']
    simp [horner]

theorem decimal_eq (n : Nat) : decimal n = (decimalDigits n).map (fun d => d + 48) := by
  unfold decimal decimalDigits
  split <;> simp

theorem decimalDigits_lt (n : Nat) : ∀ d ∈ decimalDigits n, d < 10 := by
  intro d hd
  unfold decimalDigits at hd
  split at hd
  · simp at hd; omega
  · exact Nat.digits_lt_base (by omega) (List.mem_reverse.mp hd)

theorem horner_decimalDigits (n : Nat) : horner (decimalDigits n) 0 = n := by
  unfold decimalDigits
  split
  · rename_i h; simp [horner, h]
  · rw [horner_reverse_digits, Nat.ofDigits_digits]

theorem decimalDigits_length_pos (n : Nat) : 0 < (decimalDigits n).length := by
  unfold decimalDigits
  split
  · simp
  · rename_i h
    rw [List.length_reverse]
    exact List.length_pos.mpr (Nat.digits_ne_nil_iff_ne_zero.mpr h)

theorem decimalDigits_length_le (n : Nat) (h : n ≤ 2 ^ 63) : (decimalDigits n).length ≤ 19 := by
  unfold decimalDigits
  split
  · simp
  · rename_i h0
    rw [List.length_reverse]
    have h1 := Nat.base_pow_length_digits_le 10 n (by omega) h0
    by_contra hc
    have h2 : 10 ^ 20 ≤ 10 ^ (Nat.digits 10 n).length :=
      Nat.pow_le_pow_right (by omega) (by omega)
    have h3 : (2 : Nat) ^ 63 = 9223372036854775808 := by norm_num
    have h4 : (10 : Nat) ^ 20 = 100000000000000000000 := by norm_num
    omega

theorem decimal_head (n : Nat) : ∃ d rest, decimal n = d :: rest ∧ 48 ≤ d ∧ d ≤ 57 := by
  rw [decimal_eq]
  have hpos := decimalDigits_length_pos n
  have hlt := decimalDigits_lt n
  cases hds : decimalDigits n with
  | nil => simp [hds] at hpos
  | cons d ds =>
    have := hlt d (by simp [hds])
    exact ⟨d + 48, ds.map (fun d => d + 48), by simp, by omega, by omega⟩

theorem decimal_length (n : Nat) : (decimal n).length = (decimalDigits n).length := by
  rw [decimal_eq, List.length_map]

theorem ParseUint_decimal (n : Nat) (h : n < 2 ^ 64) : ParseUint (decimal n) = (n, none) := by
  obtain ⟨d, rest, e, _, _⟩ := decimal_head n
  unfold ParseUint
  rw [if_neg (by rw [e]; simp)]
  conv_lhs => arg 2; rw [decimal_eq]
  rw [parseUintLoop_digits _ _ _ (decimalDigits_lt n) (by rw [horner_decimalDigits]; exact h),
    horner_decimalDigits]

theorem atoiFastLoop_decimal (n : Nat) : atoiFastLoop (decimal n) 0 = some n := by
  rw [decimal_eq, atoiFastLoop_digits _ _ (decimalDigits_lt n), horner_decimalDigits]

theorem Atoi_itoa (c : Int) (hlo : -2 ^ 63 ≤ c) (hhi : c < 2 ^ 63) :
    Atoi (itoa c) = (c, none) := by
  obtain ⟨d, rest, e, hd1, hd2⟩ := decimal_head c.natAbs
  have hfast := atoiFastLoop_decimal c.natAbs
  have hn : c.natAbs ≤ 2 ^ 63 := by omega
  have hslow := ParseUint_decimal c.natAbs (by omega)
  have hlen := decimal_length c.natAbs
  have hpos := decimalDigits_length_pos c.natAbs
  unfold Atoi itoa
  by_cases hc : c < 0
  · simp only [hc, ↓reduceIte, List.length_cons, List.head?_cons, List.tail_cons, true_or]
    split
    · rw [if_neg (by omega), hfast]
      simp only [Prod.mk.injEq, and_true]
      omega
    · have h63 : ((2 : Nat) ^ 63 : Int) = 9223372036854775808 := by norm_num
      have h63n : (2 : Nat) ^ 63 = 9223372036854775808 := by norm_num
      simp only [ParseInt, or_true, ↓reduceIte, hslow, decide_True]
      rw [if_neg (by simp), if_neg (by simp only [true_and]; omega)]
      simp only [toInt64, negInt64, Prod.mk.injEq, and_true, ↓reduceIte]
      omega
  · simp only [hc, ↓reduceIte]
    split
    · rw [e] at hfast ⊢
      simp only [List.head?_cons, Option.some.injEq]
      rw [if_neg (by omega), if_neg (by omega), hfast]
      simp only [Prod.mk.injEq, and_true]
      rw [if_neg (by omega)]
      omega
    · have h63 : ((2 : Nat) ^ 63 : Int) = 9223372036854775808 := by norm_num
      have h63n : (2 : Nat) ^ 63 = 9223372036854775808 := by norm_num
      rw [e] at hslow ⊢
      simp only [ParseInt]
      rw [if_neg (by omega)]
      simp only [hslow]
      have hd45 : decide (d = 45) = false := by simp; omega
      rw [if_neg (by simp only [hd45, true_and]; omega), if_neg (by simp [hd45])]
      simp only [hd45, toInt64, Prod.mk.injEq, and_true]
      simp only [Bool.false_eq_true, ↓reduceIte]
      omega

theorem itoa_length_le (c : Int) (hlo : -2 ^ 63 ≤ c) (hhi : c < 2 ^ 63) :
    (itoa c).length ≤ 20 := by
  have h1 := decimalDigits_length_le c.natAbs (by omega)
  have h2 := decimal_length c.natAbs
  unfold itoa
  split
  · simp only [List.length_cons]; omega
  · omega

/-! ## One frame of the response -/

theorem defaultSinks_eq (host : Host) (self : NailgunConnection) :
    defaultSinks host self
      = { Conn := self.Conn, Output := some (self.Output.getD host.Stdout),
          Outerr := some (self.Outerr.getD host.Stderr) } := by
  unfold defaultSinks
  rcases self with ⟨c, _ | o, _ | e⟩ <;> simp

theorem be32_getD_tag (L t : Nat) : (be32 L ++ [t]).getD 4 0 = t := by
  simp [be32]

theorem header_delivers (post : List ReadStep) (self : NailgunConnection) (L t : Nat)
    (more : List Nat) (h : self.Conn.Delivers (be32 L ++ [t] ++ more) post) :
    ∃ c', readFully self 5 = (.ret (be32 L ++ [t], none), { self with Conn := c' }) ∧
      c'.Delivers more post := by
  have hl : (be32 L ++ [t]).length = 5 := by simp [be32]
  have := readFully_delivers post self (be32 L ++ [t]) more h
  rwa [hl] at this

/-- What `readFromServer` does once the header of the next frame has been handed over. -/
theorem readFromServer_header (host : Host) (post : List ReadStep) (self : NailgunConnection)
    (L t : Nat) (more : List Nat) (hL : L < 2 ^ 32)
    (h : self.Conn.Delivers (be32 L ++ [t] ++ more) post) :
    ∃ c1, c1.Delivers more post ∧
      readFromServer host self =
        match switchChunk 16284
          { Conn := c1, Output := some (self.Output.getD host.Stdout),
            Outerr := some (self.Outerr.getD host.Stderr) } t L with
        | (.done r, self2) => (r, self2)
        | (.next, self2) => readFromServer host self2
        | (.forward dest, self2) =>
          match payloadLoop 16284 dest (cost self2.Conn.reads + 1) self2 L with
          | (.ret (some r), self3) => (.ret r, self3)
          | (.ret none, self3) => readFromServer host self3
          | (.panic m, self3) => (.panic m, self3)
          | (.outOfFuel, self3) => (.outOfFuel, self3) := by
  obtain ⟨c1, h1, h2⟩ := header_delivers post self L t more h
  refine ⟨c1, h2, ?_⟩
  rw [readFromServer_step, h1]
  simp only [payloadLengthOf_be32 L t hL, be32_getD_tag, defaultSinks_eq]

/-- C8: when the next frame of the response stream is a start-input (`S`) chunk whose
declared length is not zero, `readFromServer` returns the error "Expected 0 length for S
chunk" with exit code 0, neither sink receives a write, and nothing after the header is
read. -/
theorem start_input_nonzero_fails (host : Host) (post : List ReadStep)
    (self : NailgunConnection) (L : Nat) (more : List Nat) (hL0 : L ≠ 0) (hL : L < 2 ^ 32)
    (h : self.Conn.Delivers (be32 L ++ [83] ++ more) post) :
    ∃ c', c'.Delivers more post ∧
      readFromServer host self
        = (.ret (0, some (.errorf "Expected 0 length for S chunk" [])),
            { Conn := c', Output := some (self.Output.getD host.Stdout),
              Outerr := some (self.Outerr.getD host.Stderr) }) := by
  obtain ⟨c1, h1, h2⟩ := readFromServer_header host post self L 83 more hL h
  refine ⟨c1, h1, ?_⟩
  rw [h2]
  simp [switchChunk, hL0]

/-- C9: when the next frame of the response stream has a tag other than `1`, `2`, `S` and
`X`, whatever its declared length, `readFromServer` returns the error "Unexpected chunk
type %v" formatted with that tag, with exit code 0; neither sink receives a write and
nothing after the header is read. -/
theorem unknown_tag_fails (host : Host) (post : List ReadStep)
    (self : NailgunConnection) (t L : Nat) (more : List Nat)
    (ht : t ≠ 49 ∧ t ≠ 50 ∧ t ≠ 83 ∧ t ≠ 88) (hL : L < 2 ^ 32)
    (h : self.Conn.Delivers (be32 L ++ [t] ++ more) post) :
    ∃ c', c'.Delivers more post ∧
      readFromServer host self
        = (.ret (0, some (.errorf "Unexpected chunk type %v" [t])),
            { Conn := c', Output := some (self.Output.getD host.Stdout),
              Outerr := some (self.Outerr.getD host.Stderr) }) := by
  obtain ⟨c1, h1, h2⟩ := readFromServer_header host post self L t more hL h
  refine ⟨c1, h1, ?_⟩
  rw [h2]
  simp [switchChunk, ht.1, ht.2.1, ht.2.2.1, ht.2.2.2]

theorem exit_chunk_returns (host : Host) (post : List ReadStep) (self : NailgunConnection)
    (c : Int) (more : List Nat) (hlo : -2 ^ 63 ≤ c) (hhi : c < 2 ^ 63)
    (h : self.Conn.Delivers (frame 88 (itoa c) ++ more) post) :
    ∃ c', c'.Delivers more post ∧
      readFromServer host self
        = (.ret (c, none),
            { Conn := c', Output := some (self.Output.getD host.Stdout),
              Outerr := some (self.Outerr.getD host.Stderr) }) := by
  have hlen := itoa_length_le c hlo hhi
  have h' : self.Conn.Delivers
      (be32 (itoa c).length ++ [88] ++ (itoa c ++ more)) post := by
    simpa [frame, List.append_assoc] using h
  obtain ⟨c1, h1, h2⟩ := readFromServer_header host post self (itoa c).length 88
    (itoa c ++ more) (by omega) h'
  obtain ⟨c2, h3, h4⟩ := readFully_delivers post
    { Conn := c1, Output := some (self.Output.getD host.Stdout),
      Outerr := some (self.Outerr.getD host.Stderr) } (itoa c) more h1
  refine ⟨c2, h4, ?_⟩
  rw [h2]
  have hN : ¬ (itoa c).length > 16284 := by omega
  simp only [switchChunk, Nat.reduceEqDiff, ↓reduceIte, hN, h3]
  simp [Atoi_itoa c hlo hhi]

theorem data_chunk_forwarded (host : Host) (post : List ReadStep) (self : NailgunConnection)
    (t : Nat) (dest : Dest) (p more : List Nat) (s : Sink)
    (ht : t = 49 ∧ dest = .Output ∨ t = 50 ∧ dest = .Outerr)
    (hp : p.length < 2 ^ 32)
    (h : self.Conn.Delivers (frame t p ++ more) post)
    (hs : (defaultSinks host self).sink dest = some s) (hr : s.Reliable) :
    ∃ ws c', ws.flatten = p ∧ (∀ w ∈ ws, 0 < w.length ∧ w.length ≤ 16284) ∧
      c'.Delivers more post ∧
      readFromServer host self
        = readFromServer host
            (({ Conn := c', Output := some (self.Output.getD host.Stdout),
                Outerr := some (self.Outerr.getD host.Stderr) } : NailgunConnection).setSink
              dest (s.afterWrites ws)) := by
  have h' : self.Conn.Delivers (be32 p.length ++ [t] ++ (p ++ more)) post := by
    simpa [frame, List.append_assoc] using h
  obtain ⟨c1, h1, h2⟩ := readFromServer_header host post self p.length t (p ++ more) hp h'
  rw [defaultSinks_eq] at hs
  have hsw : switchChunk 16284
      { Conn := c1, Output := some (self.Output.getD host.Stdout),
        Outerr := some (self.Outerr.getD host.Stderr) } t p.length
      = (.forward dest,
          { Conn := c1, Output := some (self.Output.getD host.Stdout),
            Outerr := some (self.Outerr.getD host.Stderr) }) := by
    rcases ht with ⟨rfl, rfl⟩ | ⟨rfl, rfl⟩ <;> simp [switchChunk]
  obtain ⟨ws, c2, h3, h4, h5, h6⟩ := payloadLoop_delivers 16284 (by omega) dest post
    (cost c1.reads + 1)
    { Conn := c1, Output := some (self.Output.getD host.Stdout),
      Outerr := some (self.Outerr.getD host.Stderr) } p more s h1
    (by cases dest <;> exact hs) hr (by simp)
  refine ⟨ws, c2, h4, h5, h6, ?_⟩
  rw [h2, hsw]
  simp only
  rw [h3]

theorem payloadsOf_cons (t : Nat) (f : Nat × List Nat) (fs : List (Nat × List Nat)) :
    payloadsOf t (f :: fs) = (if f.1 = t then f.2 else []) ++ payloadsOf t fs := by
  unfold payloadsOf
  by_cases h : f.1 = t <;> simp [List.filter_cons, h]

/-- C1: for a response stream made of stdout-data (`1`) and stderr-data (`2`) chunks
followed by an exit (`X`) chunk whose payload is the decimal text of `c`, handed over by
the transport in reads of any sizes, `readFromServer` returns `c` with no error, the
output sink has received the `1` payloads in order and the error sink the `2` payloads in
order, and nothing after the exit chunk has been read. -/
theorem readFromServer_demultiplexes (host : Host) (post : List ReadStep)
    (frames : List (Nat × List Nat)) (self : NailgunConnection) (c : Int) (more : List Nat)
    (hf : ∀ f ∈ frames, (f.1 = 49 ∨ f.1 = 50) ∧ f.2.length < 2 ^ 32)
    (hlo : -2 ^ 63 ≤ c) (hhi : c < 2 ^ 63)
    (h : self.Conn.Delivers (encodeFrames frames ++ frame 88 (itoa c) ++ more) post)
    (hro : (self.Output.getD host.Stdout).Reliable)
    (hre : (self.Outerr.getD host.Stderr).Reliable) :
    ∃ out err c', c'.Delivers more post ∧
      readFromServer host self
        = (.ret (c, none), { Conn := c', Output := some out, Outerr := some err }) ∧
      out.received = (self.Output.getD host.Stdout).received ++ payloadsOf 49 frames ∧
      err.received = (self.Outerr.getD host.Stderr).received ++ payloadsOf 50 frames := by
  induction frames generalizing self with
  | nil =>
    obtain ⟨c', h1, h2⟩ := exit_chunk_returns host post self c more hlo hhi
      (by simpa [encodeFrames] using h)
    exact ⟨_, _, c', h1, h2, by simp [payloadsOf], by simp [payloadsOf]⟩
  | cons f fs ih =>
    obtain ⟨ht, hp⟩ := hf f (by simp)
    have hf' : ∀ g ∈ fs, (g.1 = 49 ∨ g.1 = 50) ∧ g.2.length < 2 ^ 32 :=
      fun g hg => hf g (by simp [hg])
    have h' : self.Conn.Delivers
        (frame f.1 f.2 ++ (encodeFrames fs ++ frame 88 (itoa c) ++ more)) post := by
      simpa [encodeFrames, List.append_assoc] using h
    rcases ht with ht | ht
    · obtain ⟨ws, c1, h1, _, h3, h4⟩ := data_chunk_forwarded host post self f.1 .Output f.2 _
        (self.Output.getD host.Stdout) (Or.inl ⟨ht, rfl⟩) hp h'
        (by rw [defaultSinks_eq]; rfl) hro
      obtain ⟨out, err, c', i1, i2, i3, i4⟩ := ih
        (({ Conn := c1, Output := some (self.Output.getD host.Stdout),
            Outerr := some (self.Outerr.getD host.Stderr) } : NailgunConnection).setSink
          .Output ((self.Output.getD host.Stdout).afterWrites ws)) hf' h3
        (Sink.afterWrites_reliable _ _ hro) hre
      refine ⟨out, err, c', i1, by rw [h4, i2], ?_, ?_⟩
      · rw [i3, payloadsOf_cons, if_pos ht]
        simp [NailgunConnection.setSink, Sink.received_afterWrites, h1]
      · rw [i4, payloadsOf_cons, if_neg (by omega)]
        simp [NailgunConnection.setSink]
    · obtain ⟨ws, c1, h1, _, h3, h4⟩ := data_chunk_forwarded host post self f.1 .Outerr f.2 _
        (self.Outerr.getD host.Stderr) (Or.inr ⟨ht, rfl⟩) hp h'
        (by rw [defaultSinks_eq]; rfl) hre
      obtain ⟨out, err, c', i1, i2, i3, i4⟩ := ih
        (({ Conn := c1, Output := some (self.Output.getD host.Stdout),
            Outerr := some (self.Outerr.getD host.Stderr) } : NailgunConnection).setSink
          .Outerr ((self.Outerr.getD host.Stderr).afterWrites ws)) hf' h3
        hro (Sink.afterWrites_reliable _ _ hre)
      refine ⟨out, err, c', i1, by rw [h4, i2], ?_, ?_⟩
      · rw [i3, payloadsOf_cons, if_neg (by omega)]
        simp [NailgunConnection.setSink]
      · rw [i4, payloadsOf_cons, if_pos ht]
        simp [NailgunConnection.setSink, Sink.received_afterWrites, h1]

/-! ## The whole request -/

theorem SendCommandBody_acceptsAll (host : Host) (self : NailgunConnection)
    (command : List Nat) (cmdargs : List (List Nat)) (cwd : List Nat)
    (hc : self.Conn.AcceptsAll) (hcwd : host.absDot = .ok cwd) :
    SendCommandBody host self command cmdargs
      = readFromServer host { self with
          Conn := self.Conn.afterWrites (chunkWrites (requestFrames host command cmdargs cwd)) } := by
  unfold SendCommandBody
  rw [sendArguments_acceptsAll _ _ hc]
  simp only
  have hc1 := Conn.afterWrites_acceptsAll self.Conn
    (chunkWrites (cmdargs.map (fun a => (65, a)))) hc
  rw [sendEnvironment_acceptsAll _ _ hc1]
  simp only [Conn.afterWrites_afterWrites]
  have hc2 := Conn.afterWrites_acceptsAll self.Conn
    (chunkWrites (cmdargs.map (fun a => (65, a))) ++ chunkWrites (environmentFrames host)) hc
  unfold sendWorkingDirectory
  simp only [hcwd]
  rw [sendChunk_acceptsAll _ _ _ hc2]
  simp only [Conn.afterWrites_afterWrites]
  rw [sendChunk_acceptsAll _ _ _ (Conn.afterWrites_acceptsAll _ _ hc)]
  simp only [Conn.afterWrites_afterWrites]
  congr 3
  simp [requestFrames, chunkWrites]

/-- C4: on a connection that accepts every write in full, the operations `SendCommand`
performs on it are writes, then reads, then the close; the bytes written are, frame by
frame, the `A` frames of the arguments, the `E` frames of the environment with its two
separator entries, one `D` frame and, last, one `C` frame with the command name. -/
theorem SendCommand_request_order (host : Host) (self : NailgunConnection)
    (command : List Nat) (cmdargs : List (List Nat)) (cwd : List Nat)
    (hc : self.Conn.AcceptsAll) (hcwd : host.absDot = .ok cwd)
    (ha : ∀ a ∈ cmdargs, a.length < 2 ^ 32) (he : ∀ e ∈ host.environ, e.length < 2 ^ 32)
    (hd : cwd.length < 2 ^ 32) (hm : command.length < 2 ^ 32) :
    ∃ (ws rs : List (List Nat)),
      (SendCommand host self command cmdargs).2.Conn.ops
        = self.Conn.ops ++ ws.map ConnOp.write ++ rs.map ConnOp.read ++ [ConnOp.close] ∧
      decodeFrames ws.flatten
        = some (cmdargs.map (fun a => (65, a)) ++ host.environ.map (fun e => (69, e))
            ++ [(69, fileSep host), (69, pathSep host), (68, cwd), (67, command)]) := by
  have hb := SendCommandBody_acceptsAll host self command cmdargs cwd hc hcwd
  have hinv := readFromServerLoop_inv host 16284
    (cost (self.Conn.afterWrites
      (chunkWrites (requestFrames host command cmdargs cwd))).reads + 1)
    { self with
      Conn := self.Conn.afterWrites (chunkWrites (requestFrames host command cmdargs cwd)) }
  obtain ⟨_, hcl, rs, hops⟩ := hinv
  refine ⟨chunkWrites (requestFrames host command cmdargs cwd), rs, ?_, ?_⟩
  · unfold SendCommand close
    rw [hb]
    unfold readFromServer
    have hc1 : (self.Conn.afterWrites
        (chunkWrites (requestFrames host command cmdargs cwd))).closed = false := hc.1
    simp only at hcl hops
    simp only [Conn.Close, hcl, hc1, Bool.false_eq_true, ↓reduceIte, hops]
    simp [Conn.afterWrites]
  · rw [chunkWrites_flatten]
    have hfr : requestFrames host command cmdargs cwd
        = cmdargs.map (fun a => (65, a)) ++ host.environ.map (fun e => (69, e))
            ++ [(69, fileSep host), (69, pathSep host), (68, cwd), (67, command)] := by
      simp [requestFrames, environmentFrames]
    rw [← hfr]
    apply decodeFrames_encodeFrames
    intro f hf
    simp only [requestFrames, List.mem_append, List.mem_map, List.mem_cons,
      List.mem_singleton, List.not_mem_nil, or_false] at hf
    rcases hf with (⟨a, ha', rfl⟩ | hf) | rfl | rfl
    · exact ha a ha'
    · exact environmentFrames_bound host he f hf
    · exact hd
    · exact hm

/-! ## The properties at concrete inputs -/

theorem itoa_three : itoa 3 = [51] := by simp [itoa, decimal]

theorem freshConn_delivers (bs : List Nat) (steps : List ReadStep)
    (he : ∀ s ∈ steps, s.err = none) (hf : flat steps = bs) :
    (freshConn steps).Delivers bs [] :=
  ⟨rfl, steps, by simp [freshConn], he, hf⟩

theorem flat_byteWise (bs : List Nat) : flat (byteWise bs) = bs := by
  induction bs with
  | nil => rfl
  | cons b bs ih =>
    simp only [flat, byteWise, List.map_cons, List.flatten_cons] at ih ⊢
    rw [ih]; rfl

theorem errFree_byteWise (bs : List Nat) : ∀ s ∈ byteWise bs, s.err = none := by
  intro s hs
  simp only [byteWise, List.mem_map] at hs
  obtain ⟨b, _, rfl⟩ := hs
  rfl

theorem reliable_empty : (⟨[], []⟩ : Sink).Reliable := by
  intro o ho
  simp at ho

/-- The response `1`/"hello", `2`/"oops", `X`/"3", handed over one byte at a time: "hello"
goes to the output sink, "oops" to the error sink and the exit code is 3. -/
theorem readFromServer_demultiplexes_witness :
    (∃ out err c', c'.Delivers [] [] ∧
      readFromServer exampleHost (freshNg (byteWise helloOopsThree))
        = (.ret (3, none), { Conn := c', Output := some out, Outerr := some err }) ∧
      out.received = ((freshNg (byteWise helloOopsThree)).Output.getD exampleHost.Stdout).received
        ++ payloadsOf 49 [(49, ascii "hello"), (50, ascii "oops")] ∧
      err.received = ((freshNg (byteWise helloOopsThree)).Outerr.getD exampleHost.Stderr).received
        ++ payloadsOf 50 [(49, ascii "hello"), (50, ascii "oops")]) ∧
    payloadsOf 49 [(49, ascii "hello"), (50, ascii "oops")] = ascii "hello" ∧
    payloadsOf 50 [(49, ascii "hello"), (50, ascii "oops")] = ascii "oops" :=
  ⟨readFromServer_demultiplexes exampleHost [] [(49, ascii "hello"), (50, ascii "oops")]
      (freshNg (byteWise helloOopsThree)) 3 [] (by decide) (by norm_num) (by norm_num)
      (freshConn_delivers _ _ (errFree_byteWise _)
        (by rw [flat_byteWise, itoa_three]; decide))
      reliable_empty reliable_empty,
    by decide, by decide⟩

/-- The same response handed over in a single read, evaluated: the two sinks and the exit
code. -/
theorem readFromServer_hello_oops_three :
    (readFromServer exampleHost (freshNg [⟨helloOopsThree, none⟩])).1 = .ret (3, none) ∧
    (readFromServer exampleHost (freshNg [⟨helloOopsThree, none⟩])).2.Output
      = some ⟨[ascii "hello"], []⟩ ∧
    (readFromServer exampleHost (freshNg [⟨helloOopsThree, none⟩])).2.Outerr
      = some ⟨[ascii "oops"], []⟩ := by
  decide

/-- The header of the chunk `A`/"hi" is `0 0 0 2 'A'` and decodes to length 2 and tag `A`. -/
theorem header_round_trip_witness :
    ((sendChunk (freshNg []) 65 [104, 105]).2.Conn.sent.drop (freshNg []).Conn.sent.length
      = chunkHeader 65 [104, 105] ++ [104, 105] ∧
    (chunkHeader 65 [104, 105]).length = 5 ∧
    payloadLengthOf (chunkHeader 65 [104, 105]) = [104, 105].length ∧
    (chunkHeader 65 [104, 105]).getD 4 0 = 65 ∧
    (((sendChunk (freshNg []) 65 [104, 105]).2.Conn.sent.drop
        (freshNg []).Conn.sent.length).drop 5).take
      (payloadLengthOf (chunkHeader 65 [104, 105])) = [104, 105]) ∧
    chunkHeader 65 [104, 105] = [0, 0, 0, 2, 65] :=
  ⟨header_round_trip (freshNg []) 65 [104, 105] (by decide) (by decide), by decide⟩

/-- Sending the chunk `A`/"hi" on a fresh connection puts `0 0 0 2 'A' 'h' 'i'` on the wire. -/
theorem sendChunk_wire_format_witness :
    ((sendChunk (freshNg []) 65 [104, 105]).1 = .ret none ∧
    (sendChunk (freshNg []) 65 [104, 105]).2.Conn.sent
      = (freshNg []).Conn.sent ++ (be32 [104, 105].length ++ [65] ++ [104, 105]) ∧
    (be32 [104, 105].length).length = 4 ∧ (∀ b ∈ be32 [104, 105].length, b < 256) ∧
    beValue (be32 [104, 105].length) = [104, 105].length) ∧
    (sendChunk (freshNg []) 65 [104, 105]).2.Conn.sent = [0, 0, 0, 2, 65, 104, 105] :=
  ⟨sendChunk_wire_format (freshNg []) 65 [104, 105] (by decide) (by decide), by decide⟩

/-- The request for `cmd a1 a2` with the environment `A=B` in `/tmp`. -/
theorem SendCommand_request_order_witness :
    ∃ (ws rs : List (List Nat)),
      (SendCommand exampleHost (freshNg [⟨[0, 0, 0, 1, 88, 48], none⟩]) (ascii "cmd")
          [ascii "a1", ascii "a2"]).2.Conn.ops
        = (freshNg [⟨[0, 0, 0, 1, 88, 48], none⟩]).Conn.ops ++ ws.map ConnOp.write
            ++ rs.map ConnOp.read ++ [ConnOp.close] ∧
      decodeFrames ws.flatten
        = some ([ascii "a1", ascii "a2"].map (fun a => (65, a))
            ++ exampleHost.environ.map (fun e => (69, e))
            ++ [(69, fileSep exampleHost), (69, pathSep exampleHost), (68, ascii "/tmp"),
                (67, ascii "cmd")]) :=
  SendCommand_request_order exampleHost (freshNg [⟨[0, 0, 0, 1, 88, 48], none⟩]) (ascii "cmd")
    [ascii "a1", ascii "a2"] (ascii "/tmp") (by decide) rfl (by decide) (by decide)
    (by decide) (by decide)

/-- The arguments `a1`, `a2` give two `A` frames. -/
theorem sendArguments_frames_witness :
    (sendArguments (freshNg []) [ascii "a1", ascii "a2"]).1 = .ret none ∧
    (sendArguments (freshNg []) [ascii "a1", ascii "a2"]).2.Conn.sent
      = (freshNg []).Conn.sent ++ ([ascii "a1", ascii "a2"].map (fun a => frame 65 a)).flatten ∧
    decodeFrames ((sendArguments (freshNg []) [ascii "a1", ascii "a2"]).2.Conn.sent.drop
        (freshNg []).Conn.sent.length)
      = some ([ascii "a1", ascii "a2"].map (fun a => (65, a))) ∧
    ([ascii "a1", ascii "a2"].map (fun a => ((65 : Nat), a))).length
      = [ascii "a1", ascii "a2"].length :=
  sendArguments_frames (freshNg []) [ascii "a1", ascii "a2"] (by decide) (by decide)

/-- The environment `A=B` gives three `E` frames. -/
theorem sendEnvironment_frames_witness :
    (sendEnvironment exampleHost (freshNg [])).1 = .ret none ∧
    decodeFrames ((sendEnvironment exampleHost (freshNg [])).2.Conn.sent.drop
        (freshNg []).Conn.sent.length)
      = some (exampleHost.environ.map (fun e => (69, e))
          ++ [(69, fileSep exampleHost), (69, pathSep exampleHost)]) ∧
    (exampleHost.environ.map (fun e => ((69 : Nat), e))
          ++ [(69, fileSep exampleHost), (69, pathSep exampleHost)]).length
      = exampleHost.environ.length + 2 ∧
    ascii "NAILGUN_FILESEPARATOR=" <+: fileSep exampleHost ∧
    ascii "NAILGUN_PATHSEPARATOR=" <+: pathSep exampleHost :=
  sendEnvironment_frames exampleHost (freshNg []) (by decide) (by decide)

/-- An `S` chunk that declares one byte of payload. -/
theorem start_input_nonzero_fails_witness :
    ∃ c', c'.Delivers [7] [] ∧
      readFromServer exampleHost (freshNg (byteWise (be32 1 ++ [83] ++ [7])))
        = (.ret (0, some (.errorf "Expected 0 length for S chunk" [])),
            { Conn := c',
              Output := some ((freshNg (byteWise (be32 1 ++ [83] ++ [7]))).Output.getD
                exampleHost.Stdout),
              Outerr := some ((freshNg (byteWise (be32 1 ++ [83] ++ [7]))).Outerr.getD
                exampleHost.Stderr) }) :=
  start_input_nonzero_fails exampleHost [] (freshNg (byteWise (be32 1 ++ [83] ++ [7]))) 1 [7]
    (by decide) (by decide) (freshConn_delivers _ _ (errFree_byteWise _) (flat_byteWise _))

/-- A chunk tagged `Z` that declares two bytes of payload. -/
theorem unknown_tag_fails_witness :
    ∃ c', c'.Delivers [7, 8] [] ∧
      readFromServer exampleHost (freshNg (byteWise (be32 2 ++ [90] ++ [7, 8])))
        = (.ret (0, some (.errorf "Unexpected chunk type %v" [90])),
            { Conn := c',
              Output := some ((freshNg (byteWise (be32 2 ++ [90] ++ [7, 8]))).Output.getD
                exampleHost.Stdout),
              Outerr := some ((freshNg (byteWise (be32 2 ++ [90] ++ [7, 8]))).Outerr.getD
                exampleHost.Stderr) }) :=
  unknown_tag_fails exampleHost [] (freshNg (byteWise (be32 2 ++ [90] ++ [7, 8]))) 90 2 [7, 8]
    (by decide) (by decide) (freshConn_delivers _ _ (errFree_byteWise _) (flat_byteWise _))

/-- C10 at a failing input: the first write of the request (the header of the `E` chunk
of `A=B`) fails with an error. `SendCommand` goes on all the same: it writes the rest of
the request, reads the response and returns exit code 0 with no error. -/
theorem SendCommand_drops_environment_error :
    (sendEnvironment exampleHost firstWriteFails).1 = .ret (some (.connErr 1)) ∧
    (SendCommand exampleHost firstWriteFails (ascii "cmd") []).1 = .ret (0, none) ∧
    (SendCommand exampleHost firstWriteFails (ascii "cmd") []).2.Conn.ops
      = [.write [], .write [0, 0, 0, 4, 68], .write (ascii "/tmp"),
         .write [0, 0, 0, 3, 67], .write (ascii "cmd"),
         .read [0, 0, 0, 1, 88], .read [48], .close] := by
  decide

/-- A write error on a separator chunk is dropped inside `sendEnvironment`, which goes on
with the next chunk and returns `nil`; `SendCommand` then completes with exit code 0. -/
theorem sendEnvironment_drops_separator_error :
    (sendEnvironment exampleHost separatorWriteFails).1 = .ret none ∧
    (sendEnvironment exampleHost separatorWriteFails).2.Conn.ops
      = [.write [0, 0, 0, 3, 69], .write (ascii "A=B"), .write [],
         .write [0, 0, 0, 25, 69], .write (pathSep exampleHost)] ∧
    (SendCommand exampleHost separatorWriteFails (ascii "cmd") []).1 = .ret (0, none) := by
  decide

/-! ## The connection is closed once, at the end -/

theorem Conn.NoClose.same (c : Conn) : c.NoClose c :=
  ⟨rfl, [], by simp, by simp⟩

theorem Conn.NoClose.step {a b c : Conn} (h1 : a.NoClose b) (h2 : b.NoClose c) :
    a.NoClose c := by
  obtain ⟨c1, m1, o1, n1⟩ := h1
  obtain ⟨c2, m2, o2, n2⟩ := h2
  refine ⟨c2.trans c1, m1 ++ m2, by simp [o2, o1], ?_⟩
  intro o ho
  rcases List.mem_append.mp ho with h | h
  · exact n1 o h
  · exact n2 o h

theorem Conn.NoClose_of_readsOnly {a b : Conn} (h : a.ReadsOnly b) : a.NoClose b := by
  obtain ⟨_, hc, rs, ho⟩ := h
  refine ⟨hc, rs.map ConnOp.read, ho, ?_⟩
  intro o ho
  simp only [List.mem_map] at ho
  obtain ⟨_, _, rfl⟩ := ho
  simp

theorem Conn.Write_noClose (c : Conn) (b : List Nat) : c.NoClose (c.Write b).2 := by
  unfold Conn.Write
  split
  · exact ⟨rfl, [_], rfl, by simp⟩
  · split
    · exact ⟨rfl, [_], rfl, by simp⟩
    · exact ⟨rfl, [_], rfl, by simp⟩

theorem sendChunk_noClose (self : NailgunConnection) (t : Nat) (p : List Nat) :
    self.Conn.NoClose (sendChunk self t p).2.Conn := by
  have h1 := Conn.Write_noClose self.Conn (chunkHeader t p)
  have h2 := Conn.Write_noClose (self.Conn.Write (chunkHeader t p)).2 p
  unfold sendChunk
  simp only
  split_ifs
  · exact h1
  · exact h1
  · exact h1.step h2
  · exact h1.step h2
  · exact h1.step h2

theorem sendArguments_noClose (cmdargs : List (List Nat)) (self : NailgunConnection) :
    self.Conn.NoClose (sendArguments self cmdargs).2.Conn := by
  induction cmdargs generalizing self with
  | nil => exact Conn.NoClose.same _
  | cons a rest ih =>
    have h1 := sendChunk_noClose self 65 a
    rw [sendArguments]
    split
    · rename_i self1 heq
      rw [heq] at h1
      exact h1.step (ih self1)
    · exact h1

theorem sendEnvironmentLoop_noClose (envs : List (List Nat)) (self : NailgunConnection) :
    self.Conn.NoClose (sendEnvironmentLoop self envs).2.Conn := by
  induction envs generalizing self with
  | nil => exact Conn.NoClose.same _
  | cons a rest ih =>
    have h1 := sendChunk_noClose self 69 a
    rw [sendEnvironmentLoop]
    split
    · rename_i self1 heq
      rw [heq] at h1
      exact h1.step (ih self1)
    · exact h1

theorem sendEnvironment_noClose (host : Host) (self : NailgunConnection) :
    self.Conn.NoClose (sendEnvironment host self).2.Conn := by
  have h1 := sendEnvironmentLoop_noClose host.environ self
  unfold sendEnvironment
  split
  · rename_i self1 heq1
    rw [heq1] at h1
    have h2 := sendChunk_noClose self1 69 (fileSep host)
    split
    · rename_i self2 heq2
      rw [heq2] at h2
      have h3 := sendChunk_noClose self2 69 (pathSep host)
      split
      · rename_i self3 heq3
        rw [heq3] at h3
        exact (h1.step h2).step h3
      · exact (h1.step h2).step h3
    · exact h1.step h2
  · exact h1

theorem sendWorkingDirectory_noClose (host : Host) (self : NailgunConnection) :
    self.Conn.NoClose (sendWorkingDirectory host self).2.Conn := by
  unfold sendWorkingDirectory
  split
  · exact Conn.NoClose.same _
  · exact sendChunk_noClose _ _ _

theorem readFromServer_noClose (host : Host) (self : NailgunConnection) :
    self.Conn.NoClose (readFromServer host self).2.Conn :=
  Conn.NoClose_of_readsOnly (readFromServerLoop_inv host 16284 _ self)

theorem SendCommandBody_noClose (host : Host) (self : NailgunConnection)
    (command : List Nat) (cmdargs : List (List Nat)) :
    self.Conn.NoClose (SendCommandBody host self command cmdargs).2.Conn := by
  have h1 := sendArguments_noClose cmdargs self
  unfold SendCommandBody
  split <;> rename_i self1 heq1 <;> rw [heq1] at h1
  · exact h1
  · exact h1
  · exact h1
  · have h2 := sendEnvironment_noClose host self1
    split <;> rename_i self2 heq2 <;> rw [heq2] at h2
    · exact h1.step h2
    · exact h1.step h2
    · have h3 := sendWorkingDirectory_noClose host self2
      split <;> rename_i self3 heq3 <;> rw [heq3] at h3
      · exact (h1.step h2).step h3
      · exact (h1.step h2).step h3
      · exact (h1.step h2).step h3
      · have h4 := sendChunk_noClose self3 67 command
        split <;> rename_i self4 heq4 <;> rw [heq4] at h4
        · exact ((h1.step h2).step h3).step h4
        · exact ((h1.step h2).step h3).step h4
        · exact ((h1.step h2).step h3).step h4
        · exact (((h1.step h2).step h3).step h4).step (readFromServer_noClose host self4)

/-- C11: whatever the connection, the sinks and the process do, and however `SendCommand`
ends (an exit code, an error of the request phase, an error of the response phase, a
panic), the operations it performs on an open connection are reads and writes followed by
exactly one `Close`, which is the last operation; the connection is closed afterwards. -/
theorem SendCommand_closes_once (host : Host) (self : NailgunConnection)
    (command : List Nat) (cmdargs : List (List Nat)) (ho : self.Conn.closed = false) :
    ∃ mid, (SendCommand host self command cmdargs).2.Conn.ops
        = self.Conn.ops ++ mid ++ [ConnOp.close] ∧
      (∀ o ∈ mid, o ≠ ConnOp.close) ∧
      (mid ++ [ConnOp.close]).count ConnOp.close = 1 ∧
      (SendCommand host self command cmdargs).2.Conn.closed = true ∧
      (SendCommandBody host self command cmdargs).2.Conn.closed = false := by
  obtain ⟨hc, mid, hops, hmid⟩ := SendCommandBody_noClose host self command cmdargs
  rw [ho] at hc
  refine ⟨mid, ?_, hmid, ?_, ?_, hc⟩
  · simp [SendCommand, close, Conn.Close, hc, hops]
  · rw [List.count_append, List.count_eq_zero_of_not_mem (fun h => hmid _ h rfl)]
    simp
  · simp [SendCommand, close, Conn.Close, hc]

theorem SendCommand_closes_once_witness :
    ∃ mid, (SendCommand exampleHost firstWriteFails (ascii "cmd") []).2.Conn.ops
        = firstWriteFails.Conn.ops ++ mid ++ [ConnOp.close] ∧
      (∀ o ∈ mid, o ≠ ConnOp.close) ∧
      (mid ++ [ConnOp.close]).count ConnOp.close = 1 ∧
      (SendCommand exampleHost firstWriteFails (ascii "cmd") []).2.Conn.closed = true ∧
      (SendCommandBody exampleHost firstWriteFails (ascii "cmd") []).2.Conn.closed = false :=
  SendCommand_closes_once exampleHost firstWriteFails (ascii "cmd") [] rfl

/-! ## A run of frames before the end of the response -/

theorem start_input_skipped (host : Host) (post : List ReadStep) (self : NailgunConnection)
    (more : List Nat) (h : self.Conn.Delivers (frame 83 [] ++ more) post) :
    ∃ c', c'.Delivers more post ∧
      readFromServer host self
        = readFromServer host
            { Conn := c', Output := some (self.Output.getD host.Stdout),
              Outerr := some (self.Outerr.getD host.Stderr) } := by
  have h' : self.Conn.Delivers (be32 0 ++ [83] ++ more) post := by
    simpa [frame] using h
  obtain ⟨c1, h1, h2⟩ := readFromServer_header host post self 0 83 more (by norm_num) h'
  refine ⟨c1, h1, ?_⟩
  rw [h2]
  simp [switchChunk]

theorem frames_passed (host : Host) (post : List ReadStep) (more : List Nat)
    (frames : List (Nat × List Nat)) (self : NailgunConnection)
    (hf : ∀ f ∈ frames, Passable f)
    (h : self.Conn.Delivers (encodeFrames frames ++ more) post)
    (hro : (self.Output.getD host.Stdout).Reliable)
    (hre : (self.Outerr.getD host.Stderr).Reliable) :
    ∃ self' wo we, readFromServer host self = readFromServer host self' ∧
      self'.Conn.Delivers more post ∧
      self'.Output.getD host.Stdout = (self.Output.getD host.Stdout).afterWrites wo ∧
      wo.flatten = payloadsOf 49 frames ∧
      self'.Outerr.getD host.Stderr = (self.Outerr.getD host.Stderr).afterWrites we ∧
      we.flatten = payloadsOf 50 frames := by
  induction frames generalizing self with
  | nil =>
    exact ⟨self, [], [], rfl, by simpa [encodeFrames] using h,
      by rw [Sink.afterWrites_empty], by simp [payloadsOf],
      by rw [Sink.afterWrites_empty], by simp [payloadsOf]⟩
  | cons f fs ih =>
    have hf' : ∀ g ∈ fs, Passable g := fun g hg => hf g (by simp [hg])
    have h' : self.Conn.Delivers (frame f.1 f.2 ++ (encodeFrames fs ++ more)) post := by
      simpa [encodeFrames, List.append_assoc] using h
    rcases hf f (by simp) with ⟨ht | ht, hp⟩ | hS
    · obtain ⟨ws, c1, h1, _, h3, h4⟩ := data_chunk_forwarded host post self f.1 .Output f.2 _
        (self.Output.getD host.Stdout) (Or.inl ⟨ht, rfl⟩) hp h'
        (by rw [defaultSinks_eq]; rfl) hro
      obtain ⟨self', wo, we, i1, i2, i3, i4, i5, i6⟩ := ih
        (({ Conn := c1, Output := some (self.Output.getD host.Stdout),
            Outerr := some (self.Outerr.getD host.Stderr) } : NailgunConnection).setSink
          .Output ((self.Output.getD host.Stdout).afterWrites ws)) hf' h3
        (Sink.afterWrites_reliable _ _ hro) hre
      refine ⟨self', ws ++ wo, we, by rw [h4, i1], i2, ?_, ?_, ?_, ?_⟩
      · rw [i3]; simp [NailgunConnection.setSink, Sink.afterWrites_append]
      · rw [payloadsOf_cons, if_pos ht, List.flatten_append, h1, i4]
      · rw [i5]; simp [NailgunConnection.setSink]
      · rw [payloadsOf_cons, if_neg (by omega), i6]; simp
    · obtain ⟨ws, c1, h1, _, h3, h4⟩ := data_chunk_forwarded host post self f.1 .Outerr f.2 _
        (self.Outerr.getD host.Stderr) (Or.inr ⟨ht, rfl⟩) hp h'
        (by rw [defaultSinks_eq]; rfl) hre
      obtain ⟨self', wo, we, i1, i2, i3, i4, i5, i6⟩ := ih
        (({ Conn := c1, Output := some (self.Output.getD host.Stdout),
            Outerr := some (self.Outerr.getD host.Stderr) } : NailgunConnection).setSink
          .Outerr ((self.Outerr.getD host.Stderr).afterWrites ws)) hf' h3
        hro (Sink.afterWrites_reliable _ _ hre)
      refine ⟨self', wo, ws ++ we, by rw [h4, i1], i2, ?_, ?_, ?_, ?_⟩
      · rw [i3]; simp [NailgunConnection.setSink]
      · rw [payloadsOf_cons, if_neg (by omega), i4]; simp
      · rw [i5]; simp [NailgunConnection.setSink, Sink.afterWrites_append]
      · rw [payloadsOf_cons, if_pos ht, List.flatten_append, h1, i6]
    · have e1 : f.1 = 83 := by rw [hS]
      have e2 : f.2 = [] := by rw [hS]
      rw [e1, e2] at h'
      obtain ⟨c1, h1, h2⟩ := start_input_skipped host post self _ h'
      obtain ⟨self', wo, we, i1, i2, i3, i4, i5, i6⟩ := ih
        { Conn := c1, Output := some (self.Output.getD host.Stdout),
          Outerr := some (self.Outerr.getD host.Stderr) } hf' h1 hro hre
      refine ⟨self', wo, we, by rw [h2, i1], i2, by rw [i3]; rfl, ?_, by rw [i5]; rfl, ?_⟩
      · rw [payloadsOf_cons, if_neg (by omega), i4]; simp
      · rw [payloadsOf_cons, if_neg (by omega), i6]; simp

theorem payloadsOf_filter_start_input (t : Nat) (ht : t ≠ 83)
    (frames : List (Nat × List Nat)) :
    payloadsOf t (frames.filter (fun f => f.1 ≠ 83)) = payloadsOf t frames := by
  induction frames with
  | nil => rfl
  | cons f fs ih =>
    by_cases h : f.1 = 83
    · rw [List.filter_cons_of_neg (by simpa using h), ih, payloadsOf_cons,
        if_neg (by omega)]
      simp
    · rw [List.filter_cons_of_pos (by simpa using h), payloadsOf_cons, payloadsOf_cons, ih]

/-- C17: take a response stream of stdout-data, stderr-data and zero-length start-input
(`S`) frames followed by an exit chunk with the decimal text of `c`, and the same stream
with the `S` frames left out. On both, `readFromServer` returns `c` with no error, and
the output sink and the error sink receive the same bytes. -/
theorem start_input_transparent (host : Host) (post1 post2 : List ReadStep)
    (more1 more2 : List Nat) (frames : List (Nat × List Nat))
    (self1 self2 : NailgunConnection) (c : Int)
    (hf : ∀ f ∈ frames, Passable f) (hlo : -2 ^ 63 ≤ c) (hhi : c < 2 ^ 63)
    (h1 : self1.Conn.Delivers (encodeFrames frames ++ frame 88 (itoa c) ++ more1) post1)
    (h2 : self2.Conn.Delivers
      (encodeFrames (frames.filter (fun f => f.1 ≠ 83)) ++ frame 88 (itoa c) ++ more2) post2)
    (ho : self2.Output.getD host.Stdout = self1.Output.getD host.Stdout)
    (he : self2.Outerr.getD host.Stderr = self1.Outerr.getD host.Stderr)
    (hro : (self1.Output.getD host.Stdout).Reliable)
    (hre : (self1.Outerr.getD host.Stderr).Reliable) :
    ∃ out1 err1 c1 out2 err2 c2,
      readFromServer host self1
        = (.ret (c, none), { Conn := c1, Output := some out1, Outerr := some err1 }) ∧
      readFromServer host self2
        = (.ret (c, none), { Conn := c2, Output := some out2, Outerr := some err2 }) ∧
      out1.received = out2.received ∧ err1.received = err2.received ∧
      out1.received = (self1.Output.getD host.Stdout).received ++ payloadsOf 49 frames ∧
      err1.received = (self1.Outerr.getD host.Stderr).received ++ payloadsOf 50 frames := by
  have hf2 : ∀ f ∈ frames.filter (fun f => f.1 ≠ 83), Passable f :=
    fun f hf' => hf f (List.mem_of_mem_filter hf')
  obtain ⟨s1, wo1, we1, a1, a2, a3, a4, a5, a6⟩ := frames_passed host post1
    (frame 88 (itoa c) ++ more1) frames self1 hf (by simpa [List.append_assoc] using h1) hro hre
  obtain ⟨s2, wo2, we2, b1, b2, b3, b4, b5, b6⟩ := frames_passed host post2
    (frame 88 (itoa c) ++ more2) _ self2 hf2 (by simpa [List.append_assoc] using h2)
    (by rw [ho]; exact hro) (by rw [he]; exact hre)
  obtain ⟨c1, _, x1⟩ := exit_chunk_returns host post1 s1 c more1 hlo hhi a2
  obtain ⟨c2, _, x2⟩ := exit_chunk_returns host post2 s2 c more2 hlo hhi b2
  rw [payloadsOf_filter_start_input 49 (by omega)] at b4
  rw [payloadsOf_filter_start_input 50 (by omega)] at b6
  refine ⟨_, _, c1, _, _, c2, by rw [a1, x1], by rw [b1, x2], ?_, ?_, ?_, ?_⟩
  · rw [a3, b3, ho, Sink.received_afterWrites, Sink.received_afterWrites, a4, b4]
  · rw [a5, b5, he, Sink.received_afterWrites, Sink.received_afterWrites, a6, b6]
  · rw [a3, Sink.received_afterWrites, a4]
  · rw [a5, Sink.received_afterWrites, a6]

/-- The response `S`, `1`/"hello", `S`, `2`/"oops", `X`/"3" and the same response without
its two `S` frames, both read one byte at a time. -/
theorem start_input_transparent_witness :
    ∃ out1 err1 c1 out2 err2 c2,
      readFromServer exampleHost
          (freshNg (byteWise (encodeFrames [(83, []), (49, ascii "hello"), (83, []),
            (50, ascii "oops")] ++ frame 88 (itoa 3) ++ [])))
        = (.ret (3, none), { Conn := c1, Output := some out1, Outerr := some err1 }) ∧
      readFromServer exampleHost
          (freshNg (byteWise (encodeFrames ([(83, []), (49, ascii "hello"), (83, []),
            (50, ascii "oops")].filter (fun f => f.1 ≠ 83)) ++ frame 88 (itoa 3) ++ [])))
        = (.ret (3, none), { Conn := c2, Output := some out2, Outerr := some err2 }) ∧
      out1.received = out2.received ∧ err1.received = err2.received ∧
      out1.received
        = ((freshNg (byteWise (encodeFrames [(83, []), (49, ascii "hello"), (83, []),
            (50, ascii "oops")] ++ frame 88 (itoa 3) ++ []))).Output.getD
              exampleHost.Stdout).received
          ++ payloadsOf 49 [(83, []), (49, ascii "hello"), (83, []), (50, ascii "oops")] ∧
      err1.received
        = ((freshNg (byteWise (encodeFrames [(83, []), (49, ascii "hello"), (83, []),
            (50, ascii "oops")] ++ frame 88 (itoa 3) ++ []))).Outerr.getD
              exampleHost.Stderr).received
          ++ payloadsOf 50 [(83, []), (49, ascii "hello"), (83, []), (50, ascii "oops")] :=
  start_input_transparent exampleHost [] [] [] []
    [(83, []), (49, ascii "hello"), (83, []), (50, ascii "oops")] _ _ 3
    (by decide) (by norm_num) (by norm_num)
    (freshConn_delivers _ _ (errFree_byteWise _) (flat_byteWise _))
    (freshConn_delivers _ _ (errFree_byteWise _) (flat_byteWise _))
    rfl rfl reliable_empty reliable_empty

/-! ## A response that is cut short -/

theorem Conn.Read_nil (c : Conn) (k : Nat) (hc : c.closed = false) (hr : c.reads = []) :
    c.Read k = (([], some .EOF), { c with ops := c.ops ++ [.read []] }) := by
  simp [Conn.Read, hc, hr]

theorem Conn.Read_fit (c : Conn) (k : Nat) (s : ReadStep) (rest : List ReadStep)
    (hc : c.closed = false) (hr : c.reads = s :: rest) (hk : s.data.length ≤ k) :
    c.Read k = ((s.data, s.err), { c with reads := rest, ops := c.ops ++ [.read s.data] }) := by
  simp [Conn.Read, hc, hr, hk]

theorem Conn.Read_big (c : Conn) (k : Nat) (s : ReadStep) (rest : List ReadStep)
    (hc : c.closed = false) (hr : c.reads = s :: rest) (hk : k < s.data.length) :
    c.Read k = ((s.data.take k, none),
      { c with reads := { s with data := s.data.drop k } :: rest,
               ops := c.ops ++ [.read (s.data.take k)] }) := by
  simp [Conn.Read, hc, hr, Nat.not_le.mpr hk]

theorem setSink_same (self : NailgunConnection) (dest : Dest) (s : Sink)
    (hs : self.sink dest = some s) : self.setSink dest s = self := by
  cases dest <;> simp only [NailgunConnection.sink] at hs <;>
    simp [NailgunConnection.setSink, ← hs]

/-- One iteration of the payload loop when writes to the sink succeed. -/
theorem payloadLoop_iter (N : Nat) (dest : Dest) (fuel : Nat) (self : NailgunConnection)
    (L : Nat) (s : Sink) (hL : 0 < L) (hs : self.sink dest = some s) (hr : s.Reliable) :
    payloadLoop N dest (fuel + 1) self L =
      match (self.Conn.Read (if L > N then N else L)).1.2 with
      | some e =>
        (.ret (some (0, some e)),
          ({ self with Conn := (self.Conn.Read (if L > N then N else L)).2 }
            : NailgunConnection).setSink dest
            (s.afterWrites (if (self.Conn.Read (if L > N then N else L)).1.1.length > 0
              then [(self.Conn.Read (if L > N then N else L)).1.1] else [])))
      | none =>
        payloadLoop N dest fuel
          (({ self with Conn := (self.Conn.Read (if L > N then N else L)).2 }
            : NailgunConnection).setSink dest
            (s.afterWrites (if (self.Conn.Read (if L > N then N else L)).1.1.length > 0
              then [(self.Conn.Read (if L > N then N else L)).1.1] else [])))
          (L - (self.Conn.Read (if L > N then N else L)).1.1.length) := by
  rw [payloadLoop, if_pos hL]
  simp only
  generalize (self.Conn.Read (if L > N then N else L)) = r
  have hs1 : ({ self with Conn := r.2 } : NailgunConnection).sink dest = some s := by
    cases dest <;> exact hs
  by_cases hn : r.1.1.length > 0
  · simp only [hn, ↓reduceIte]
    rw [destWrite_reliable _ dest _ s hs1 hr]
  · simp only [hn, ↓reduceIte]
    rw [Sink.afterWrites_empty, setSink_same _ _ _ hs1]
    have : r.1.1.length = 0 := by omega
    rw [this, Nat.sub_zero]

theorem setSink_conn (self : NailgunConnection) (dest : Dest) (s : Sink) :
    (self.setSink dest s).Conn = self.Conn := by
  cases dest <;> rfl

theorem setSink_sink (self : NailgunConnection) (dest : Dest) (s : Sink) :
    (self.setSink dest s).sink dest = some s := by
  cases dest <;> rfl

theorem setSink_setSink_conn (self : NailgunConnection) (dest : Dest) (a b : Sink)
    (c c' : Conn) :
    ({ (({ self with Conn := c } : NailgunConnection).setSink dest a) with Conn := c' }
      : NailgunConnection).setSink dest b
      = ({ self with Conn := c' } : NailgunConnection).setSink dest b := by
  cases dest <;> rfl

theorem payloadLoop_cut (N : Nat) (hN : 0 < N) (dest : Dest) (e : GoError) (fuel : Nat)
    (pre post : List ReadStep) (d : List Nat) (self : NailgunConnection) (L : Nat) (s : Sink)
    (hfw : FailsWith post d e) (hc : self.Conn.closed = false)
    (hreads : self.Conn.reads = pre ++ post) (hef : ErrFree pre)
    (hlen : (flat pre).length + d.length < L) (hs : self.sink dest = some s)
    (hr : s.Reliable) (hf : cost self.Conn.reads < fuel) :
    ∃ ws c', payloadLoop N dest fuel self L
        = (.ret (some (0, some e)),
            ({ self with Conn := c' } : NailgunConnection).setSink dest (s.afterWrites ws)) ∧
      ws.flatten = flat pre ++ d ∧ (∀ w ∈ ws, 0 < w.length ∧ w.length ≤ N) := by
  induction fuel generalizing pre post d self L s with
  | zero => omega
  | succ fuel ih =>
    have hL : 0 < L := by omega
    rw [payloadLoop_iter N dest fuel self L s hL hs hr]
    generalize hk : (if L > N then N else L) = k
    have hk0 : 0 < k := by rw [← hk]; split <;> omega
    have hkN : k ≤ N := by rw [← hk]; split <;> omega
    have hkL : k < L → k = N := by rw [← hk]; split <;> omega
    cases pre with
    | nil =>
      simp only [flat, List.map_nil, List.flatten_nil, List.length_nil, Nat.zero_add,
        List.nil_append] at hlen hreads ⊢
      rcases hfw with ⟨rfl, rfl, rfl⟩ | ⟨rest, rfl⟩
      · rw [Conn.Read_nil _ k hc hreads]
        simp only [List.length_nil, gt_iff_lt, Nat.lt_irrefl, ↓reduceIte]
        exact ⟨[], _, rfl, rfl, by simp⟩
      · by_cases hdk : d.length ≤ k
        · rw [Conn.Read_fit _ k _ rest hc hreads hdk]
          simp only
          by_cases hd0 : d.length > 0
          · simp only [hd0, ↓reduceIte]
            exact ⟨[d], _, rfl, by simp, by
              intro w hw; simp only [List.mem_singleton] at hw; subst hw; omega⟩
          · have : d = [] := List.eq_nil_of_length_eq_zero (by omega)
            subst this
            simp only [List.length_nil, gt_iff_lt, Nat.lt_irrefl, ↓reduceIte]
            exact ⟨[], _, rfl, rfl, by simp⟩
        · have hkd : k < d.length := by omega
          rw [Conn.Read_big _ k _ rest hc hreads hkd]
          simp only
          have hlt : (List.take k d).length = k := by rw [List.length_take]; omega
          obtain ⟨ws, c', i1, i2, i3⟩ := ih [] (⟨d.drop k, some e⟩ :: rest) (d.drop k)
            (({ self with Conn := { self.Conn with
                  reads := { data := d.drop k, err := some e } :: rest,
                  ops := self.Conn.ops ++ [.read (d.take k)] } } : NailgunConnection).setSink
              dest (s.afterWrites [d.take k])) (L - k) (s.afterWrites [d.take k])
            (Or.inr ⟨rest, rfl⟩) (by rw [setSink_conn]; exact hc)
            (by rw [setSink_conn]; rfl) (by intro x hx; simp at hx)
            (by simp only [flat, List.map_nil, List.flatten_nil, List.length_nil,
                  List.length_drop]; omega)
            (setSink_sink _ _ _) (Sink.afterWrites_reliable _ _ hr)
            (by rw [setSink_conn]; simp only [hreads, cost_cons, List.length_drop] at hf ⊢
                omega)
          refine ⟨d.take k :: ws, c', ?_, ?_, ?_⟩
          · simp only [hlt, hk0, ↓reduceIte] 
            rw [i1, setSink_setSink_conn, Sink.afterWrites_append]
            rfl
          · simp only [List.flatten_cons, i2, flat, List.map_nil, List.flatten_nil,
              List.nil_append, List.take_append_drop]
          · intro w hw
            simp only [List.mem_cons] at hw
            rcases hw with rfl | hw
            · omega
            · exact i3 w hw
    | cons st pre1 =>
      have hst : st.err = none := hef st (by simp)
      have hef1 : ErrFree pre1 := fun x hx => hef x (by simp [hx])
      have hflat : flat (st :: pre1) = st.data ++ flat pre1 := by simp [flat]
      rw [hflat, List.length_append] at hlen
      rw [List.cons_append] at hreads
      by_cases hdk : st.data.length ≤ k
      · rw [Conn.Read_fit _ k _ _ hc hreads hdk]
        simp only [hst]
        obtain ⟨ws, c', i1, i2, i3⟩ := ih pre1 post d
          (({ self with Conn := { self.Conn with
                reads := pre1 ++ post,
                ops := self.Conn.ops ++ [.read st.data] } } : NailgunConnection).setSink
            dest (s.afterWrites (if st.data.length > 0 then [st.data] else [])))
          (L - st.data.length) (s.afterWrites (if st.data.length > 0 then [st.data] else []))
          hfw (by rw [setSink_conn]; exact hc) (by rw [setSink_conn]) hef1
          (by omega) (setSink_sink _ _ _) (Sink.afterWrites_reliable _ _ hr)
          (by rw [setSink_conn]; simp only [hreads, cost_cons] at hf ⊢; omega)
        refine ⟨(if st.data.length > 0 then [st.data] else []) ++ ws, c', ?_, ?_, ?_⟩
        · rw [i1, setSink_setSink_conn, Sink.afterWrites_append]
        · rw [hflat, List.flatten_append, i2]
          by_cases h0 : st.data.length > 0
          · simp [h0]
          · have : st.data = [] := List.eq_nil_of_length_eq_zero (by omega)
            simp [this]
        · intro w hw
          rcases List.mem_append.mp hw with hw | hw
          · by_cases h0 : st.data.length > 0
            · simp only [h0, ↓reduceIte, List.mem_singleton] at hw
              subst hw; omega
            · simp [h0] at hw
          · exact i3 w hw
      · have hkd : k < st.data.length := by omega
        rw [Conn.Read_big _ k _ _ hc hreads hkd]
        simp only
        have hlt : (List.take k st.data).length = k := by rw [List.length_take]; omega
        obtain ⟨ws, c', i1, i2, i3⟩ := ih ({ st with data := st.data.drop k } :: pre1) post d
          (({ self with Conn := { self.Conn with
                reads := { st with data := st.data.drop k } :: (pre1 ++ post),
                ops := self.Conn.ops ++ [.read (st.data.take k)] } }
              : NailgunConnection).setSink
            dest (s.afterWrites [st.data.take k])) (L - k) (s.afterWrites [st.data.take k])
          hfw (by rw [setSink_conn]; exact hc) (by rw [setSink_conn]; rfl)
          (by intro x hx
              simp only [List.mem_cons] at hx
              rcases hx with rfl | hx
              · exact hst
              · exact hef1 x hx)
          (by simp only [flat, List.map_cons, List.flatten_cons, List.length_append,
                List.length_drop] at hlen ⊢
              omega)
          (setSink_sink _ _ _) (Sink.afterWrites_reliable _ _ hr)
          (by rw [setSink_conn]; simp only [hreads, cost_cons, List.length_drop] at hf ⊢
              omega)
        refine ⟨st.data.take k :: ws, c', ?_, ?_, ?_⟩
        · simp only [hlt, hk0, ↓reduceIte]
          rw [i1, setSink_setSink_conn, Sink.afterWrites_append]
          rfl
        · rw [hflat, List.flatten_cons, i2]
          simp only [flat, List.map_cons, List.flatten_cons]
          rw [← List.append_assoc, ← List.append_assoc, List.take_append_drop]
        · intro w hw
          simp only [List.mem_cons] at hw
          rcases hw with rfl | hw
          · omega
          · exact i3 w hw

theorem data_chunk_cut (host : Host) (post : List ReadStep) (self : NailgunConnection)
    (t : Nat) (dest : Dest) (L : Nat) (part d : List Nat) (e : GoError) (s : Sink)
    (ht : t = 49 ∧ dest = .Output ∨ t = 50 ∧ dest = .Outerr)
    (hL : L < 2 ^ 32) (hcut : part.length + d.length < L) (hfw : FailsWith post d e)
    (h : self.Conn.Delivers (be32 L ++ [t] ++ part) post)
    (hs : (defaultSinks host self).sink dest = some s) (hr : s.Reliable) :
    ∃ ws c', ws.flatten = part ++ d ∧
      readFromServer host self
        = (.ret (0, some e),
            ({ Conn := c', Output := some (self.Output.getD host.Stdout),
               Outerr := some (self.Outerr.getD host.Stderr) } : NailgunConnection).setSink
              dest (s.afterWrites ws)) := by
  obtain ⟨c1, h1, h2⟩ := readFromServer_header host post self L t part hL h
  rw [defaultSinks_eq] at hs
  have hsw : switchChunk 16284
      { Conn := c1, Output := some (self.Output.getD host.Stdout),
        Outerr := some (self.Outerr.getD host.Stderr) } t L
      = (.forward dest,
          { Conn := c1, Output := some (self.Output.getD host.Stdout),
            Outerr := some (self.Outerr.getD host.Stderr) }) := by
    rcases ht with ⟨rfl, rfl⟩ | ⟨rfl, rfl⟩ <;> simp [switchChunk]
  obtain ⟨hc1, pre, hreads, hef, hflat⟩ := h1
  obtain ⟨ws, c2, h3, h4, _⟩ := payloadLoop_cut 16284 (by omega) dest e (cost c1.reads + 1)
    pre post d
    { Conn := c1, Output := some (self.Output.getD host.Stdout),
      Outerr := some (self.Outerr.getD host.Stderr) } L s hfw hc1 hreads hef
    (by rw [hflat]; exact hcut) (by cases dest <;> exact hs) hr (by simp)
  refine ⟨ws, c2, by rw [h4, hflat], ?_⟩
  rw [h2, hsw]
  simp only
  rw [h3]

/-- C18: earlier stdout-data and stderr-data chunks, then a chunk with tag `1` or `2` that
declares `L` bytes of which the transport hands over fewer before it fails (the end of
the stream, or an error `e` reported with the last bytes `d` it hands over):
`readFromServer` returns that error, and the writes of the sinks are those they had
before, followed by writes that make up the payloads of the earlier chunks and, on the
sink of the cut chunk, the bytes of its payload that were handed over. -/
theorem payload_cut_short (host : Host) (post : List ReadStep)
    (frames : List (Nat × List Nat)) (self : NailgunConnection) (t L : Nat)
    (part d : List Nat) (e : GoError)
    (hf : ∀ f ∈ frames, Passable f) (ht : t = 49 ∨ t = 50) (hL : L < 2 ^ 32)
    (hcut : part.length + d.length < L) (hfw : FailsWith post d e)
    (h : self.Conn.Delivers (encodeFrames frames ++ (be32 L ++ [t] ++ part)) post)
    (hro : (self.Output.getD host.Stdout).Reliable)
    (hre : (self.Outerr.getD host.Stderr).Reliable) :
    ∃ wo we c',
      readFromServer host self
        = (.ret (0, some e),
            { Conn := c', Output := some ((self.Output.getD host.Stdout).afterWrites wo),
              Outerr := some ((self.Outerr.getD host.Stderr).afterWrites we) }) ∧
      wo.flatten = payloadsOf 49 frames ++ (if t = 49 then part ++ d else []) ∧
      we.flatten = payloadsOf 50 frames ++ (if t = 50 then part ++ d else []) := by
  obtain ⟨s1, wo1, we1, a1, a2, a3, a4, a5, a6⟩ := frames_passed host post
    (be32 L ++ [t] ++ part) frames self hf h hro hre
  rcases ht with ht | ht
  · obtain ⟨ws, c', b1, b2⟩ := data_chunk_cut host post s1 t .Output L part d e
      (s1.Output.getD host.Stdout) (Or.inl ⟨ht, rfl⟩) hL hcut hfw a2
      (by rw [defaultSinks_eq]; rfl) (by rw [a3]; exact Sink.afterWrites_reliable _ _ hro)
    refine ⟨wo1 ++ ws, we1, c', ?_, ?_, ?_⟩
    · rw [a1, b2, a3, a5, Sink.afterWrites_append]; rfl
    · rw [List.flatten_append, a4, b1, if_pos ht]
    · rw [a6, if_neg (by omega), List.append_nil]
  · obtain ⟨ws, c', b1, b2⟩ := data_chunk_cut host post s1 t .Outerr L part d e
      (s1.Outerr.getD host.Stderr) (Or.inr ⟨ht, rfl⟩) hL hcut hfw a2
      (by rw [defaultSinks_eq]; rfl) (by rw [a5]; exact Sink.afterWrites_reliable _ _ hre)
    refine ⟨wo1, we1 ++ ws, c', ?_, ?_, ?_⟩
    · rw [a1, b2, a3, a5, Sink.afterWrites_append]; rfl
    · rw [a4, if_neg (by omega), List.append_nil]
    · rw [List.flatten_append, a6, b1, if_pos ht]

/-- The chunk `1`/"hello" and then a chunk `2` that declares 4 bytes, of which "oo" arrives
before the stream ends. -/
theorem payload_cut_short_witness :
    ∃ wo we c',
      readFromServer exampleHost
          (freshNg (byteWise (encodeFrames [(49, ascii "hello")]
            ++ (be32 4 ++ [50] ++ ascii "oo"))))
        = (.ret (0, some .EOF),
            { Conn := c',
              Output := some (((freshNg (byteWise (encodeFrames [(49, ascii "hello")]
                ++ (be32 4 ++ [50] ++ ascii "oo")))).Output.getD
                  exampleHost.Stdout).afterWrites wo),
              Outerr := some (((freshNg (byteWise (encodeFrames [(49, ascii "hello")]
                ++ (be32 4 ++ [50] ++ ascii "oo")))).Outerr.getD
                  exampleHost.Stderr).afterWrites we) }) ∧
      wo.flatten = payloadsOf 49 [(49, ascii "hello")]
        ++ (if 50 = 49 then ascii "oo" ++ [] else []) ∧
      we.flatten = payloadsOf 50 [(49, ascii "hello")]
        ++ (if 50 = 50 then ascii "oo" ++ [] else []) :=
  payload_cut_short exampleHost [] [(49, ascii "hello")] _ 50 4 (ascii "oo") [] .EOF
    (by decide) (Or.inr rfl) (by norm_num) (by decide) (Or.inl ⟨rfl, rfl, rfl⟩)
    (freshConn_delivers _ _ (errFree_byteWise _) (flat_byteWise _))
    reliable_empty reliable_empty

/-! ## The exit code of the process -/

theorem readAtLeastLoop_eof (min : Nat) (hmin : 0 < min) (pre : List ReadStep) (fuel : Nat)
    (c : Conn) (hc : c.closed = false) (hr : c.reads = pre) (hef : ErrFree pre)
    (hflat : flat pre = []) (hf : cost pre < fuel) :
    ∃ c', readAtLeastLoop fuel c min [] = (.ret ([], some .EOF), c') := by
  induction pre generalizing fuel c with
  | nil =>
    cases fuel with
    | zero => omega
    | succ fuel =>
      rw [readAtLeastLoop, if_pos (by simpa using hmin), Conn.Read_nil _ _ hc hr]
      exact ⟨_, rfl⟩
  | cons s pre1 ih =>
    cases fuel with
    | zero => omega
    | succ fuel =>
      have hs : s.err = none := hef s (by simp)
      have hd : s.data = [] := by
        have : s.data ++ flat pre1 = [] := by simpa [flat] using hflat
        exact (List.append_eq_nil.mp this).1
      have hf1 : flat pre1 = [] := by
        have : s.data ++ flat pre1 = [] := by simpa [flat] using hflat
        exact (List.append_eq_nil.mp this).2
      rw [readAtLeastLoop, if_pos (by simpa using hmin),
        Conn.Read_fit _ _ s pre1 hc hr (by rw [hd]; simp)]
      simp only [hs, hd, List.append_nil]
      exact ih fuel _ hc rfl (fun x hx => hef x (by simp [hx])) hf1
        (by rw [cost_cons] at hf; omega)

theorem readFully_eof (self : NailgunConnection) (len : Nat) (hlen : 0 < len)
    (h : self.Conn.Delivers [] []) :
    ∃ c', readFully self len = (.ret ([], some .EOF), { self with Conn := c' }) := by
  obtain ⟨hc, pre, hr, hef, hflat⟩ := h
  rw [List.append_nil] at hr
  obtain ⟨c', h1⟩ := readAtLeastLoop_eof len hlen pre (cost self.Conn.reads + 1) self.Conn hc hr
    hef hflat (by rw [hr]; omega)
  refine ⟨c', ?_⟩
  unfold readFully ReadFull
  rw [h1]
  simp [Nat.not_le.mpr hlen]

theorem readFromServer_eof (host : Host) (self : NailgunConnection)
    (h : self.Conn.Delivers [] []) :
    ∃ c', readFromServer host self = (.ret (0, some .EOF), { self with Conn := c' }) := by
  obtain ⟨c', h1⟩ := readFully_eof self 5 (by omega) h
  exact ⟨c', by rw [readFromServer_step, h1]⟩

theorem mainAfterDial_acceptsAll (host : Host) (ng : NailgunConnection)
    (command : List Nat) (cmdargs : List (List Nat)) (cwd : List Nat)
    (hc : ng.Conn.AcceptsAll) (hcwd : host.absDot = .ok cwd) :
    (SendCommand host ng command cmdargs).1
      = (readFromServer host { ng with
          Conn := ng.Conn.afterWrites
            (chunkWrites (requestFrames host command cmdargs cwd)) }).1 := by
  unfold SendCommand
  rw [SendCommandBody_acceptsAll host ng command cmdargs cwd hc hcwd]

/-- C12, as the code has it: after a request that was sent in full, the exit code `main`
chooses is the server's exit code when the response reaches an exit chunk with the
decimal text of `c`; it is 0 when the response ends at a frame boundary before any exit
chunk, because `readFromServer` then returns `(0, io.EOF)` and `main` does not count
`io.EOF` as an error; it is 2 for every error other than `io.EOF`. -/
theorem main_exit_code (host : Host) (ng : NailgunConnection) (command : List Nat)
    (cmdargs : List (List Nat)) (cwd : List Nat) (frames : List (Nat × List Nat)) (c : Int)
    (more : List Nat) (post : List ReadStep)
    (hc : ng.Conn.AcceptsAll) (hcwd : host.absDot = .ok cwd)
    (hf : ∀ f ∈ frames, Passable f) (hlo : -2 ^ 63 ≤ c) (hhi : c < 2 ^ 63)
    (hro : (ng.Output.getD host.Stdout).Reliable)
    (hre : (ng.Outerr.getD host.Stderr).Reliable) :
    (ng.Conn.Delivers (encodeFrames frames ++ frame 88 (itoa c) ++ more) post →
      (SendCommand host ng command cmdargs).1 = .ret (c, none) ∧
      mainAfterDial host ng command cmdargs = .ret c) ∧
    (ng.Conn.Delivers (encodeFrames frames) [] →
      (SendCommand host ng command cmdargs).1 = .ret (0, some .EOF) ∧
      mainAfterDial host ng command cmdargs = .ret 0) ∧
    (∀ code e, e ≠ .EOF → mainExitCode code (some e) = 2) ∧
    (∀ code, mainExitCode code (some .EOF) = code) ∧
    (∀ code, mainExitCode code none = code) := by
  have hsc := mainAfterDial_acceptsAll host ng command cmdargs cwd hc hcwd
  refine ⟨fun h => ?_, fun h => ?_, fun code e he => by simp [mainExitCode, he],
    fun code => by simp [mainExitCode], fun code => rfl⟩
  · obtain ⟨s1, _, _, a1, a2, _⟩ := frames_passed host post (frame 88 (itoa c) ++ more) frames
      { ng with
        Conn := ng.Conn.afterWrites (chunkWrites (requestFrames host command cmdargs cwd)) }
      hf (by simpa [List.append_assoc] using h) hro hre
    obtain ⟨c1, _, x1⟩ := exit_chunk_returns host post s1 c more hlo hhi a2
    have : (SendCommand host ng command cmdargs).1 = .ret (c, none) := by
      rw [hsc, a1, x1]
    exact ⟨this, by simp [mainAfterDial, this, mainExitCode]⟩
  · obtain ⟨s1, _, _, a1, a2, _⟩ := frames_passed host [] [] frames
      { ng with
        Conn := ng.Conn.afterWrites (chunkWrites (requestFrames host command cmdargs cwd)) }
      hf (by simpa using h) hro hre
    obtain ⟨c1, x1⟩ := readFromServer_eof host s1 a2
    have : (SendCommand host ng command cmdargs).1 = .ret (0, some .EOF) := by
      rw [hsc, a1, x1]
    exact ⟨this, by simp [mainAfterDial, this, mainExitCode]⟩

/-- The response `1`/"hello", `X`/"3" gives exit code 3; the response `1`/"hello" that ends
there gives exit code 0. -/
theorem main_exit_code_witness :
    mainAfterDial exampleHost
        (freshNg (byteWise (encodeFrames [(49, ascii "hello")] ++ frame 88 (itoa 3) ++ [])))
        (ascii "cmd") [] = .ret 3 ∧
    mainAfterDial exampleHost (freshNg (byteWise (encodeFrames [(49, ascii "hello")])))
        (ascii "cmd") [] = .ret 0 :=
  ⟨((main_exit_code exampleHost
      (freshNg (byteWise (encodeFrames [(49, ascii "hello")] ++ frame 88 (itoa 3) ++ [])))
      (ascii "cmd") [] (ascii "/tmp") [(49, ascii "hello")] 3 [] []
      (by decide) rfl (by decide) (by norm_num) (by norm_num) reliable_empty
      reliable_empty).1
      (freshConn_delivers _ _ (errFree_byteWise _) (flat_byteWise _))).2,
   ((main_exit_code exampleHost (freshNg (byteWise (encodeFrames [(49, ascii "hello")])))
      (ascii "cmd") [] (ascii "/tmp") [(49, ascii "hello")] 3 [] []
      (by decide) rfl (by decide) (by norm_num) (by norm_num) reliable_empty
      reliable_empty).2.1
      (freshConn_delivers _ _ (errFree_byteWise _) (flat_byteWise _))).2⟩

/-- C12 fails when the server closes the connection without sending anything: the stream
ends at a frame boundary, no exit chunk was received, `SendCommand` returns
`(0, io.EOF)` and the exit code of the process is 0. -/
theorem main_exits_zero_without_exit_chunk :
    (SendCommand exampleHost (freshNg []) (ascii "cmd") []).1 = .ret (0, some .EOF) ∧
    mainAfterDial exampleHost (freshNg []) (ascii "cmd") [] = .ret 0 := by
  decide

/-! ## Forwarding standard input -/

theorem stdinCost_cons_data (b : List Nat) (rest : List StdinEvent) :
    stdinCost (.data b :: rest) = b.length + 1 + stdinCost rest := by
  simp [stdinCost]

theorem forwardStdinLoop_blocks (N : Nat) (eof : List StdinEvent)
    (heof : eof = [] ∨ ∃ tail, eof = StdinEvent.data [] :: tail)
    (blocks : List (List Nat)) (fuel : Nat)
    (self : NailgunConnection) (hb : ∀ b ∈ blocks, 0 < b.length ∧ b.length ≤ N)
    (hc : self.Conn.AcceptsAll)
    (hf : stdinCost (blocks.map StdinEvent.data ++ eof) < fuel) :
    forwardStdinLoop N fuel (blocks.map StdinEvent.data ++ eof) self
      = (.ret none, (eof.drop 1, { self with
          Conn := self.Conn.afterWrites (chunkWrites (blocks.map (fun b => (48, b)))) })) := by
  induction blocks generalizing fuel self with
  | nil =>
    cases fuel with
    | zero => omega
    | succ fuel =>
      rcases heof with rfl | ⟨tail, rfl⟩ <;>
        simp [forwardStdinLoop, osFileRead, chunkWrites, Conn.afterWrites_nil]
  | cons b bs ih =>
    cases fuel with
    | zero => omega
    | succ fuel =>
      obtain ⟨hb0, hbN⟩ := hb b (by simp)
      have hread : osFileRead (StdinEvent.data b :: (bs.map StdinEvent.data ++ eof)) N
          = ((b, none), bs.map StdinEvent.data ++ eof) := by
        simp [osFileRead, Nat.ne_of_gt hb0, hbN]
      simp only [List.map_cons, List.cons_append, stdinCost_cons_data] at hf
      rw [List.map_cons, List.cons_append, forwardStdinLoop]
      simp only [hread]
      rw [sendChunk_acceptsAll _ _ _ hc]
      simp only
      rw [ih fuel _ (fun x hx => hb x (by simp [hx])) (Conn.afterWrites_acceptsAll _ _ hc)
        (by omega)]
      simp [Conn.afterWrites_afterWrites, chunkWrites]

theorem forwardStdin_acceptsAll (eof : List StdinEvent)
    (heof : eof = [] ∨ ∃ tail, eof = StdinEvent.data [] :: tail)
    (blocks : List (List Nat)) (self : NailgunConnection)
    (hb : ∀ b ∈ blocks, 0 < b.length ∧ b.length ≤ 8192) (hc : self.Conn.AcceptsAll) :
    forwardStdin (blocks.map StdinEvent.data ++ eof) self
      = (.ret none, (eof.drop 1, { self with
          Conn := self.Conn.afterWrites
            (chunkWrites (blocks.map (fun b => (48, b)) ++ [(46, [])])) })) := by
  unfold forwardStdin
  rw [forwardStdinLoop_blocks 8192 eof heof blocks _ self hb hc (by omega)]
  simp only
  rw [sendChunk_acceptsAll _ _ _ (Conn.afterWrites_acceptsAll _ _ hc)]
  simp [Conn.afterWrites_afterWrites, chunkWrites]

/-- C13: when standard input yields the blocks `b1 .. bk`, each of them non-empty and no
longer than the 8192-byte buffer, and is then at its end (nothing more to come, or a read
that yields no byte), `forwardStdin` on a connection that accepts every write in full
returns no error, and what it has written is, frame by frame, one `0` frame for each
block, in order and with the block as payload, and then one `.` frame with an empty
payload, the last frame; no `0` frame stands for the empty read. -/
theorem forwardStdin_relays (eof : List StdinEvent) (blocks : List (List Nat))
    (self : NailgunConnection)
    (heof : eof = [] ∨ ∃ tail, eof = StdinEvent.data [] :: tail)
    (hb : ∀ b ∈ blocks, 0 < b.length ∧ b.length ≤ 8192) (hc : self.Conn.AcceptsAll) :
    (forwardStdin (blocks.map StdinEvent.data ++ eof) self).1 = .ret none ∧
    (forwardStdin (blocks.map StdinEvent.data ++ eof) self).2.1 = eof.drop 1 ∧
    (forwardStdin (blocks.map StdinEvent.data ++ eof) self).2.2.Conn.sent
      = self.Conn.sent ++ encodeFrames (blocks.map (fun b => (48, b)) ++ [(46, [])]) ∧
    decodeFrames ((forwardStdin (blocks.map StdinEvent.data ++ eof) self).2.2.Conn.sent.drop
        self.Conn.sent.length)
      = some (blocks.map (fun b => (48, b)) ++ [(46, [])]) := by
  rw [forwardStdin_acceptsAll eof heof blocks self hb hc]
  refine ⟨rfl, rfl, by simp [Conn.sent_afterWrites, chunkWrites_flatten], ?_⟩
  simp only [Conn.sent_afterWrites, chunkWrites_flatten, List.drop_left]
  apply decodeFrames_encodeFrames
  intro f hf
  simp only [List.mem_append, List.mem_map, List.mem_singleton] at hf
  rcases hf with ⟨b, hb', rfl⟩ | rfl
  · have := (hb b hb').2
    simp only
    omega
  · simp

/-- Standard input yields "ab", then "c", then ends. -/
theorem forwardStdin_relays_witness :
    ((forwardStdin ([ascii "ab", ascii "c"].map StdinEvent.data ++ []) (freshNg [])).1
      = .ret none ∧
    (forwardStdin ([ascii "ab", ascii "c"].map StdinEvent.data ++ []) (freshNg [])).2.1
      = ([] : List StdinEvent).drop 1 ∧
    (forwardStdin ([ascii "ab", ascii "c"].map StdinEvent.data ++ []) (freshNg [])).2.2.Conn.sent
      = (freshNg []).Conn.sent
        ++ encodeFrames ([ascii "ab", ascii "c"].map (fun b => (48, b)) ++ [(46, [])]) ∧
    decodeFrames ((forwardStdin ([ascii "ab", ascii "c"].map StdinEvent.data ++ [])
        (freshNg [])).2.2.Conn.sent.drop (freshNg []).Conn.sent.length)
      = some ([ascii "ab", ascii "c"].map (fun b => (48, b)) ++ [(46, [])])) ∧
    (forwardStdin [.data (ascii "ab"), .data (ascii "c")] (freshNg [])).2.2.Conn.sent
      = [0, 0, 0, 2, 48, 97, 98, 0, 0, 0, 1, 48, 99, 0, 0, 0, 0, 46] :=
  ⟨forwardStdin_relays [] [ascii "ab", ascii "c"] (freshNg []) (Or.inl rfl) (by decide)
    (by decide), by decide⟩

/-! ## The exit chunk, short writes -/

theorem exit_chunk_too_long_panics (host : Host) (post : List ReadStep)
    (self : NailgunConnection) (L : Nat) (more : List Nat) (hN : 16284 < L) (hL : L < 2 ^ 32)
    (h : self.Conn.Delivers (be32 L ++ [88] ++ more) post) :
    ∃ c', c'.Delivers more post ∧
      readFromServer host self
        = (.panic "slice bounds out of range",
            { Conn := c', Output := some (self.Output.getD host.Stdout),
              Outerr := some (self.Outerr.getD host.Stderr) }) := by
  obtain ⟨c1, h1, h2⟩ := readFromServer_header host post self L 88 more hL h
  refine ⟨c1, h1, ?_⟩
  rw [h2]
  simp [switchChunk, hN]

/-- C15 at a failing input: an exit chunk that declares 16285 bytes, one more than the
buffer holds. `readFromServer` panics on the slice `buffer[0:payloadLength]` as soon as it
has the header; it reads no payload byte and returns nothing to its caller. -/
theorem exit_chunk_16285_panics :
    be32 16285 ++ [88] = [0, 0, 63, 157, 88] ∧
    (readFromServer exampleHost (freshNg [⟨[0, 0, 63, 157, 88], none⟩, ⟨[51], none⟩])).1
      = .panic "slice bounds out of range" ∧
    (readFromServer exampleHost
        (freshNg [⟨[0, 0, 63, 157, 88], none⟩, ⟨[51], none⟩])).2.Conn.reads
      = [⟨[51], none⟩] := by
  decide

theorem sendChunk_write_error (self : NailgunConnection) (t : Nat) (p : List Nat)
    (ws : List WriteStep) (ho : self.Conn.closed = false) :
    (∀ lim e, self.Conn.writes = ⟨lim, some e⟩ :: ws →
      (sendChunk self t p).1 = .ret (some e) ∧
      ∃ n, (sendChunk self t p).2.Conn.ops
        = self.Conn.ops ++ [.write ((chunkHeader t p).take n)]) ∧
    (∀ lim e, self.Conn.writes = ⟨none, none⟩ :: ⟨lim, some e⟩ :: ws →
      (sendChunk self t p).1 = .ret (some e) ∧
      ∃ n, (sendChunk self t p).2.Conn.ops
        = self.Conn.ops ++ [.write (chunkHeader t p), .write (p.take n)]) := by
  have hl : (chunkHeader t p).length = 5 := by simp [chunkHeader]
  constructor
  · intro lim e hw
    cases lim with
    | none =>
      refine ⟨?_, 5, ?_⟩ <;> simp [sendChunk, Conn.Write, ho, hw, hl]
    | some m =>
      refine ⟨?_, min m 5, ?_⟩ <;> simp [sendChunk, Conn.Write, ho, hw, hl]
  · intro lim e hw
    cases lim with
    | none =>
      refine ⟨?_, p.length, ?_⟩ <;> simp [sendChunk, Conn.Write, ho, hw, hl]
    | some m =>
      refine ⟨?_, min m p.length, ?_⟩ <;> simp [sendChunk, Conn.Write, ho, hw, hl]

/-- C16 does not hold: when the connection takes three of the five header bytes and
reports no error, `sendChunk` panics. -/
theorem sendChunk_short_write_not_returned :
    (sendChunk shortWriteConn 65 (ascii "hi")).1 = .panic "Unexpected short-write" ∧
    (sendChunk shortWriteConn 65 (ascii "hi")).2.Conn.ops = [.write [0, 0, 0]] := by
  decide

/-- C16, as the code has it: for every tag and payload, when an open connection takes
fewer bytes than the header has, or takes the header and then fewer bytes than the
payload has, without reporting an error, `sendChunk` panics with "Unexpected
short-write"; what the connection took is on the wire and nothing more is written. When
the write of the header, or the write of the payload after a header taken in full,
reports an error, `sendChunk` returns that error, whatever number of bytes was taken,
and writes nothing more. -/
theorem sendChunk_short_write_panics (self : NailgunConnection) (t : Nat) (p : List Nat)
    (m : Nat) (ws : List WriteStep) (ho : self.Conn.closed = false) :
    (self.Conn.writes = ⟨some m, none⟩ :: ws → m < 5 →
      (sendChunk self t p).1 = .panic "Unexpected short-write" ∧
      (sendChunk self t p).2.Conn.ops
        = self.Conn.ops ++ [.write ((chunkHeader t p).take m)]) ∧
    (self.Conn.writes = ⟨none, none⟩ :: ⟨some m, none⟩ :: ws → m < p.length →
      (sendChunk self t p).1 = .panic "Unexpected short-write" ∧
      (sendChunk self t p).2.Conn.ops
        = self.Conn.ops ++ [.write (chunkHeader t p), .write (p.take m)]) ∧
    (∀ lim e, self.Conn.writes = ⟨lim, some e⟩ :: ws →
      (sendChunk self t p).1 = .ret (some e) ∧
      ∃ n, (sendChunk self t p).2.Conn.ops
        = self.Conn.ops ++ [.write ((chunkHeader t p).take n)]) ∧
    (∀ lim e, self.Conn.writes = ⟨none, none⟩ :: ⟨lim, some e⟩ :: ws →
      (sendChunk self t p).1 = .ret (some e) ∧
      ∃ n, (sendChunk self t p).2.Conn.ops
        = self.Conn.ops ++ [.write (chunkHeader t p), .write (p.take n)]) := by
  have hl : (chunkHeader t p).length = 5 := by simp [chunkHeader]
  refine ⟨?_, ?_, (sendChunk_write_error self t p ws ho).1,
    (sendChunk_write_error self t p ws ho).2⟩
  · intro hw hm
    have h1 : self.Conn.Write (chunkHeader t p)
        = ((m, none), { self.Conn with
            writes := ws,
            ops := self.Conn.ops ++ [.write ((chunkHeader t p).take m)] }) := by
      simp [Conn.Write, ho, hw, hl, (Nat.min_eq_left (Nat.le_of_lt hm))]
    unfold sendChunk
    simp only [h1, hl]
    rw [if_neg (by simp), if_pos (by omega)]
    exact ⟨rfl, rfl⟩
  · intro hw hm
    have h1 : self.Conn.Write (chunkHeader t p)
        = ((5, none), { self.Conn with
            writes := ⟨some m, none⟩ :: ws,
            ops := self.Conn.ops ++ [.write (chunkHeader t p)] }) := by
      simp [Conn.Write, ho, hw, hl]
    have h2 : ({ self.Conn with
            writes := ⟨some m, none⟩ :: ws,
            ops := self.Conn.ops ++ [.write (chunkHeader t p)] } : Conn).Write p
        = ((m, none), { self.Conn with
            writes := ws,
            ops := self.Conn.ops ++ [.write (chunkHeader t p)] ++ [.write (p.take m)] }) := by
      simp [Conn.Write, ho, (Nat.min_eq_left (Nat.le_of_lt hm))]
    unfold sendChunk
    simp only [h1, hl, h2]
    rw [if_neg (by simp), if_neg (by simp), if_neg (by simp), if_pos (by omega)]
    exact ⟨rfl, by simp⟩

/-- A connection that takes three bytes of the header of the chunk `A`/"hi", and a
connection whose first write reports an error. -/
theorem sendChunk_short_write_panics_witness :
    ((sendChunk shortWriteConn 65 (ascii "hi")).1 = .panic "Unexpected short-write" ∧
      (sendChunk shortWriteConn 65 (ascii "hi")).2.Conn.ops
        = shortWriteConn.Conn.ops ++ [.write ((chunkHeader 65 (ascii "hi")).take 3)]) ∧
    ((sendChunk firstWriteFails 65 (ascii "hi")).1 = .ret (some (.connErr 1)) ∧
      ∃ n, (sendChunk firstWriteFails 65 (ascii "hi")).2.Conn.ops
        = firstWriteFails.Conn.ops ++ [.write ((chunkHeader 65 (ascii "hi")).take n)]) :=
  ⟨(sendChunk_short_write_panics shortWriteConn 65 (ascii "hi") 3 [] rfl).1 rfl (by decide),
   (sendChunk_short_write_panics firstWriteFails 65 (ascii "hi") 0 [] rfl).2.2.1 (some 0)
      (.connErr 1) rfl⟩

/-! ## Exit payloads with white space or a sign -/

theorem lor_32_whitespace (c : Nat) (h : Whitespace c) : ¬ (97 ≤ c ||| 32 ∧ c ||| 32 ≤ 122) := by
  unfold Whitespace at h
  rcases h with rfl | rfl | rfl | rfl | rfl | rfl <;> decide

theorem Conn.Read_ops_length (c : Conn) (k : Nat) :
    (c.Read k).2.ops.length = c.ops.length + 1 := by
  unfold Conn.Read
  split
  · simp
  · split
    · simp
    · split <;> simp

theorem Conn.Read_productive (c : Conn) (k : Nat) (hp : Productive c.reads) :
    Productive (c.Read k).2.reads ∧
    (0 < k → (c.Read k).1.2 = none → 0 < (c.Read k).1.1.length) := by
  unfold Conn.Read
  split
  · exact ⟨hp, fun _ h => by simp at h⟩
  · split
    · rename_i hr
      exact ⟨by simp [hr, Productive], fun _ h => by simp at h⟩
    · rename_i s rest hr
      rw [hr] at hp
      have hs := hp s (List.mem_cons_self _ _)
      have hrest : Productive rest := fun t ht => hp t (List.mem_cons_of_mem _ ht)
      split
      · refine ⟨hrest, fun _ h => ?_⟩
        simp only at h
        rcases hs with hs | hs
        · exact List.length_pos.mpr hs
        · exact absurd h hs
      · rename_i hlen
        refine ⟨?_, fun hk _ => ?_⟩
        · intro t ht
          simp only [List.mem_cons] at ht
          rcases ht with ht | ht
          · left
            rw [ht]
            simp only [ne_eq, List.drop_eq_nil_iff, not_le]
            omega
          · exact hrest t ht
        · simp only [List.length_take]
          omega

/-- A `Read` call is one more entry of the log; unless it returns no byte, it makes the
script cheaper. -/
theorem Conn.Read_spent (c : Conn) (k : Nat) :
    (c.Read k).2.ops.length + cost (c.Read k).2.reads ≤ c.ops.length + cost c.reads + 1 ∧
    (0 < (c.Read k).1.1.length →
      (c.Read k).2.ops.length + cost (c.Read k).2.reads ≤ c.ops.length + cost c.reads) := by
  have h1 := Conn.Read_ops_length c k
  have h2 := Conn.Read_cost c k
  exact ⟨by omega, fun _ => by omega⟩

theorem Conn.Read_spent_ok (c : Conn) (k : Nat) (hk : 0 < k) (h : (c.Read k).1.2 = none) :
    (c.Read k).2.ops.length + cost (c.Read k).2.reads ≤ c.ops.length + cost c.reads := by
  have h1 := Conn.Read_ops_length c k
  have h2 := Conn.Read_cost_lt c k hk h
  omega

theorem readAtLeastLoop_spent (fuel : Nat) (c : Conn) (min : Nat) (buf : List Nat) :
    (readAtLeastLoop fuel c min buf).2.ops.length + cost (readAtLeastLoop fuel c min buf).2.reads
      ≤ c.ops.length + cost c.reads + 1 ∧
    (∀ b e, (readAtLeastLoop fuel c min buf).1 = .ret (b, e) → min ≤ b.length →
      (readAtLeastLoop fuel c min buf).2.ops.length
        + cost (readAtLeastLoop fuel c min buf).2.reads ≤ c.ops.length + cost c.reads) := by
  induction fuel generalizing c buf with
  | zero => simp [readAtLeastLoop]
  | succ fuel ih =>
    rw [readAtLeastLoop]
    split
    · rename_i hlt
      simp only
      have hs := Conn.Read_spent c (min - buf.length)
      split
      · rename_i hnone
        have hok := Conn.Read_spent_ok c (min - buf.length) (by omega) hnone
        obtain ⟨i1, i2⟩ := ih (c.Read (min - buf.length)).2 (buf ++ (c.Read (min - buf.length)).1.1)
        exact ⟨by omega, fun b e hb hm => by have := i2 b e hb hm; omega⟩
      · refine ⟨hs.1, fun b e hb hm => ?_⟩
        simp only [Outcome.ret.injEq, Prod.mk.injEq] at hb
        rw [← hb.1, List.length_append] at hm
        exact hs.2 (by omega)
    · exact ⟨by simp only; omega, fun _ _ _ _ => le_refl _⟩

theorem ReadFull_spent (c : Conn) (len : Nat) :
    (ReadFull c len).2.ops.length + cost (ReadFull c len).2.reads
      ≤ c.ops.length + cost c.reads + 1 ∧
    (∀ b, (ReadFull c len).1 = .ret (b, none) →
      (ReadFull c len).2.ops.length + cost (ReadFull c len).2.reads
        ≤ c.ops.length + cost c.reads) := by
  obtain ⟨h1, h2⟩ := readAtLeastLoop_spent (cost c.reads + 1) c len []
  obtain ⟨_, h3⟩ := readAtLeastLoop_inv (cost c.reads + 1) c len []
  unfold ReadFull
  split
  · rename_i buf err c' heq
    rw [heq] at h1 h2 h3
    have h4 := h2 buf err rfl
    have h5 := (h3 buf err rfl).2
    simp only at h1 h4
    split
    · rename_i hle
      exact ⟨h1, fun _ _ => h4 hle⟩
    · rename_i hle
      split
      · exact ⟨h1, fun b hb => by simp at hb⟩
      · refine ⟨h1, fun b hb => ?_⟩
        simp only [Outcome.ret.injEq, Prod.mk.injEq] at hb
        exact absurd (h5 hb.2) hle
  · rename_i m c' heq
    rw [heq] at h1
    exact ⟨h1, fun b hb => by simp at hb⟩
  · rename_i c' heq
    rw [heq] at h1
    exact ⟨h1, fun b hb => by simp at hb⟩

theorem ReadFull_total (c : Conn) (len : Nat) : ∃ b e, (ReadFull c len).1 = .ret (b, e) := by
  obtain ⟨b, e, h⟩ := readAtLeastLoop_total (cost c.reads + 1) c len [] (by omega)
  unfold ReadFull
  rcases hr : readAtLeastLoop (cost c.reads + 1) c len [] with ⟨o, c'⟩
  rw [hr] at h
  simp only at h
  subst h
  simp only
  split
  · exact ⟨_, _, rfl⟩
  · split <;> exact ⟨_, _, rfl⟩

theorem readFully_spent (self : NailgunConnection) (len : Nat) :
    (readFully self len).2.Conn.ops.length + cost (readFully self len).2.Conn.reads
      ≤ self.Conn.ops.length + cost self.Conn.reads + 1 ∧
    (∀ b, (readFully self len).1 = .ret (b, none) →
      (readFully self len).2.Conn.ops.length + cost (readFully self len).2.Conn.reads
        ≤ self.Conn.ops.length + cost self.Conn.reads) := by
  obtain ⟨h1, h2⟩ := ReadFull_spent self.Conn len
  unfold readFully
  split
  · rename_i buf e c heq
    rw [heq] at h1
    exact ⟨h1, fun b hb => by simp at hb⟩
  · rename_i buf c heq
    rw [heq] at h1 h2
    split
    · exact ⟨h1, fun b hb => by simp at hb⟩
    · exact ⟨h1, fun b _ => h2 buf rfl⟩
  · rename_i m c heq
    rw [heq] at h1
    exact ⟨h1, fun b hb => by simp at hb⟩
  · rename_i c heq
    rw [heq] at h1
    exact ⟨h1, fun b hb => by simp at hb⟩

theorem readFully_total (self : NailgunConnection) (len : Nat) :
    ∃ b e, (readFully self len).1 = .ret (b, e) := by
  obtain ⟨b, e, h⟩ := ReadFull_total self.Conn len
  unfold readFully
  rcases hr : ReadFull self.Conn len with ⟨o, c'⟩
  rw [hr] at h
  simp only at h
  subst h
  cases e with
  | some e => exact ⟨_, _, rfl⟩
  | none =>
    simp only
    split <;> exact ⟨_, _, rfl⟩

theorem destWrite_sinks (self : NailgunConnection) (dest : Dest) (p : List Nat)
    (ho : self.Output.isSome) (he : self.Outerr.isSome) :
    (∃ r, (destWrite self dest p).1 = .ret r) ∧
    (destWrite self dest p).2.Output.isSome ∧ (destWrite self dest p).2.Outerr.isSome := by
  unfold destWrite
  cases dest
  · simp only
    split
    · rename_i h; simp [h] at ho
    · exact ⟨⟨_, rfl⟩, rfl, he⟩
  · simp only
    split
    · rename_i h; simp [h] at he
    · exact ⟨⟨_, rfl⟩, ho, rfl⟩

theorem destWrite_not_outOfFuel (self : NailgunConnection) (dest : Dest) (p : List Nat) :
    (destWrite self dest p).1 ≠ .outOfFuel := by
  unfold destWrite
  cases dest <;> simp only <;> split <;> simp

theorem payloadLoop_spent (N : Nat) (hN : 0 < N) (dest : Dest) (fuel : Nat)
    (self : NailgunConnection) (L : Nat) :
    (payloadLoop N dest fuel self L).2.Conn.ops.length
        + cost (payloadLoop N dest fuel self L).2.Conn.reads
      ≤ self.Conn.ops.length + cost self.Conn.reads + 1 ∧
    ((payloadLoop N dest fuel self L).1 = .ret none →
      (payloadLoop N dest fuel self L).2.Conn.ops.length
          + cost (payloadLoop N dest fuel self L).2.Conn.reads
        ≤ self.Conn.ops.length + cost self.Conn.reads) := by
  induction fuel generalizing self L with
  | zero => simp [payloadLoop]
  | succ fuel ih =>
    rw [payloadLoop]
    split
    · rename_i hL
      simp only
      generalize hk : (if L > N then N else L) = k
      have hk0 : 0 < k := by rw [← hk]; split <;> omega
      have hs := Conn.Read_spent self.Conn k
      have hok := Conn.Read_spent_ok self.Conn k hk0
      have hd := destWrite_conn { self with Conn := (self.Conn.Read k).2 } dest
        (self.Conn.Read k).1.1
      split
      · rename_i hn
        have hs2 := hs.2 hn
        split
        · rename_i heq
          rw [heq] at hd; simp only at hd
          rw [hd]; exact ⟨by omega, fun h => by simp at h⟩
        · rename_i self2 heq
          rw [heq] at hd; simp only at hd
          split
          · rw [hd]; exact ⟨by omega, fun h => by simp at h⟩
          · obtain ⟨i1, i2⟩ := ih self2 (L - (self.Conn.Read k).1.1.length)
            rw [hd] at i1 i2
            exact ⟨by omega, fun h => by have := i2 h; omega⟩
        · rename_i heq
          rw [heq] at hd; simp only at hd
          rw [hd]; exact ⟨by omega, fun h => by simp at h⟩
        · rename_i heq
          rw [heq] at hd; simp only at hd
          rw [hd]; exact ⟨by omega, fun h => by simp at h⟩
      · split
        · exact ⟨hs.1, fun h => by simp at h⟩
        · rename_i hnone
          have := hok hnone
          obtain ⟨i1, i2⟩ := ih { self with Conn := (self.Conn.Read k).2 } L
          simp only at i1 i2
          exact ⟨by omega, fun h => by have := i2 h; omega⟩
    · exact ⟨by simp only; omega, fun _ => le_refl _⟩

theorem payloadLoop_total (N : Nat) (hN : 0 < N) (dest : Dest) (fuel : Nat)
    (self : NailgunConnection) (L : Nat) (hf : cost self.Conn.reads < fuel)
    (ho : self.Output.isSome) (he : self.Outerr.isSome) :
    ∃ r, (payloadLoop N dest fuel self L).1 = .ret r := by
  induction fuel generalizing self L with
  | zero => omega
  | succ fuel ih =>
    rw [payloadLoop]
    split
    · rename_i hL
      simp only
      generalize hk : (if L > N then N else L) = k
      have hk0 : 0 < k := by rw [← hk]; split <;> omega
      have hlt := Conn.Read_cost_lt self.Conn k hk0
      have hd := destWrite_conn { self with Conn := (self.Conn.Read k).2 } dest
        (self.Conn.Read k).1.1
      obtain ⟨⟨r, hr⟩, ho2, he2⟩ := destWrite_sinks { self with Conn := (self.Conn.Read k).2 }
        dest (self.Conn.Read k).1.1 ho he
      split
      · rcases hw : destWrite { self with Conn := (self.Conn.Read k).2 } dest
          (self.Conn.Read k).1.1 with ⟨o, self2⟩
        rw [hw] at hd hr ho2 he2
        simp only at hd hr ho2 he2
        subst hr
        cases r with
        | some e => exact ⟨_, rfl⟩
        | none =>
          simp only
          split
          · exact ⟨_, rfl⟩
          · rename_i hnone
            have := hlt hnone
            exact ih self2 _ (by rw [hd]; omega) ho2 he2
      · split
        · exact ⟨_, rfl⟩
        · rename_i hnone
          have := hlt hnone
          exact ih _ _ (by simp only; omega) ho he
    · exact ⟨_, rfl⟩

/-- One iteration of the payload loop on a productive transport: it makes one read, and
then the method returns, or the loop goes on with a strictly smaller remaining length. -/
theorem payloadLoop_length_decreases (N : Nat) (hN : 0 < N) (dest : Dest)
    (self : NailgunConnection) (L : Nat) (hL : 0 < L) (hp : Productive self.Conn.reads) :
    ∃ s, s.Conn.ops.length = self.Conn.ops.length + 1 ∧
      ((∃ o, o ≠ .outOfFuel ∧ o ≠ .ret none ∧
          ∀ fuel, payloadLoop N dest (fuel + 1) self L = (o, s)) ∨
        (∃ L2, L2 < L ∧ Productive s.Conn.reads ∧
          ∀ fuel, payloadLoop N dest (fuel + 1) self L = payloadLoop N dest fuel s L2)) := by
  generalize hk : (if L > N then N else L) = k
  have hk0 : 0 < k := by rw [← hk]; split <;> omega
  have hkL : k ≤ L := by rw [← hk]; split <;> omega
  obtain ⟨hp2, hpos⟩ := Conn.Read_productive self.Conn k hp
  have hlen := Conn.Read_length_le self.Conn k
  have hops := Conn.Read_ops_length self.Conn k
  have hd := destWrite_conn { self with Conn := (self.Conn.Read k).2 } dest
    (self.Conn.Read k).1.1
  have hnf := destWrite_not_outOfFuel { self with Conn := (self.Conn.Read k).2 } dest
    (self.Conn.Read k).1.1
  by_cases hn : (self.Conn.Read k).1.1.length > 0
  · rcases hw : destWrite { self with Conn := (self.Conn.Read k).2 } dest
      (self.Conn.Read k).1.1 with ⟨o, self2⟩
    rw [hw] at hd hnf
    simp only at hd hnf
    refine ⟨self2, by rw [hd]; exact hops, ?_⟩
    rcases o with ⟨_ | e⟩ | m | _
    · cases hE : (self.Conn.Read k).1.2 with
      | none =>
        right
        refine ⟨L - (self.Conn.Read k).1.1.length, by omega, by rw [hd]; exact hp2,
          fun fuel => ?_⟩
        rw [payloadLoop]
        simp only [hL, ↓reduceIte, hk, hn, hw, hE]
      | some e =>
        left
        refine ⟨.ret (some (0, some e)), by simp, by simp, fun fuel => ?_⟩
        rw [payloadLoop]
        simp only [hL, ↓reduceIte, hk, hn, hw, hE]
    · left
      refine ⟨.ret (some (0, some e)), by simp, by simp, fun fuel => ?_⟩
      rw [payloadLoop]
      simp only [hL, ↓reduceIte, hk, hn, hw]
    · left
      refine ⟨.panic m, by simp, by simp, fun fuel => ?_⟩
      rw [payloadLoop]
      simp only [hL, ↓reduceIte, hk, hn, hw]
    · exact absurd rfl hnf
  · cases hE : (self.Conn.Read k).1.2 with
    | none => exact absurd (hpos hk0 hE) hn
    | some e =>
      refine ⟨{ self with Conn := (self.Conn.Read k).2 }, hops, ?_⟩
      left
      refine ⟨.ret (some (0, some e)), by simp, by simp, fun fuel => ?_⟩
      rw [payloadLoop]
      simp only [hL, ↓reduceIte, hk, hn, hE]

/-- On a productive transport the remaining length bounds the iterations of the payload
loop: a budget above it is never used up, and the loop makes at most that many reads. -/
theorem payloadLoop_variant (N : Nat) (hN : 0 < N) (dest : Dest) (fuel : Nat)
    (self : NailgunConnection) (L : Nat) (hp : Productive self.Conn.reads) (hf : L < fuel) :
    (payloadLoop N dest fuel self L).1 ≠ .outOfFuel ∧
    (payloadLoop N dest fuel self L).2.Conn.ops.length ≤ self.Conn.ops.length + L := by
  induction fuel generalizing self L with
  | zero => omega
  | succ fuel ih =>
    by_cases hL : 0 < L
    · rcases payloadLoop_length_decreases N hN dest self L hL hp with
        ⟨s, hs, ⟨o, h1, _, h3⟩ | ⟨L2, h1, h2, h4⟩⟩
      · rw [h3 fuel]
        exact ⟨h1, by simp only; omega⟩
      · rw [h4 fuel]
        obtain ⟨i1, i2⟩ := ih s L2 h2 (by omega)
        exact ⟨i1, by omega⟩
    · have h0 : L = 0 := by omega
      subst h0
      rw [payloadLoop]
      simp

theorem switchChunk_spent (N : Nat) (self : NailgunConnection) (t L : Nat) :
    (switchChunk N self t L).2.Conn.ops.length + cost (switchChunk N self t L).2.Conn.reads
      ≤ self.Conn.ops.length + cost self.Conn.reads + 1 ∧
    (∀ r, (switchChunk N self t L).1 = .done r →
      (∃ v, r = .ret v) ∨ r = .panic "slice bounds out of range") := by
  unfold switchChunk
  split_ifs
  · exact ⟨by simp only; omega, fun r hr => by cases hr⟩
  · exact ⟨by simp only; omega, fun r hr => by cases hr⟩
  · exact ⟨by simp only; omega, fun r hr => by cases hr; simp⟩
  · exact ⟨by simp only; omega, fun r hr => by cases hr⟩
  · exact ⟨by simp only; omega, fun r hr => by cases hr; simp⟩
  · obtain ⟨h4, _⟩ := readFully_spent self L
    obtain ⟨b, e, h5⟩ := readFully_total self L
    split <;> rename_i heq <;> rw [heq] at h4 h5
    · exact ⟨h4, fun r hr => by cases hr; simp⟩
    · simp at h5
    · simp at h5
    · split <;> exact ⟨h4, fun r hr => by cases hr; simp⟩
  · exact ⟨by simp only; omega, fun r hr => by cases hr; simp⟩

theorem readFromServerLoop_total (host : Host) (N : Nat) (hN : 0 < N) (fuel : Nat)
    (self : NailgunConnection) (hf : cost self.Conn.reads < fuel) :
    ((∃ v, (readFromServerLoop host N fuel self).1 = .ret v) ∨
      (readFromServerLoop host N fuel self).1 = .panic "slice bounds out of range") ∧
    (readFromServerLoop host N fuel self).2.Conn.ops.length
        + cost (readFromServerLoop host N fuel self).2.Conn.reads
      ≤ self.Conn.ops.length + cost self.Conn.reads + 1 := by
  induction fuel generalizing self with
  | zero => omega
  | succ fuel ih =>
    obtain ⟨_, _, _, hc⟩ := readFully_inv self 5
    obtain ⟨hsp1, hsp2⟩ := readFully_spent self 5
    obtain ⟨b, e, ht⟩ := readFully_total self 5
    rcases h : readFully self 5 with ⟨o, self1⟩
    rw [h] at hc hsp1 hsp2 ht
    simp only at hc hsp1 hsp2 ht
    simp only [readFromServerLoop, h]
    rcases o with ⟨hd, _ | e⟩ | m | _
    · simp only
      have hc1 := hc hd none rfl
      have hc2 := hc1.2 rfl
      have hsp3 := hsp2 hd rfl
      obtain ⟨_, hs2, hs3⟩ := switchChunk_inv N (defaultSinks host self1) (hd.getD 4 0)
        (payloadLengthOf hd)
      obtain ⟨hs4, hs5⟩ := switchChunk_spent N (defaultSinks host self1) (hd.getD 4 0)
        (payloadLengthOf hd)
      have hd3 := defaultSinks_conn host self1
      have hd4 := defaultSinks_eq host self1
      rcases hs : switchChunk N (defaultSinks host self1) (hd.getD 4 0) (payloadLengthOf hd)
        with ⟨sw, self2⟩
      rw [hs] at hs2 hs3 hs4 hs5
      rw [hd3] at hs4
      simp only at hs2 hs3 hs4 hs5
      rcases sw with dest | _ | r
      · simp only
        have he2 : self2 = defaultSinks host self1 := hs2 dest rfl
        have he : self2.Conn = self1.Conn := by rw [he2, hd3]
        have ho : self2.Output.isSome := by rw [he2, hd4]; rfl
        have hr : self2.Outerr.isSome := by rw [he2, hd4]; rfl
        obtain ⟨_, h3⟩ := payloadLoop_inv N dest (cost self2.Conn.reads + 1) self2
          (payloadLengthOf hd)
        obtain ⟨h5, h6⟩ := payloadLoop_spent N hN dest (cost self2.Conn.reads + 1) self2
          (payloadLengthOf hd)
        obtain ⟨v, h7⟩ := payloadLoop_total N hN dest (cost self2.Conn.reads + 1) self2
          (payloadLengthOf hd) (by omega) ho hr
        rcases hp : payloadLoop N dest (cost self2.Conn.reads + 1) self2 (payloadLengthOf hd)
          with ⟨po, self3⟩
        rw [hp] at h3 h5 h6 h7
        rw [he] at h3 h5 h6
        simp only at h3 h5 h6 h7
        rcases po with ⟨_ | r⟩ | m | _
        · obtain ⟨i1, i2⟩ := ih self3 (by omega)
          have := h6 rfl
          refine ⟨i1, ?_⟩
          simp only
          omega
        · exact ⟨Or.inl ⟨_, rfl⟩, by simp only; omega⟩
        · simp at h7
        · simp at h7
      · have he2 : self2 = defaultSinks host self1 := hs3 rfl
        have he : self2.Conn = self1.Conn := by rw [he2, hd3]
        obtain ⟨i1, i2⟩ := ih self2 (by rw [he]; omega)
        rw [he] at i2
        refine ⟨i1, ?_⟩
        simp only
        omega
      · simp only
        refine ⟨?_, by omega⟩
        rcases hs5 r rfl with ⟨v, hv⟩ | hv
        · exact Or.inl ⟨v, hv⟩
        · exact Or.inr hv
    · exact ⟨Or.inl ⟨_, rfl⟩, hsp1⟩
    · simp at ht
    · simp at ht

/-- C20: on a finite response stream each of whose reads returns at least one byte or an
error, `readFromServer` terminates. It returns an exit code or an error (or stops at the
out-of-range slice of an over-long exit chunk); any loop budget above the cost of the
stream gives the same result; the transport sees `Read` calls only, at most one more than
the cost of the stream. In the payload loop every iteration makes one read and then
returns from the method or goes on with a strictly smaller remaining length, so that a
payload of `L` bytes takes at most `L` iterations. -/
theorem readFromServer_terminates (host : Host) (self : NailgunConnection)
    (hp : Productive self.Conn.reads) :
    ((∃ code err, (readFromServer host self).1 = .ret (code, err)) ∨
      (readFromServer host self).1 = .panic "slice bounds out of range") ∧
    (∀ fuel, cost self.Conn.reads < fuel →
      readFromServerLoop host 16284 fuel self = readFromServer host self) ∧
    self.Conn.ReadsOnly (readFromServer host self).2.Conn ∧
    (readFromServer host self).2.Conn.ops.length
      ≤ self.Conn.ops.length + cost self.Conn.reads + 1 ∧
    (∀ dest L, 0 < L →
      ∃ s, s.Conn.ops.length = self.Conn.ops.length + 1 ∧
        ((∃ o, o ≠ .outOfFuel ∧ o ≠ .ret none ∧
            ∀ fuel, payloadLoop 16284 dest (fuel + 1) self L = (o, s)) ∨
          (∃ L2, L2 < L ∧ Productive s.Conn.reads ∧
            ∀ fuel, payloadLoop 16284 dest (fuel + 1) self L
              = payloadLoop 16284 dest fuel s L2))) ∧
    (∀ dest L fuel, L < fuel →
      (payloadLoop 16284 dest fuel self L).1 ≠ .outOfFuel ∧
      (payloadLoop 16284 dest fuel self L).2.Conn.ops.length ≤ self.Conn.ops.length + L) := by
  obtain ⟨h1, h2⟩ := readFromServerLoop_total host 16284 (by norm_num)
    (cost self.Conn.reads + 1) self (by omega)
  refine ⟨?_, fun fuel hf => ?_, ?_, ?_, fun dest L hL => ?_, fun dest L fuel hf => ?_⟩
  · rcases h1 with ⟨⟨code, err⟩, hv⟩ | hv
    · exact Or.inl ⟨code, err, hv⟩
    · exact Or.inr hv
  · exact readFromServerLoop_fuel host 16284 fuel _ self hf (by omega)
  · exact readFromServerLoop_inv host 16284 _ self
  · unfold readFromServer
    omega
  · exact payloadLoop_length_decreases 16284 (by norm_num) dest self L hL hp
  · exact payloadLoop_variant 16284 (by norm_num) dest fuel self L hp hf

/-- The response `1`/"hello", `2`/"oops", `X`/"3", handed over one byte at a time. -/
theorem readFromServer_terminates_witness :
    Productive (freshNg (byteWise helloOopsThree)).Conn.reads ∧
    ((∃ code err, (readFromServer exampleHost (freshNg (byteWise helloOopsThree))).1
        = .ret (code, err)) ∨
      (readFromServer exampleHost (freshNg (byteWise helloOopsThree))).1
        = .panic "slice bounds out of range") ∧
    (readFromServer exampleHost (freshNg (byteWise helloOopsThree))).2.Conn.ops.length
      ≤ (freshNg (byteWise helloOopsThree)).Conn.ops.length
        + cost (freshNg (byteWise helloOopsThree)).Conn.reads + 1 ∧
    (∀ dest L fuel, L < fuel →
      (payloadLoop 16284 dest fuel (freshNg (byteWise helloOopsThree)) L).1 ≠ .outOfFuel ∧
      (payloadLoop 16284 dest fuel (freshNg (byteWise helloOopsThree)) L).2.Conn.ops.length
        ≤ (freshNg (byteWise helloOopsThree)).Conn.ops.length + L) :=
  ⟨by decide,
   (readFromServer_terminates exampleHost (freshNg (byteWise helloOopsThree)) (by decide)).1,
   (readFromServer_terminates exampleHost (freshNg (byteWise helloOopsThree))
      (by decide)).2.2.2.1,
   (readFromServer_terminates exampleHost (freshNg (byteWise helloOopsThree))
      (by decide)).2.2.2.2.2⟩

/-! ## What a run leaves on the connection and in the sinks -/

theorem flat_append_steps (as bs : List ReadStep) : flat (as ++ bs) = flat as ++ flat bs := by
  simp [flat]

theorem Conn.Consumed.nothing (c : Conn) : c.Consumed c := ⟨[], by simp, by simp⟩

theorem Conn.Consumed.andThen {a b c : Conn} (h1 : a.Consumed b) (h2 : b.Consumed c) :
    a.Consumed c := by
  obtain ⟨r1, o1, f1⟩ := h1
  obtain ⟨r2, o2, f2⟩ := h2
  exact ⟨r1 ++ r2, by simp [o2, o1], by simp [f1, f2]⟩

theorem Conn.Read_consumed (c : Conn) (k : Nat) : c.Consumed (c.Read k).2 := by
  unfold Conn.Read
  split
  · exact ⟨[[]], by simp, by simp⟩
  · split
    · exact ⟨[[]], by simp, by simp⟩
    · rename_i s rest hr
      split
      · exact ⟨[s.data], by simp, by simp [hr, flat]⟩
      · exact ⟨[s.data.take k], by simp, by
          simp only [hr, flat, List.map_cons, List.flatten_cons, List.flatten_nil,
            List.append_nil]
          rw [← List.append_assoc, List.take_append_drop]⟩

theorem readAtLeastLoop_consumed (fuel : Nat) (c : Conn) (min : Nat) (buf : List Nat) :
    c.Consumed (readAtLeastLoop fuel c min buf).2 := by
  induction fuel generalizing c buf with
  | zero => exact Conn.Consumed.nothing c
  | succ fuel ih =>
    rw [readAtLeastLoop]
    split
    · simp only
      have hr := Conn.Read_consumed c (min - buf.length)
      split
      · exact hr.andThen (ih _ _)
      · exact hr
    · exact Conn.Consumed.nothing c

theorem ReadFull_consumed (c : Conn) (len : Nat) : c.Consumed (ReadFull c len).2 := by
  have h1 := readAtLeastLoop_consumed (cost c.reads + 1) c len []
  unfold ReadFull
  split <;> rename_i heq <;> rw [heq] at h1
  · split
    · exact h1
    · split <;> exact h1
  · exact h1
  · exact h1

theorem readFully_consumed (self : NailgunConnection) (len : Nat) :
    self.Conn.Consumed (readFully self len).2.Conn := by
  have h1 := ReadFull_consumed self.Conn len
  unfold readFully
  split <;> rename_i heq <;> rw [heq] at h1
  · exact h1
  · split <;> exact h1
  · exact h1
  · exact h1

theorem payloadLoop_consumed (N : Nat) (dest : Dest) (fuel : Nat) (self : NailgunConnection)
    (L : Nat) : self.Conn.Consumed (payloadLoop N dest fuel self L).2.Conn := by
  induction fuel generalizing self L with
  | zero => exact Conn.Consumed.nothing _
  | succ fuel ih =>
    rw [payloadLoop]
    split
    · simp only
      generalize hk : (if L > N then N else L) = k
      have hr := Conn.Read_consumed self.Conn k
      have hd := destWrite_conn { self with Conn := (self.Conn.Read k).2 } dest
        (self.Conn.Read k).1.1
      split
      · split
        · rename_i heq
          rw [heq] at hd; simp only at hd
          rw [hd]; exact hr
        · rename_i self2 heq
          rw [heq] at hd; simp only at hd
          split
          · rw [hd]; exact hr
          · have i1 := ih self2 (L - (self.Conn.Read k).1.1.length)
            rw [hd] at i1
            exact hr.andThen i1
        · rename_i heq
          rw [heq] at hd; simp only at hd
          rw [hd]; exact hr
        · rename_i heq
          rw [heq] at hd; simp only at hd
          rw [hd]; exact hr
      · split
        · exact hr
        · exact hr.andThen (ih { self with Conn := (self.Conn.Read k).2 } L)
    · exact Conn.Consumed.nothing _

theorem NailgunConnection.Grows.unchanged (host : Host) (self : NailgunConnection) :
    self.Grows host self := ⟨⟨[], by simp⟩, ⟨[], by simp⟩⟩

theorem NailgunConnection.Grows.thenGrows {host : Host} {a b c : NailgunConnection}
    (h1 : a.Grows host b) (h2 : b.Grows host c) : a.Grows host c := by
  obtain ⟨⟨o1, ho1⟩, ⟨e1, he1⟩⟩ := h1
  obtain ⟨⟨o2, ho2⟩, ⟨e2, he2⟩⟩ := h2
  exact ⟨⟨o1 ++ o2, by rw [ho2, ho1, List.append_assoc]⟩,
    ⟨e1 ++ e2, by rw [he2, he1, List.append_assoc]⟩⟩

theorem NailgunConnection.Grows.of_eq (host : Host) {a b : NailgunConnection}
    (ho : b.Output = a.Output) (he : b.Outerr = a.Outerr) : a.Grows host b :=
  ⟨⟨[], by simp [ho]⟩, ⟨[], by simp [he]⟩⟩

theorem Sink.Write_writes (s : Sink) (p : List Nat) :
    ∃ x, (s.Write p).2.writes = s.writes ++ [x] := by
  unfold Sink.Write
  split <;> exact ⟨_, rfl⟩

theorem destWrite_grows (host : Host) (self : NailgunConnection) (dest : Dest)
    (p : List Nat) : self.Grows host (destWrite self dest p).2 := by
  unfold destWrite
  cases dest
  · simp only
    split
    · exact NailgunConnection.Grows.unchanged host self
    · rename_i s hs
      obtain ⟨x, hx⟩ := Sink.Write_writes s p
      exact ⟨⟨[x], by simp [hs, hx]⟩, ⟨[], by simp⟩⟩
  · simp only
    split
    · exact NailgunConnection.Grows.unchanged host self
    · rename_i s hs
      obtain ⟨x, hx⟩ := Sink.Write_writes s p
      exact ⟨⟨[], by simp⟩, ⟨[x], by simp [hs, hx]⟩⟩

theorem payloadLoop_grows (host : Host) (N : Nat) (dest : Dest) (fuel : Nat)
    (self : NailgunConnection) (L : Nat) :
    self.Grows host (payloadLoop N dest fuel self L).2 := by
  induction fuel generalizing self L with
  | zero => exact NailgunConnection.Grows.unchanged host self
  | succ fuel ih =>
    rw [payloadLoop]
    split
    · simp only
      generalize hk : (if L > N then N else L) = k
      have h0 : self.Grows host { self with Conn := (self.Conn.Read k).2 } :=
        NailgunConnection.Grows.of_eq host rfl rfl
      have hd := destWrite_grows host { self with Conn := (self.Conn.Read k).2 } dest
        (self.Conn.Read k).1.1
      split
      · split <;> rename_i heq <;> rw [heq] at hd <;> simp only at hd
        · exact h0.thenGrows hd
        · split
          · exact h0.thenGrows hd
          · exact (h0.thenGrows hd).thenGrows (ih _ _)
        · exact h0.thenGrows hd
        · exact h0.thenGrows hd
      · split
        · exact h0
        · exact h0.thenGrows (ih _ _)
    · exact NailgunConnection.Grows.unchanged host self

theorem defaultSinks_grows (host : Host) (self : NailgunConnection) :
    self.Grows host (defaultSinks host self) := by
  rw [defaultSinks_eq]
  exact ⟨⟨[], by simp⟩, ⟨[], by simp⟩⟩

theorem switchChunk_grows (host : Host) (N : Nat) (self : NailgunConnection) (t L : Nat) :
    self.Grows host (switchChunk N self t L).2 := by
  unfold switchChunk
  split_ifs
  all_goals try exact NailgunConnection.Grows.unchanged host self
  obtain ⟨h1, h2, _⟩ := readFully_inv self L
  split <;> rename_i heq <;> rw [heq] at h1 h2 <;> simp only at h1 h2
  · exact NailgunConnection.Grows.of_eq host h1 h2
  · exact NailgunConnection.Grows.of_eq host h1 h2
  · exact NailgunConnection.Grows.of_eq host h1 h2
  · split <;> exact NailgunConnection.Grows.of_eq host h1 h2

theorem readFromServerLoop_grows (host : Host) (N : Nat) (fuel : Nat)
    (self : NailgunConnection) : self.Grows host (readFromServerLoop host N fuel self).2 := by
  induction fuel generalizing self with
  | zero => exact NailgunConnection.Grows.unchanged host self
  | succ fuel ih =>
    obtain ⟨g1, g2, _⟩ := readFully_inv self 5
    rcases h : readFully self 5 with ⟨o, self1⟩
    rw [h] at g1 g2
    simp only at g1 g2
    have h1 : self.Grows host self1 := NailgunConnection.Grows.of_eq host g1 g2
    simp only [readFromServerLoop, h]
    rcases o with ⟨hd, _ | e⟩ | m | _
    · simp only
      have h2 := (defaultSinks_grows host self1).thenGrows
        (switchChunk_grows host N (defaultSinks host self1) (hd.getD 4 0) (payloadLengthOf hd))
      rcases hs : switchChunk N (defaultSinks host self1) (hd.getD 4 0) (payloadLengthOf hd)
        with ⟨sw, self2⟩
      rw [hs] at h2
      simp only at h2
      rcases sw with dest | _ | r
      · simp only
        have h3 := payloadLoop_grows host N dest (cost self2.Conn.reads + 1) self2
          (payloadLengthOf hd)
        rcases hp : payloadLoop N dest (cost self2.Conn.reads + 1) self2 (payloadLengthOf hd)
          with ⟨po, self3⟩
        rw [hp] at h3
        simp only at h3
        rcases po with ⟨_ | r⟩ | m | _
        · exact (h1.thenGrows (h2.thenGrows h3)).thenGrows (ih _)
        · exact h1.thenGrows (h2.thenGrows h3)
        · exact h1.thenGrows (h2.thenGrows h3)
        · exact h1.thenGrows (h2.thenGrows h3)
      · exact (h1.thenGrows h2).thenGrows (ih _)
      · exact h1.thenGrows h2
    · exact h1
    · exact h1
    · exact h1

/-- The reads that take a stream from `Delivers (bs ++ more)` to `Delivers more` returned
exactly `bs`. -/
theorem Conn.Consumed.bytes {c c' : Conn} {bs more : List Nat} {post : List ReadStep}
    (h : c.Consumed c') (h1 : c.Delivers (bs ++ more) post) (h2 : c'.Delivers more post) :
    ∃ rs : List (List Nat), c'.ops = c.ops ++ rs.map ConnOp.read ∧ rs.flatten = bs := by
  obtain ⟨rs, ho, hf⟩ := h
  obtain ⟨_, pre1, r1, _, f1⟩ := h1
  obtain ⟨_, pre2, r2, _, f2⟩ := h2
  refine ⟨rs, ho, ?_⟩
  simp only [r1, r2, flat_append_steps, f1, f2, List.append_assoc] at hf
  exact (List.append_cancel_right hf).symm

theorem data_chunk_relayed (host : Host) (post : List ReadStep) (self : NailgunConnection)
    (t : Nat) (dest : Dest) (p more : List Nat) (s : Sink)
    (ht : t = 49 ∧ dest = .Output ∨ t = 50 ∧ dest = .Outerr)
    (hp : p.length < 2 ^ 32)
    (h : self.Conn.Delivers (frame t p ++ more) post)
    (hs : (defaultSinks host self).sink dest = some s) (hr : s.Reliable) :
    ∃ ws c', ws.flatten = p ∧ (∀ w ∈ ws, 0 < w.length ∧ w.length ≤ 16284) ∧
      c'.Delivers more post ∧ self.Conn.Consumed c' ∧
      readFromServer host self
        = readFromServer host
            (({ Conn := c', Output := some (self.Output.getD host.Stdout),
                Outerr := some (self.Outerr.getD host.Stderr) } : NailgunConnection).setSink
              dest (s.afterWrites ws)) := by
  have h' : self.Conn.Delivers (be32 p.length ++ [t] ++ (p ++ more)) post := by
    simpa [frame, List.append_assoc] using h
  obtain ⟨c1, g1, g2⟩ := header_delivers post self p.length t (p ++ more) h'
  have k1 := readFully_consumed self 5
  rw [g1] at k1
  simp only at k1
  have h2 := readFromServer_step host self
  rw [g1] at h2
  simp only [payloadLengthOf_be32 p.length t hp, be32_getD_tag, defaultSinks_eq] at h2
  rw [defaultSinks_eq] at hs
  have hsw : switchChunk 16284
      { Conn := c1, Output := some (self.Output.getD host.Stdout),
        Outerr := some (self.Outerr.getD host.Stderr) } t p.length
      = (.forward dest,
          { Conn := c1, Output := some (self.Output.getD host.Stdout),
            Outerr := some (self.Outerr.getD host.Stderr) }) := by
    rcases ht with ⟨rfl, rfl⟩ | ⟨rfl, rfl⟩ <;> simp [switchChunk]
  obtain ⟨ws, c2, h3, h4, h5, h6⟩ := payloadLoop_delivers 16284 (by omega) dest post
    (cost c1.reads + 1)
    { Conn := c1, Output := some (self.Output.getD host.Stdout),
      Outerr := some (self.Outerr.getD host.Stderr) } p more s g2
    (by cases dest <;> exact hs) hr (by simp)
  have k2 := payloadLoop_consumed 16284 dest (cost c1.reads + 1)
    { Conn := c1, Output := some (self.Output.getD host.Stdout),
      Outerr := some (self.Outerr.getD host.Stderr) } p.length
  rw [h3] at k2
  have k3 : c1.Consumed c2 := by
    cases dest <;> exact k2
  refine ⟨ws, c2, h4, h5, h6, k1.andThen k3, ?_⟩
  rw [h2, hsw]
  simp only
  rw [h3]

/-- C7: a stdout-data (`1`) chunk of any declared length, handed over by the transport in
reads of any sizes. The reads `readFromServer` makes up to the end of the chunk return
exactly the bytes of the chunk, so that the bytes after it are all still unread; the
output sink is written the payload completely and in order, in writes `ws` of at most
16284 bytes each, before anything else; the error sink is untouched by the chunk; and
`readFromServer` goes on from there with the next header. When `readFromServer` has
ended, the writes of the output sink are those it had before, then `ws`, then what later
chunks brought, and the reads on the connection are those of the chunk followed by later
reads. -/
theorem stdout_chunk_delivered (host : Host) (post : List ReadStep)
    (self : NailgunConnection) (p more : List Nat) (hp : p.length < 2 ^ 32)
    (h : self.Conn.Delivers (frame 49 p ++ more) post)
    (hr : (self.Output.getD host.Stdout).Reliable) :
    ∃ ws c', ws.flatten = p ∧ (∀ w ∈ ws, 0 < w.length ∧ w.length ≤ 16284) ∧
      c'.Delivers more post ∧
      ((self.Output.getD host.Stdout).afterWrites ws).received
        = (self.Output.getD host.Stdout).received ++ p ∧
      readFromServer host self
        = readFromServer host
            { Conn := c', Output := some ((self.Output.getD host.Stdout).afterWrites ws),
              Outerr := some (self.Outerr.getD host.Stderr) } ∧
      (∃ rs : List (List Nat), c'.ops = self.Conn.ops ++ rs.map ConnOp.read ∧
        rs.flatten = frame 49 p) ∧
      c'.ReadsOnly (readFromServer host self).2.Conn ∧
      (∃ later, ((readFromServer host self).2.Output.getD host.Stdout).writes
        = (self.Output.getD host.Stdout).writes ++ ws ++ later) ∧
      (∃ later, ((readFromServer host self).2.Outerr.getD host.Stderr).writes
        = (self.Outerr.getD host.Stderr).writes ++ later) := by
  obtain ⟨ws, c', h1, h2, h3, hc, h4⟩ := data_chunk_relayed host post self 49 .Output p more
    (self.Output.getD host.Stdout) (Or.inl ⟨rfl, rfl⟩) hp h
    (by rw [defaultSinks_eq]; rfl) hr
  have h4' : readFromServer host self
      = readFromServer host
          { Conn := c', Output := some ((self.Output.getD host.Stdout).afterWrites ws),
            Outerr := some (self.Outerr.getD host.Stderr) } := h4
  have hro := readFromServerLoop_inv host 16284
    (cost c'.reads + 1)
    { Conn := c', Output := some ((self.Output.getD host.Stdout).afterWrites ws),
      Outerr := some (self.Outerr.getD host.Stderr) }
  obtain ⟨⟨lo, hlo⟩, ⟨le, hle⟩⟩ := readFromServerLoop_grows host 16284 (cost c'.reads + 1)
    { Conn := c', Output := some ((self.Output.getD host.Stdout).afterWrites ws),
      Outerr := some (self.Outerr.getD host.Stderr) }
  refine ⟨ws, c', h1, h2, h3, by rw [Sink.received_afterWrites, h1], h4', hc.bytes h h3, ?_,
    ⟨lo, ?_⟩, ⟨le, ?_⟩⟩
  · rw [h4']; exact hro
  · rw [h4']; exact hlo
  · rw [h4']; exact hle

/-- The chunk `1`/"hello", followed by an exit chunk, read one byte at a time. -/
theorem stdout_chunk_delivered_witness :
    ∃ ws c', ws.flatten = ascii "hello" ∧ (∀ w ∈ ws, 0 < w.length ∧ w.length ≤ 16284) ∧
      c'.Delivers [0, 0, 0, 1, 88, 51] [] ∧
      (((freshNg (byteWise (frame 49 (ascii "hello") ++ [0, 0, 0, 1, 88, 51]))).Output.getD
          exampleHost.Stdout).afterWrites ws).received
        = ((freshNg (byteWise (frame 49 (ascii "hello") ++ [0, 0, 0, 1, 88, 51]))).Output.getD
            exampleHost.Stdout).received ++ ascii "hello" ∧
      readFromServer exampleHost
          (freshNg (byteWise (frame 49 (ascii "hello") ++ [0, 0, 0, 1, 88, 51])))
        = readFromServer exampleHost
            { Conn := c',
              Output := some
                (((freshNg (byteWise (frame 49 (ascii "hello")
                    ++ [0, 0, 0, 1, 88, 51]))).Output.getD exampleHost.Stdout).afterWrites ws),
              Outerr := some
                ((freshNg (byteWise (frame 49 (ascii "hello")
                    ++ [0, 0, 0, 1, 88, 51]))).Outerr.getD exampleHost.Stderr) } ∧
      (∃ rs : List (List Nat),
        c'.ops = (freshNg (byteWise (frame 49 (ascii "hello")
            ++ [0, 0, 0, 1, 88, 51]))).Conn.ops ++ rs.map ConnOp.read ∧
        rs.flatten = frame 49 (ascii "hello")) ∧
      c'.ReadsOnly (readFromServer exampleHost
        (freshNg (byteWise (frame 49 (ascii "hello") ++ [0, 0, 0, 1, 88, 51])))).2.Conn ∧
      (∃ later, ((readFromServer exampleHost
          (freshNg (byteWise (frame 49 (ascii "hello")
            ++ [0, 0, 0, 1, 88, 51])))).2.Output.getD exampleHost.Stdout).writes
        = ((freshNg (byteWise (frame 49 (ascii "hello")
            ++ [0, 0, 0, 1, 88, 51]))).Output.getD exampleHost.Stdout).writes ++ ws ++ later) ∧
      (∃ later, ((readFromServer exampleHost
          (freshNg (byteWise (frame 49 (ascii "hello")
            ++ [0, 0, 0, 1, 88, 51])))).2.Outerr.getD exampleHost.Stderr).writes
        = ((freshNg (byteWise (frame 49 (ascii "hello")
            ++ [0, 0, 0, 1, 88, 51]))).Outerr.getD exampleHost.Stderr).writes ++ later) :=
  stdout_chunk_delivered exampleHost [] (freshNg (byteWise (frame 49 (ascii "hello")
      ++ [0, 0, 0, 1, 88, 51]))) (ascii "hello") [0, 0, 0, 1, 88, 51] (by decide)
    (freshConn_delivers _ _ (errFree_byteWise _) (flat_byteWise _)) reliable_empty

/-! ## The separator entries -/

theorem QuoteRune_printable (r : Nat) (h1 : 32 ≤ r) (h2 : r < 127) (h3 : r ≠ 39)
    (h4 : r ≠ 92) : QuoteRune r = [39, r, 39] := by
  have h7 : r ≠ 7 ∧ r ≠ 8 ∧ r ≠ 12 ∧ r ≠ 10 ∧ r ≠ 13 ∧ r ≠ 9 ∧ r ≠ 11 := by omega
  have hlow : ¬ (r < 32 ∨ r = 127) := by omega
  simp only [QuoteRune, h3, h4, h7.1, h7.2.1, h7.2.2.1, h7.2.2.2.1, h7.2.2.2.2.1,
    h7.2.2.2.2.2.1, h7.2.2.2.2.2.2, hlow, if_false]

/-- C14 fails at a Unix host, where the file (directory) separator is `/` and the
path-list separator is `:` : of the two entries `sendEnvironment` puts on the wire after
the environment, `NAILGUN_FILESEPARATOR` carries `':'`, the path-list separator and not
the file separator, and `NAILGUN_PATHSEPARATOR` carries `'/'`. -/
theorem separator_entries_on_unix :
    exampleHost.PathSeparator = 47 ∧ exampleHost.PathListSeparator = 58 ∧
    decodeFrames (sendEnvironment exampleHost (freshNg [])).2.Conn.sent
      = some [(69, ascii "A=B"), (69, ascii "NAILGUN_FILESEPARATOR=':'"),
          (69, ascii "NAILGUN_PATHSEPARATOR='/'")] ∧
    decodeFrames (sendEnvironment exampleHost (freshNg [])).2.Conn.sent
      ≠ some [(69, ascii "A=B"),
          (69, ascii "NAILGUN_FILESEPARATOR=" ++ [39, exampleHost.PathSeparator, 39]),
          (69, ascii "NAILGUN_PATHSEPARATOR=" ++ [39, exampleHost.PathListSeparator, 39])] := by
  decide

/-- C14, as the code has it: on a connection that accepts every write in full, the last
two frames `sendEnvironment` writes are `E` frames whose payloads are
`NAILGUN_FILESEPARATOR=` followed by the quoted path-list separator of the host
(`os.PathListSeparator`) and `NAILGUN_PATHSEPARATOR=` followed by the quoted file
separator of the host (`os.PathSeparator`). The quoted form of a printable ASCII
character other than the single quote and the backslash is that one character between
single quotes; the backslash is quoted as two backslashes between single quotes. -/
theorem separator_entries_sent (host : Host) (self : NailgunConnection)
    (hp : ∀ e ∈ host.environ, e.length < 2 ^ 32) (hc : self.Conn.AcceptsAll) :
    (sendEnvironment host self).1 = .ret none ∧
    decodeFrames ((sendEnvironment host self).2.Conn.sent.drop self.Conn.sent.length)
      = some (host.environ.map (fun e => (69, e))
          ++ [(69, ascii "NAILGUN_FILESEPARATOR=" ++ QuoteRune host.PathListSeparator),
              (69, ascii "NAILGUN_PATHSEPARATOR=" ++ QuoteRune host.PathSeparator)]) ∧
    (∀ r, 32 ≤ r → r < 127 → r ≠ 39 → r ≠ 92 → QuoteRune r = [39, r, 39]) ∧
    QuoteRune 92 = [39, 92, 92, 39] := by
  rw [sendEnvironment_acceptsAll _ _ hc]
  refine ⟨rfl, ?_, QuoteRune_printable, by decide⟩
  simp only [Conn.sent_afterWrites, chunkWrites_flatten, List.drop_left]
  exact decodeFrames_encodeFrames _ (environmentFrames_bound host hp)

/-- A Unix host with the environment `A=B`. -/
theorem separator_entries_sent_witness :
    (sendEnvironment exampleHost (freshNg [])).1 = .ret none ∧
    decodeFrames ((sendEnvironment exampleHost (freshNg [])).2.Conn.sent.drop
        (freshNg []).Conn.sent.length)
      = some (exampleHost.environ.map (fun e => (69, e))
          ++ [(69, ascii "NAILGUN_FILESEPARATOR=" ++ QuoteRune exampleHost.PathListSeparator),
              (69, ascii "NAILGUN_PATHSEPARATOR=" ++ QuoteRune exampleHost.PathSeparator)]) ∧
    QuoteRune exampleHost.PathListSeparator = [39, 58, 39] ∧
    QuoteRune exampleHost.PathSeparator = [39, 47, 39] :=
  ⟨(separator_entries_sent exampleHost (freshNg []) (by decide) (by decide)).1,
   (separator_entries_sent exampleHost (freshNg []) (by decide) (by decide)).2.1,
   (separator_entries_sent exampleHost (freshNg []) (by decide) (by decide)).2.2.1 58
      (by decide) (by decide) (by decide) (by decide),
   (separator_entries_sent exampleHost (freshNg []) (by decide) (by decide)).2.2.1 47
      (by decide) (by decide) (by decide) (by decide)⟩

end Nailgo
